import Mathlib

/-!
Verification of the v2ray-scrapper proxy-fleet evaluator.

This file gives a shallow embedding, in Lean 4, of the parts of the
program that the specification's claims are about:

* `src/service/parse_uri.py` — `ProxyParser`, parsing proxy URIs into
  descriptor dictionaries;
* `src/service/uri_generator.py` — `UriGenerator`, regenerating URIs from
  descriptor dictionaries;
* `src/service/subscription_service.py` — fingerprinting, deduplication,
  the evaluator (`compute_top_servers`), the cache state machine
  (`update_cache`, `get_site_specific_servers`);
* `src/service/xray_service.py` — the engine-config builder and the batch
  probe runner (`build_xray_config_for_batch`, `run_test_batch`,
  `evaluate_site_accessibility`);
* `src/main.py` — the HTTP endpoints that disambiguate the service-level
  results (`/servers/live`, `/subscription/site-specific`).

Python strings are modelled as `List Char`; Python scalar values stored in
descriptor dictionaries as `PyVal`; dictionaries as ordered association
lists (Python dicts preserve insertion order).  Machine floats appear in
the program only as probe delays; they are modelled as `WithTop ℚ` (`⊤` is
`float("inf")`); `round` is modelled as round-half-to-even on `ℚ`, which
is exact for the values in scope.  Python's `hash` of the per-protocol
identity tuple is modelled by the tuple itself (an injective abstraction:
equal tuples give equal hashes; the specification itself demands that the
fingerprint behave as the identity tuple).  Exceptions are modelled with
`Except PyExc`.

The relevant behaviour of the Python standard library (CPython 3.11:
`urllib.parse.urlsplit`, `parse_qs`, `quote`, `urlencode`, `base64`,
`json`) is embedded from its sources alongside the program.  The JSON
model covers scalar values and depth-one containers, which is the whole
shape space reachable by this program's generator, and integer JSON
numbers (no float parsing); the NFKC netloc check of `urlsplit` is a
no-op for the ASCII strings in scope and is modelled as a no-op.
-/

/-- Python strings, as lists of unicode scalar values. -/
abbrev Str := List Char

/-- Shorthand for turning a Lean string literal into the model's string type. -/
def S (s : String) : Str := s.data

/-- Python scalar values as they occur in descriptor dictionaries:
`None`, booleans, integers and strings. -/
inductive PyVal where
  | null : PyVal
  | bool (b : Bool) : PyVal
  | int (n : Int) : PyVal
  | str (s : Str) : PyVal
  deriving DecidableEq, Repr

/-- A Python dictionary with string keys, modelled as an ordered
association list (CPython dicts preserve insertion order, which the
deduplication step relies on). -/
abbrev Dict := List (Str × PyVal)

/-- First-match association lookup: `d[k]` when the key is present. -/
def assocFind (k : Str) : List (Str × α) → Option α
  | [] => none
  | (k2, v) :: rest => if k2 = k then some v else assocFind k rest

/-- Python `d.get(k, default)`: the stored value when the key is present —
even when that stored value is `None` — and `default` otherwise. -/
def pyGet (d : Dict) (k : Str) (default : PyVal) : PyVal :=
  match assocFind k d with
  | some v => v
  | none => default

/-- Python `d.get(k)` (single-argument form, default `None`). -/
def pyGetN (d : Dict) (k : Str) : PyVal := pyGet d k .null

/-- Python `d[k] = v`: replace the value in place when the key is present
(keeping its position), append otherwise. -/
def dictSet (d : Dict) (k : Str) (v : PyVal) : Dict :=
  match d with
  | [] => [(k, v)]
  | (k2, w) :: rest => if k2 = k then (k2, v) :: rest else (k2, w) :: dictSet rest k v

/-- Python truthiness of the scalar values in scope: `None`, `False`, `0`
and the empty string are falsy. -/
def pyTruthy : PyVal → Bool
  | .null => false
  | .bool b => b
  | .int n => n ≠ 0
  | .str s => !s.isEmpty

/-- The exception classes this code base raises or catches. -/
inductive PyExc where
  | valueError : PyExc
  | attributeError : PyExc
  | typeError : PyExc
  | keyError : PyExc
  | indexError : PyExc
  | jsonDecodeError : PyExc
  | binasciiError : PyExc
  | unicodeDecodeError : PyExc
  | fileNotFoundError : PyExc
  | otherError : PyExc
  deriving DecidableEq, Repr

/-- Decidable equality for `Except`, used to evaluate concrete runs. -/
instance instDecEqExcept [DecidableEq e] [DecidableEq a] : DecidableEq (Except e a) := fun x y =>
  match x, y with
  | .ok v, .ok w =>
      if h : v = w then .isTrue (by rw [h]) else .isFalse (fun hh => by cases hh; exact h rfl)
  | .error v, .error w =>
      if h : v = w then .isTrue (by rw [h]) else .isFalse (fun hh => by cases hh; exact h rfl)
  | .ok _, .error _ => .isFalse (fun hh => by cases hh)
  | .error _, .ok _ => .isFalse (fun hh => by cases hh)

/-- A Python `try` body guarded by an `except (…)` clause: errors for
which `handled` holds are replaced by `fallback`, others propagate. -/
def pyCatch (body : Except PyExc α) (handled : PyExc → Bool) (fallback : α) : Except PyExc α :=
  match body with
  | .ok a => .ok a
  | .error e => if handled e then .ok fallback else .error e

/-- Character range test for ASCII decimal digits. -/
def isDigitCh (c : Char) : Bool := '0' ≤ c && c ≤ '9'

/-- Character test for ASCII lower-case letters. -/
def isLowerCh (c : Char) : Bool := 'a' ≤ c && c ≤ 'z'

/-- Character test for ASCII upper-case letters. -/
def isUpperCh (c : Char) : Bool := 'A' ≤ c && c ≤ 'Z'

/-- Character test for ASCII letters. -/
def isAlphaCh (c : Char) : Bool := isLowerCh c || isUpperCh c

/-- Lower-casing of a single character, as `str.lower` acts on the ASCII
range (the strings in scope are ASCII). -/
def lowerCh (c : Char) : Char :=
  if isUpperCh c then Char.ofNat (c.toNat + 32) else c

/-- Python `s.lower()` on the ASCII range. -/
def pyLower (s : Str) : Str := s.map lowerCh

/-- The decimal digit character of a value below ten. -/
def digitCh (n : Nat) : Char := Char.ofNat (48 + n)

/-- Decimal digits of `n`, least significant first; the fuel argument
bounds the recursion and any fuel at least `n` is exact. -/
def natDigitsAux : Nat → Nat → List Nat
  | 0, _ => []
  | _ + 1, 0 => []
  | fuel + 1, n => n % 10 :: natDigitsAux fuel (n / 10)

/-- Python `str(n)` for a natural number. -/
def natToStr (n : Nat) : Str :=
  if n = 0 then ['0'] else ((natDigitsAux n n).map digitCh).reverse

/-- Python `str(n)` for an integer. -/
def intToStr (n : Int) : Str :=
  if n < 0 then '-' :: natToStr n.natAbs else natToStr n.natAbs

/-- Numeric value of a decimal digit character. -/
def digitVal (c : Char) : Nat := c.toNat - 48

/-- Value of a decimal digit string, most significant first (the caller
checks that every character is a digit). -/
def digitsToNat (s : Str) : Nat := s.foldl (fun acc c => acc * 10 + digitVal c) 0

/-- Python `int(s)` restricted to the shapes this program feeds it: an
optional sign followed by one or more ASCII digits.  Anything else raises
`ValueError` (underscore separators and exotic unicode digits accepted by
CPython do not occur in scope). -/
def pyIntOfStr (s : Str) : Except PyExc Int :=
  match s with
  | '-' :: rest =>
      if rest ≠ [] && rest.all isDigitCh then .ok (-(digitsToNat rest : Int))
      else .error .valueError
  | '+' :: rest =>
      if rest ≠ [] && rest.all isDigitCh then .ok (digitsToNat rest : Int)
      else .error .valueError
  | _ =>
      if s ≠ [] && s.all isDigitCh then .ok (digitsToNat s : Int)
      else .error .valueError

/-- Python `int(v)` on a scalar: identity on ints, string parse on
strings, `True`/`False` to one/zero, `TypeError` on `None`. -/
def pyIntOfVal : PyVal → Except PyExc Int
  | .int n => .ok n
  | .bool b => .ok (if b then 1 else 0)
  | .str s => pyIntOfStr s
  | .null => .error .typeError

/-- Python `str(v)` on a scalar value. -/
def pyStrOfVal : PyVal → Str
  | .str s => s
  | .int n => intToStr n
  | .bool b => if b then S "True" else S "False"
  | .null => S "None"

/-- Split a string at the first occurrence of `c`: `some (before, after)`
when present, `none` otherwise. -/
def breakFirst (c : Char) : Str → Option (Str × Str)
  | [] => none
  | x :: xs =>
      if x = c then some ([], xs)
      else (breakFirst c xs).map (fun p => (x :: p.1, p.2))

/-- Python `s.partition(c)`: `(before, found, after)` at the first
occurrence, `(s, False, "")` when absent. -/
def partitionCh (c : Char) (l : Str) : Str × Bool × Str :=
  match breakFirst c l with
  | some (a, b) => (a, true, b)
  | none => (l, false, [])

/-- Python `s.rpartition(c)`: split at the last occurrence, with
`("", False, s)` when absent. -/
def rpartitionCh (c : Char) (l : Str) : Str × Bool × Str :=
  match breakFirst c l.reverse with
  | some (a, b) => (b.reverse, true, a.reverse)
  | none => ([], false, l)

/-- Python `s.split(c)` with no limit: the list of chunks between
occurrences of `c` (always one more chunk than separators). -/
def splitOnCh (c : Char) (l : Str) : List Str :=
  l.foldr
    (fun x acc =>
      match acc with
      | h :: t => if x = c then [] :: h :: t else (x :: h) :: t
      | [] => [[x]])
    [[]]

/-- Python `sep.join(parts)`. -/
def strJoin (sep : Str) : List Str → Str
  | [] => []
  | [x] => x
  | x :: xs => x ++ sep ++ strJoin sep xs

/-- UTF-8 encoding of one unicode scalar value. -/
def utf8EncodeChar (c : Char) : List Nat :=
  let n := c.toNat
  if n < 0x80 then [n]
  else if n < 0x800 then [0xC0 + n / 64, 0x80 + n % 64]
  else if n < 0x10000 then [0xE0 + n / 4096, 0x80 + n / 64 % 64, 0x80 + n % 64]
  else [0xF0 + n / 262144, 0x80 + n / 4096 % 64, 0x80 + n / 64 % 64, 0x80 + n % 64]

/-- Python `s.encode("utf-8")`. -/
def utf8Encode (s : Str) : List Nat := s.flatMap utf8EncodeChar

/-- Continuation-byte test for UTF-8 decoding. -/
def isCont (b : Nat) : Bool := 0x80 ≤ b && b ≤ 0xBF

/-- One UTF-8 decoding step: the decoded character and the bytes it
consumed, or `none` (with one byte consumed) on a malformed prefix. -/
def utf8Step : List Nat → Option Char × Nat
  | [] => (none, 1)
  | b :: rest =>
      if b < 0x80 then (some (Char.ofNat b), 1)
      else if 0xC2 ≤ b && b ≤ 0xDF then
        match rest with
        | c1 :: _ =>
            if isCont c1 then (some (Char.ofNat ((b - 0xC0) * 64 + (c1 - 0x80))), 2)
            else (none, 1)
        | [] => (none, 1)
      else if 0xE0 ≤ b && b ≤ 0xEF then
        match rest with
        | c1 :: c2 :: _ =>
            let lo1 := if b = 0xE0 then 0xA0 else 0x80
            let hi1 := if b = 0xED then 0x9F else 0xBF
            if (lo1 ≤ c1 && c1 ≤ hi1) && isCont c2 then
              (some (Char.ofNat ((b - 0xE0) * 4096 + (c1 - 0x80) * 64 + (c2 - 0x80))), 3)
            else (none, 1)
        | _ => (none, 1)
      else if 0xF0 ≤ b && b ≤ 0xF4 then
        match rest with
        | c1 :: c2 :: c3 :: _ =>
            let lo1 := if b = 0xF0 then 0x90 else 0x80
            let hi1 := if b = 0xF4 then 0x8F else 0xBF
            if (lo1 ≤ c1 && c1 ≤ hi1) && isCont c2 && isCont c3 then
              (some (Char.ofNat ((b - 0xF0) * 262144 + (c1 - 0x80) * 4096 +
                (c2 - 0x80) * 64 + (c3 - 0x80))), 4)
            else (none, 1)
        | _ => (none, 1)
      else (none, 1)

/-- UTF-8 decode to a token list (`none` marks a malformed byte; error
recovery advances one byte, which is exact for the ASCII data in scope). -/
def utf8Tokens : Nat → List Nat → List (Option Char)
  | 0, _ => []
  | _, [] => []
  | fuel + 1, bs =>
      let (tok, used) := utf8Step bs
      tok :: utf8Tokens fuel (bs.drop (max used 1))

/-- Python `bytes.decode("utf-8")` (strict): `UnicodeDecodeError` on any
malformed byte. -/
def utf8DecodeStrict (bs : List Nat) : Except PyExc Str :=
  let toks := utf8Tokens (bs.length + 1) bs
  if toks.all Option.isSome then .ok (toks.filterMap id) else .error .unicodeDecodeError

/-- Python `bytes.decode("utf-8", errors="ignore")`. -/
def utf8DecodeIgnore (bs : List Nat) : Str :=
  (utf8Tokens (bs.length + 1) bs).filterMap id

/-- Python `bytes.decode("utf-8", errors="replace")`. -/
def utf8DecodeReplace (bs : List Nat) : Str :=
  (utf8Tokens (bs.length + 1) bs).map (fun t => t.getD (Char.ofNat 0xFFFD))

/-- The RFC 3986 unreserved characters, CPython's `_ALWAYS_SAFE`. -/
def alwaysSafeCh (c : Char) : Bool :=
  isAlphaCh c || isDigitCh c || c = '_' || c = '.' || c = '-' || c = '~'

/-- Upper-case hexadecimal digit characters, as `quote` emits them. -/
def hexDigitUpper (n : Nat) : Char :=
  if n < 10 then digitCh n else Char.ofNat (55 + n)

/-- Percent-quote one byte, given the extra safe characters. -/
def quoteByte (safe : List Char) (b : Nat) : Str :=
  if b < 128 && (alwaysSafeCh (Char.ofNat b) || (Char.ofNat b) ∈ safe) then [Char.ofNat b]
  else ['%', hexDigitUpper (b / 16), hexDigitUpper (b % 16)]

/-- CPython `urllib.parse.quote(s, safe)`: UTF-8 encode, then
percent-quote every byte outside `_ALWAYS_SAFE ∪ safe`. -/
def pyQuote (safe : List Char) (s : Str) : Str :=
  (utf8Encode s).flatMap (quoteByte safe)

/-- CPython `urllib.parse.quote_plus(s, safe)`: `quote` with space mapped
to `+`. -/
def pyQuotePlus (safe : List Char) (s : Str) : Str :=
  if ' ' ∉ s then pyQuote safe s
  else (pyQuote (safe ++ [' ']) s).map (fun c => if c = ' ' then '+' else c)

/-- Hexadecimal digit value, `none` for non-hex characters. -/
def hexVal (c : Char) : Option Nat :=
  if isDigitCh c then some (digitVal c)
  else if 'a' ≤ c && c ≤ 'f' then some (c.toNat - 87)
  else if 'A' ≤ c && c ≤ 'F' then some (c.toNat - 55)
  else none

/-- Collect the maximal leading run of `%XX` escapes as bytes, returning
the remaining string. -/
def pctRun : Nat → Str → List Nat × Str
  | 0, s => ([], s)
  | fuel + 1, s =>
      match s with
      | '%' :: h1 :: h2 :: rest =>
          match hexVal h1, hexVal h2 with
          | some v1, some v2 =>
              let (bs, r) := pctRun fuel rest
              ((v1 * 16 + v2) :: bs, r)
          | _, _ => ([], s)
      | _ => ([], s)

/-- CPython `urllib.parse.unquote`: each maximal `%XX` run is decoded as
UTF-8 with replacement; `%` not followed by two hex digits passes
through. -/
def pyUnquoteAux : Nat → Str → Str
  | 0, s => s
  | fuel + 1, s =>
      match s with
      | [] => []
      | '%' :: t =>
          let (bs, rest) := pctRun (t.length + 1) ('%' :: t)
          if bs.isEmpty then '%' :: pyUnquoteAux fuel t
          else utf8DecodeReplace bs ++ pyUnquoteAux fuel rest
      | c :: t => c :: pyUnquoteAux fuel t

/-- CPython `urllib.parse.unquote`. -/
def pyUnquote (s : Str) : Str :=
  if '%' ∉ s then s else pyUnquoteAux s.length s

/-- CPython `urllib.parse.urlencode` on a sequence of pairs (the
`doseq=False` path used by the generator, `quote_via=quote_plus`,
`safe=''`; non-string values go through `str`). -/
def pyUrlencode (params : List (Str × PyVal)) : Str :=
  strJoin ['&'] (params.map (fun p => pyQuotePlus [] p.1 ++ ['='] ++ pyQuotePlus [] (pyStrOfVal p.2)))

/-- CPython `urllib.parse.parse_qsl` with default options: split on `&`,
drop empty chunks, drop chunks with no `=`, drop pairs with an empty
value, map `+` to space and unquote both name and value. -/
def parseQsl (qs : Str) : List (Str × Str) :=
  if qs.isEmpty then []
  else
    (splitOnCh '&' qs).foldr
      (fun chunk acc =>
        if chunk.isEmpty then acc
        else
          match breakFirst '=' chunk with
          | none => acc
          | some (name, value) =>
              if value.isEmpty then acc
              else
                (pyUnquote (name.map (fun c => if c = '+' then ' ' else c)),
                 pyUnquote (value.map (fun c => if c = '+' then ' ' else c))) :: acc)
      []

/-- Append `v` to the entry for `k`, creating the entry at the end when
absent (CPython dict insertion-order semantics of `parse_qs`). -/
def qsInsert (acc : List (Str × List Str)) (k : Str) (v : Str) : List (Str × List Str) :=
  match acc with
  | [] => [(k, [v])]
  | (k2, vs) :: rest => if k2 = k then (k2, vs ++ [v]) :: rest else (k2, vs) :: qsInsert rest k v

/-- CPython `urllib.parse.parse_qs` with default options. -/
def parseQs (qs : Str) : List (Str × List Str) :=
  (parseQsl qs).foldl (fun acc p => qsInsert acc p.1 p.2) []

/-- The program's idiom `query_params.get(k, [default])[0]`: the first
value for `k` when present, `default` otherwise. -/
def qsGet (qp : List (Str × List Str)) (k : Str) (default : PyVal) : PyVal :=
  match assocFind k qp with
  | some (v :: _) => .str v
  | some [] => default
  | none => default

/-- The five components produced by CPython `urllib.parse.urlsplit`. -/
structure SplitResult where
  scheme : Str
  netloc : Str
  path : Str
  query : Str
  fragment : Str
  deriving DecidableEq, Repr

/-- Characters CPython accepts inside a URL scheme. -/
def isSchemeCh (c : Char) : Bool :=
  isAlphaCh c || isDigitCh c || c = '+' || c = '-' || c = '.'

/-- Scheme recognition step of `urlsplit`: split at the first `:` when
the prefix is a valid ASCII scheme (lower-casing it), identity
otherwise. -/
def schemeSplit (url : Str) : Str × Str :=
  match breakFirst ':' url with
  | none => ([], url)
  | some (pre, post) =>
      if pre ≠ [] && (match pre with | c :: _ => isAlphaCh c | [] => false) && pre.all isSchemeCh
      then (pyLower pre, post)
      else ([], url)

/-- CPython `_splitnetloc`: the netloc extends to the first of `/`, `?`
or `#`. -/
def splitNetloc (url : Str) : Str × Str :=
  (url.takeWhile (fun c => c ≠ '/' && c ≠ '?' && c ≠ '#'),
   url.dropWhile (fun c => c ≠ '/' && c ≠ '?' && c ≠ '#'))

/-- CPython 3.11 `urllib.parse.urlsplit`: strip `\t`, `\r`, `\n`,
recognise the scheme, take the netloc after `//`, reject half-bracketed
IPv6 netlocs with `ValueError`, then split fragment (first `#`) and query
(first `?`).  The NFKC netloc check is a no-op on ASCII netlocs, the only
ones in scope, and is modelled as a no-op. -/
def pyUrlsplit (url0 : Str) : Except PyExc SplitResult :=
  let url := url0.filter (fun c => c ≠ '\t' && c ≠ '\r' && c ≠ '\n')
  let sp := schemeSplit url
  let scheme := sp.1
  let u1 := sp.2
  let np := if u1.take 2 = ['/', '/'] then splitNetloc (u1.drop 2) else ([], u1)
  let netloc := np.1
  let u2 := np.2
  if ('[' ∈ netloc && ']' ∉ netloc) || (']' ∈ netloc && '[' ∉ netloc) then .error .valueError
  else
    let fp := match breakFirst '#' u2 with
      | some p => p
      | none => (u2, [])
    let qp := match breakFirst '?' fp.1 with
      | some p => p
      | none => (fp.1, [])
    .ok ⟨scheme, netloc, qp.1, qp.2, fp.2⟩

/-- The `(hostname, port-string)` pair of CPython's `_hostinfo`. -/
def SplitResult.hostinfo (r : SplitResult) : Str × Option Str :=
  let hostinfo := (rpartitionCh '@' r.netloc).2.2
  let br := partitionCh '[' hostinfo
  if br.2.1 then
    let inner := partitionCh ']' br.2.2
    let port := (partitionCh ':' inner.2.2).2.2
    (inner.1, if port = [] then none else some port)
  else
    let hp := partitionCh ':' hostinfo
    (hp.1, if hp.2.2 = [] && !hp.2.1 then none else if hp.2.2 = [] then none else some hp.2.2)

/-- CPython `SplitResult.username`: the part of the userinfo before the
first `:`, `None` when the netloc has no `@`. -/
def SplitResult.username (r : SplitResult) : Option Str :=
  let up := rpartitionCh '@' r.netloc
  if up.2.1 then some (partitionCh ':' up.1).1 else none

/-- CPython `SplitResult.hostname`: lower-cased host, `None` when empty
(zone-id suffix after `%` kept unlowered). -/
def SplitResult.hostname (r : SplitResult) : Option Str :=
  let h := r.hostinfo.1
  if h = [] then none
  else
    let zp := partitionCh '%' h
    some (pyLower zp.1 ++ (if zp.2.1 then '%' :: zp.2.2 else []))

/-- CPython `SplitResult.port`: decimal parse of the port component with
a 0–65535 range check; `ValueError` on junk or out-of-range, `None` when
absent. -/
def SplitResult.port (r : SplitResult) : Except PyExc (Option Nat) :=
  match r.hostinfo.2 with
  | none => .ok none
  | some p =>
      if p.all isDigitCh then
        let n := digitsToNat p
        if n ≤ 65535 then .ok (some n) else .error .valueError
      else .error .valueError

/-- The standard base64 alphabet character for a 6-bit value. -/
def b64Ch (n : Nat) : Char :=
  if n < 26 then Char.ofNat (65 + n)
  else if n < 52 then Char.ofNat (97 + (n - 26))
  else if n < 62 then Char.ofNat (48 + (n - 52))
  else if n = 62 then '+'
  else '/'

/-- Index of a character in the standard base64 alphabet. -/
def b64Index (c : Char) : Option Nat :=
  if isUpperCh c then some (c.toNat - 65)
  else if isLowerCh c then some (c.toNat - 97 + 26)
  else if isDigitCh c then some (c.toNat - 48 + 52)
  else if c = '+' then some 62
  else if c = '/' then some 63
  else none

/-- Standard base64 encoding of a byte string, with `=` padding
(CPython `base64.b64encode`). -/
def b64Encode : List Nat → Str
  | [] => []
  | [b1] => [b64Ch (b1 / 4), b64Ch (b1 % 4 * 16), '=', '=']
  | [b1, b2] => [b64Ch (b1 / 4), b64Ch (b1 % 4 * 16 + b2 / 16), b64Ch (b2 % 16 * 4), '=']
  | b1 :: b2 :: b3 :: rest =>
      b64Ch (b1 / 4) :: b64Ch (b1 % 4 * 16 + b2 / 16) :: b64Ch (b2 % 16 * 4 + b3 / 64) ::
        b64Ch (b3 % 64) :: b64Encode rest

/-- URL-safe base64 encoding (CPython `base64.urlsafe_b64encode`):
standard encoding with `+`, `/` translated to `-`, `_`. -/
def b64UrlsafeEncode (bs : List Nat) : Str :=
  (b64Encode bs).map (fun c => if c = '+' then '-' else if c = '/' then '_' else c)

/-- CPython `binascii.a2b_base64` in lenient mode, as `base64.b64decode`
with `validate=False` invokes it: characters outside the alphabet are
skipped; `=` is ignored while fewer than two data characters are pending;
a quad closed by padding ends the decode; leftover data characters raise
`binascii.Error`.  `pad2` records a first `=` seen after exactly two
pending characters (a following data character cancels it, matching the
observed CPython behaviour). -/
def a2b64Aux : Nat → Str → List Nat → Bool → Except PyExc (List Nat)
  | 0, _, _, _ => .error .binasciiError
  | _ + 1, [], quad, pad2 =>
      if quad.isEmpty && !pad2 then .ok [] else .error .binasciiError
  | fuel + 1, c :: t, quad, pad2 =>
      if c = '=' then
        match quad with
        | [] => a2b64Aux fuel t [] pad2
        | [_] => .error .binasciiError
        | [a, b] =>
            if pad2 then .ok [a * 4 + b / 16]
            else a2b64Aux fuel t [a, b] true
        | [a, b, c3] => .ok [a * 4 + b / 16, b % 16 * 16 + c3 / 4]
        | _ => .error .binasciiError
      else
        match b64Index c with
        | none => a2b64Aux fuel t quad pad2
        | some v =>
            match quad with
            | [a, b, c3] =>
                match a2b64Aux fuel t [] false with
                | .ok rest => .ok ((a * 4 + b / 16) :: (b % 16 * 16 + c3 / 4) :: (c3 % 4 * 64 + v) :: rest)
                | .error e => .error e
            | q => a2b64Aux fuel t (q ++ [v]) false

/-- CPython `base64.b64decode(s, validate=False)`. -/
def b64Decode (s : Str) : Except PyExc (List Nat) :=
  a2b64Aux (s.length + 1) s [] false

/-- CPython `base64.urlsafe_b64decode`: translate `-`, `_` back to `+`,
`/`, then decode leniently. -/
def b64UrlsafeDecode (s : Str) : Except PyExc (List Nat) :=
  b64Decode (s.map (fun c => if c = '-' then '+' else if c = '_' then '/' else c))

/-- Python `s.strip('=')`. -/
def stripEq (s : Str) : Str :=
  ((s.dropWhile (fun c => c = '=')).reverse.dropWhile (fun c => c = '=')).reverse

/-- The padding fix both parsers apply: `4 - len % 4` equal signs are
appended unless that count is four. -/
def padB64 (s : Str) : Str :=
  let padding := 4 - s.length % 4
  if padding ≠ 4 then s ++ List.replicate padding '=' else s

/-- JSON values to the depth this program produces and consumes: scalars,
one flat object, or one flat array.  Deeper nesting never occurs in the
generator's output; JSON numbers are modelled as integers (float payloads
are outside the model and none of the claims depend on them). -/
inductive JsonTop where
  | scalar (v : PyVal) : JsonTop
  | obj (l : List (Str × PyVal)) : JsonTop
  | arrFlat (l : List PyVal) : JsonTop
  deriving DecidableEq, Repr

/-- JSON insignificant whitespace. -/
def isJsonWs (c : Char) : Bool := c = ' ' || c = '\t' || c = '\n' || c = '\r'

/-- Parse the body of a JSON string after the opening quote: the decoded
content and the remaining input.  Escapes cover the JSON simple escapes
and `\uXXXX` (surrogate pairs outside scope). -/
def jsonStrAux : Nat → Str → Except PyExc (Str × Str)
  | 0, _ => .error .jsonDecodeError
  | _ + 1, [] => .error .jsonDecodeError
  | fuel + 1, c :: t =>
      if c = '"' then .ok ([], t)
      else if c = '\\' then
        match t with
        | e :: t2 =>
            let dec : Except PyExc (Char × Str) :=
              if e = '"' then .ok ('"', t2)
              else if e = '\\' then .ok ('\\', t2)
              else if e = '/' then .ok ('/', t2)
              else if e = 'b' then .ok (Char.ofNat 8, t2)
              else if e = 'f' then .ok (Char.ofNat 12, t2)
              else if e = 'n' then .ok ('\n', t2)
              else if e = 'r' then .ok ('\r', t2)
              else if e = 't' then .ok ('\t', t2)
              else if e = 'u' then
                match t2 with
                | h1 :: h2 :: h3 :: h4 :: t3 =>
                    match hexVal h1, hexVal h2, hexVal h3, hexVal h4 with
                    | some v1, some v2, some v3, some v4 =>
                        .ok (Char.ofNat (v1 * 4096 + v2 * 256 + v3 * 16 + v4), t3)
                    | _, _, _, _ => .error .jsonDecodeError
                | _ => .error .jsonDecodeError
              else .error .jsonDecodeError
            match dec with
            | .ok (ch, rest) =>
                match jsonStrAux fuel rest with
                | .ok (s, r) => .ok (ch :: s, r)
                | .error er => .error er
            | .error er => .error er
        | [] => .error .jsonDecodeError
      else
        match jsonStrAux fuel t with
        | .ok (s, r) => .ok (c :: s, r)
        | .error er => .error er

/-- Parse one JSON scalar (null, boolean, integer number or string) at
the head of the input. -/
def jsonScalarAux (s : Str) : Except PyExc (PyVal × Str) :=
  match s with
  | 'n' :: 'u' :: 'l' :: 'l' :: t => .ok (.null, t)
  | 't' :: 'r' :: 'u' :: 'e' :: t => .ok (.bool true, t)
  | 'f' :: 'a' :: 'l' :: 's' :: 'e' :: t => .ok (.bool false, t)
  | '"' :: t =>
      match jsonStrAux (t.length + 1) t with
      | .ok (str, r) => .ok (.str str, r)
      | .error e => .error e
  | '-' :: t =>
      let ds := t.takeWhile isDigitCh
      if ds.isEmpty then .error .jsonDecodeError
      else .ok (.int (-(digitsToNat ds : Int)), t.dropWhile isDigitCh)
  | c :: t =>
      if isDigitCh c then
        let ds := (c :: t).takeWhile isDigitCh
        .ok (.int (digitsToNat ds : Int), (c :: t).dropWhile isDigitCh)
      else .error .jsonDecodeError
  | [] => .error .jsonDecodeError

/-- Parse the members of a JSON object after the opening brace (object
values restricted to scalars: the depth produced by this program).
Duplicate keys follow CPython semantics: the later value wins, at the
first key's position. -/
def jsonObjAux : Nat → Str → List (Str × PyVal) → Except PyExc (List (Str × PyVal) × Str)
  | 0, _, _ => .error .jsonDecodeError
  | fuel + 1, s, acc =>
      match s.dropWhile isJsonWs with
      | '"' :: t =>
          match jsonStrAux (t.length + 1) t with
          | .ok (key, r1) =>
              match r1.dropWhile isJsonWs with
              | ':' :: r2 =>
                  match jsonScalarAux (r2.dropWhile isJsonWs) with
                  | .ok (v, r3) =>
                      let acc2 := dictSet acc key v
                      match r3.dropWhile isJsonWs with
                      | ',' :: r4 => jsonObjAux fuel r4 acc2
                      | c :: r4 =>
                          if c = '\x7d' then .ok (acc2, r4) else .error .jsonDecodeError
                      | [] => .error .jsonDecodeError
                  | .error e => .error e
              | _ => .error .jsonDecodeError
          | .error e => .error e
      | _ => .error .jsonDecodeError

/-- Parse the elements of a flat JSON array after the opening bracket. -/
def jsonArrAux : Nat → Str → List PyVal → Except PyExc (List PyVal × Str)
  | 0, _, _ => .error .jsonDecodeError
  | fuel + 1, s, acc =>
      match jsonScalarAux (s.dropWhile isJsonWs) with
      | .ok (v, r1) =>
          match r1.dropWhile isJsonWs with
          | ',' :: r2 => jsonArrAux fuel r2 (acc ++ [v])
          | ']' :: r2 => .ok (acc ++ [v], r2)
          | _ => .error .jsonDecodeError
      | .error e => .error e

/-- CPython `json.loads`, to the depth this program needs: a scalar, a
flat object or a flat array, with surrounding whitespace; anything else —
including the trailing-garbage case — raises `JSONDecodeError`. -/
def jsonLoads (s : Str) : Except PyExc JsonTop :=
  let body := s.dropWhile isJsonWs
  let checkEnd : JsonTop × Str → Except PyExc JsonTop := fun p =>
    if (p.2.dropWhile isJsonWs).isEmpty then .ok p.1 else .error .jsonDecodeError
  match body with
  | c :: t =>
      if c = '\x7b' then
        match t.dropWhile isJsonWs with
        | d :: t2 =>
            if d = '\x7d' then checkEnd (.obj [], t2)
            else
              match jsonObjAux (t.length + 1) t [] with
              | .ok (kvs, r) => checkEnd (.obj kvs, r)
              | .error e => .error e
        | [] => .error .jsonDecodeError
      else if c = '[' then
        match t.dropWhile isJsonWs with
        | ']' :: t2 => checkEnd (.arrFlat [], t2)
        | _ =>
            match jsonArrAux (t.length + 1) t [] with
            | .ok (vs, r) => checkEnd (.arrFlat vs, r)
            | .error e => .error e
      else
        match jsonScalarAux body with
        | .ok (v, r) => checkEnd (.scalar v, r)
        | .error e => .error e
  | [] => .error .jsonDecodeError

/-- JSON string escaping as `json.dumps` performs it with the default
`ensure_ascii=True`: quote, backslash and control characters escaped,
non-ASCII characters as `\uXXXX` (astral characters, which would need
surrogate pairs, are outside the strings in scope). -/
def jsonEscapeCh (c : Char) : Str :=
  if c = '"' then ['\\', '"']
  else if c = '\\' then ['\\', '\\']
  else if c = '\n' then ['\\', 'n']
  else if c = '\r' then ['\\', 'r']
  else if c = '\t' then ['\\', 't']
  else if c = Char.ofNat 8 then ['\\', 'b']
  else if c = Char.ofNat 12 then ['\\', 'f']
  else if c.toNat < 32 || c.toNat ≥ 128 then
    let n := c.toNat
    ['\\', 'u', hexLower (n / 4096 % 16), hexLower (n / 256 % 16), hexLower (n / 16 % 16),
      hexLower (n % 16)]
  else [c]
where
  hexLower (n : Nat) : Char := if n < 10 then digitCh n else Char.ofNat (87 + n)

/-- Serialised JSON string literal, as `json.dumps` emits it. -/
def jsonDumpStr (s : Str) : Str := '"' :: s.flatMap jsonEscapeCh ++ ['"']

/-- Serialised JSON scalar, as `json.dumps` emits it. -/
def jsonDumpVal : PyVal → Str
  | .str s => jsonDumpStr s
  | .int n => intToStr n
  | .bool b => if b then S "true" else S "false"
  | .null => S "null"

/-- Serialised flat JSON object with `separators=(',', ':')`, as the
VMess generator's `json.dumps(data, separators=(',', ':'))` emits it. -/
def jsonDumpObj (kvs : List (Str × PyVal)) : Str :=
  '\x7b' :: strJoin [','] (kvs.map (fun p => jsonDumpStr p.1 ++ [':'] ++ jsonDumpVal p.2)) ++ ['\x7d']

/-- Python `s.replace(pat, repl)` for a non-empty pattern: replace every
non-overlapping occurrence, scanning left to right. -/
def pyReplace : Nat → Str → Str → Str → Str
  | 0, s, _, _ => s
  | _ + 1, [], _, _ => []
  | fuel + 1, c :: t, pat, repl =>
      if pat.isPrefixOf (c :: t) then repl ++ pyReplace fuel ((c :: t).drop pat.length) pat repl
      else c :: pyReplace fuel t pat repl

/-- Python whitespace for `str.strip()` (ASCII range; no unicode
whitespace occurs in scope). -/
def isPyWs (c : Char) : Bool :=
  c = ' ' || c = '\t' || c = '\n' || c = '\r' || c = Char.ofNat 11 || c = Char.ofNat 12

/-- Python `s.strip()`. -/
def pyStrip (s : Str) : Str :=
  ((s.dropWhile isPyWs).reverse.dropWhile isPyWs).reverse

/-- Truthiness of an optional string (CPython returns `None` or a `str`
from the netloc accessors). -/
def optStrTruthy : Option Str → Bool
  | none => false
  | some s => !s.isEmpty

/-- Truthiness of an optional port number (`0` is falsy, as in the
`all([...])` admission checks). -/
def optPortTruthy : Option Nat → Bool
  | none => false
  | some n => n ≠ 0

/-- The identity hash of `SubscriptionService._generate_fingerprint`.
Python's `hash` of the identity tuple is modelled by the tuple itself;
equal tuples hash equal, and the specification requires the fingerprint
to behave exactly as this tuple. -/
inductive Fingerprint where
  | tup (components : List PyVal) : Fingerprint
  | raw (v : PyVal) : Fingerprint
  deriving DecidableEq, Repr

/-- Embedding of `SubscriptionService._generate_fingerprint`
(`src/service/subscription_service.py`, lines 36–74). -/
def SubscriptionService.generateFingerprint (server : Dict) : Fingerprint :=
  let protocol := pyGetN server (S "protocol")
  let common := [pyGetN server (S "address"), pyGetN server (S "port")]
  if protocol = .str (S "vless") then
    .tup (.str (S "vless") :: common ++
      [pyGetN server (S "vless_id"), pyGetN server (S "flow"), pyGetN server (S "type"),
       pyGetN server (S "security"), pyGetN server (S "path")])
  else if protocol = .str (S "vmess") then
    .tup (.str (S "vmess") :: common ++
      [pyGetN server (S "vmess_id"), pyGetN server (S "type"), pyGetN server (S "security"),
       pyGetN server (S "path"), pyGetN server (S "tls"), pyGetN server (S "aid")])
  else if protocol = .str (S "trojan") then
    .tup (.str (S "trojan") :: common ++ [pyGetN server (S "password")])
  else if protocol = .str (S "shadowsocks") then
    .tup (.str (S "shadowsocks") :: common ++
      [pyGetN server (S "method"), pyGetN server (S "password")])
  else if protocol = .str (S "hysteria2") then
    .tup (.str (S "hysteria2") :: common ++
      [pyGetN server (S "password"), pyGetN server (S "obfs")])
  else
    .raw (pyGetN server (S "raw_uri"))

/-- Embedding of `ProxyParser._parse_vless_uri` (`src/service/parse_uri.py`,
lines 33–63): the `try` body; `urlparse` and the `parsed.port` accessor
can raise `ValueError`, which the caller's `except` catches. -/
def ProxyParser.parseVlessUriBody (uri : Str) : Except PyExc (Option Dict) := do
  let parsed ← pyUrlsplit uri
  let port ← parsed.port
  if !(parsed.scheme = S "vless" && optStrTruthy parsed.username &&
       optStrTruthy parsed.hostname && optPortTruthy port) then
    return none
  let qp := parseQs parsed.query
  let username := parsed.username.getD []
  let hostname := parsed.hostname.getD []
  return some [
    (S "protocol", .str (S "vless")),
    (S "remark", .str parsed.fragment),
    (S "address", .str hostname),
    (S "port", .int (port.getD 0 : Nat)),
    (S "vless_id", .str username),
    (S "encryption", qsGet qp (S "encryption") (.str (S "none"))),
    (S "security", qsGet qp (S "security") (.str (S "none"))),
    (S "type", qsGet qp (S "type") (.str (S "tcp"))),
    (S "host", qsGet qp (S "host") .null),
    (S "path", qsGet qp (S "path") .null),
    (S "sni", qsGet qp (S "sni") .null),
    (S "flow", qsGet qp (S "flow") .null),
    (S "fp", qsGet qp (S "fp") .null),
    (S "pbk", qsGet qp (S "pbk") .null),
    (S "sid", qsGet qp (S "sid") .null),
    (S "raw_uri", .str uri)]

/-- `ProxyParser._parse_vless_uri` with its
`except (ValueError, AttributeError)` clause. -/
def ProxyParser.parseVlessUri (uri : Str) : Except PyExc (Option Dict) :=
  pyCatch (ProxyParser.parseVlessUriBody uri)
    (fun e => e = .valueError || e = .attributeError) none

/-- Embedding of `ProxyParser._parse_trojan_uri` (`src/service/parse_uri.py`,
lines 121–147): the `try` body. -/
def ProxyParser.parseTrojanUriBody (uri : Str) : Except PyExc (Option Dict) := do
  let parsed ← pyUrlsplit uri
  let port ← parsed.port
  if !(parsed.scheme = S "trojan" && optStrTruthy parsed.username &&
       optStrTruthy parsed.hostname && optPortTruthy port) then
    return none
  let qp := parseQs parsed.query
  return some [
    (S "protocol", .str (S "trojan")),
    (S "remark", .str parsed.fragment),
    (S "address", .str (parsed.hostname.getD [])),
    (S "port", .int (port.getD 0 : Nat)),
    (S "password", .str (parsed.username.getD [])),
    (S "sni", qsGet qp (S "sni") (qsGet qp (S "peer") .null)),
    (S "security", qsGet qp (S "security") (.str (S "tls"))),
    (S "type", qsGet qp (S "type") (.str (S "tcp"))),
    (S "flow", qsGet qp (S "flow") .null),
    (S "path", qsGet qp (S "path") .null),
    (S "host", qsGet qp (S "host") .null),
    (S "raw_uri", .str uri)]

/-- `ProxyParser._parse_trojan_uri` with its
`except (ValueError, AttributeError)` clause. -/
def ProxyParser.parseTrojanUri (uri : Str) : Except PyExc (Option Dict) :=
  pyCatch (ProxyParser.parseTrojanUriBody uri)
    (fun e => e = .valueError || e = .attributeError) none

/-- Embedding of `ProxyParser._parse_ss_uri` (`src/service/parse_uri.py`,
lines 149–204): the `try` body. -/
def ProxyParser.parseSsUriBody (uri : Str) : Except PyExc (Option Dict) := do
  let parsed ← pyUrlsplit uri
  match breakFirst '@' parsed.netloc with
  | none => return none
  | some (userInfoPart, addressPart) =>
    let decodedBytes ← b64UrlsafeDecode (padB64 userInfoPart)
    let userInfoDecoded ← utf8DecodeStrict decodedBytes
    match breakFirst ':' userInfoDecoded with
    | none => return none
    | some (method, password) =>
      let rp := rpartitionCh ':' addressPart
      if !rp.2.1 then
        return none
      let host := rp.1
      let portStr := rp.2.2
      let port ← pyIntOfStr portStr
      let remark := if parsed.fragment.isEmpty then [] else pyUnquote parsed.fragment
      return some [
        (S "protocol", .str (S "shadowsocks")),
        (S "remark", .str remark),
        (S "address", .str host),
        (S "port", .int port),
        (S "method", .str method),
        (S "password", .str password),
        (S "raw_uri", .str uri)]

/-- `ProxyParser._parse_ss_uri` with its two `except` clauses, the second
of which catches every `Exception`. -/
def ProxyParser.parseSsUri (uri : Str) : Except PyExc (Option Dict) :=
  pyCatch (ProxyParser.parseSsUriBody uri) (fun _ => true) none

/-- Embedding of `ProxyParser._parse_hy2_uri` (`src/service/parse_uri.py`,
lines 206–239): the `try` body. -/
def ProxyParser.parseHy2UriBody (uri : Str) : Except PyExc (Option Dict) := do
  let parsed ← pyUrlsplit uri
  if parsed.scheme ≠ S "hy2" then
    return none
  let port ← parsed.port
  if !(optStrTruthy parsed.hostname && optPortTruthy port && optStrTruthy parsed.username) then
    return none
  let qp := parseQs parsed.query
  return some [
    (S "protocol", .str (S "hysteria2")),
    (S "remark", .str parsed.fragment),
    (S "address", .str (parsed.hostname.getD [])),
    (S "port", .int (port.getD 0 : Nat)),
    (S "password", .str (parsed.username.getD [])),
    (S "sni", qsGet qp (S "sni") .null),
    (S "insecure", .bool (qsGet qp (S "insecure") (.str (S "0")) = .str (S "1"))),
    (S "obfs", qsGet qp (S "obfs") .null),
    (S "obfs_password", qsGet qp (S "obfs-password") .null),
    (S "raw_uri", .str uri)]

/-- `ProxyParser._parse_hy2_uri` with its
`except (ValueError, AttributeError)` clause. -/
def ProxyParser.parseHy2Uri (uri : Str) : Except PyExc (Option Dict) :=
  pyCatch (ProxyParser.parseHy2UriBody uri)
    (fun e => e = .valueError || e = .attributeError) none

/-- Truncation at the last closing brace, the VMess parser's
`decoded_json[:last_brace_index+1]` step (identity when no brace). -/
def truncAtLastBrace (s : Str) : Str :=
  match breakFirst '\x7d' s.reverse with
  | some (_, b) => b.reverse ++ ['\x7d']
  | none => s

/-- Embedding of `ProxyParser._parse_vmess_uri` (`src/service/parse_uri.py`,
lines 65–119): the `try` body.  The inner `try` around the base64 decode
returns `None` on `binascii.Error` and `ValueError`; the `.get` calls on
a non-dict JSON payload raise `AttributeError`. -/
def ProxyParser.parseVmessUriBody (uri : Str) : Except PyExc (Option Dict) := do
  let e1 := pyReplace (uri.length + 1) uri (S "vmess://") []
  let e2 := if '?' ∈ e1 then ((breakFirst '?' e1).getD (e1, [])).1 else e1
  let encodedPart := padB64 (pyStrip e2)
  match b64Decode encodedPart with
  | .error er =>
      if er = .binasciiError || er = .valueError then return none else throw er
  | .ok decodedBytes =>
    let decodedJson := truncAtLastBrace (utf8DecodeIgnore decodedBytes)
    let vmessData ← jsonLoads decodedJson
    let kvs ← match vmessData with
      | .obj kvs => pure kvs
      | _ => throw PyExc.attributeError
    let port ← pyIntOfVal (pyGet kvs (S "port") (.int 0))
    return some [
      (S "protocol", .str (S "vmess")),
      (S "remark", pyGet kvs (S "ps") (.str [])),
      (S "address", pyGetN kvs (S "add")),
      (S "port", .int port),
      (S "vmess_id", pyGetN kvs (S "id")),
      (S "security", pyGet kvs (S "scy") (.str (S "auto"))),
      (S "type", pyGet kvs (S "net") (.str (S "tcp"))),
      (S "host", pyGet kvs (S "host") .null),
      (S "path", pyGet kvs (S "path") .null),
      (S "tls", pyGet kvs (S "tls") (.str (S "none"))),
      (S "sni", pyGet kvs (S "sni") .null),
      (S "aid", pyGet kvs (S "aid") (.int 0)),
      (S "raw_uri", .str uri)]

/-- `ProxyParser._parse_vmess_uri` with its outer `except` clause, which
catches `json.JSONDecodeError`, `binascii.Error`, `TypeError` and
`ValueError` — but not `AttributeError`. -/
def ProxyParser.parseVmessUri (uri : Str) : Except PyExc (Option Dict) :=
  pyCatch (ProxyParser.parseVmessUriBody uri)
    (fun e => e = .jsonDecodeError || e = .binasciiError || e = .typeError || e = .valueError)
    none

/-- Embedding of `ProxyParser.parse` (`src/service/parse_uri.py`, lines
12–31): prefix dispatch; `ssr://` and unknown schemes return `None`. -/
def ProxyParser.parse (uri : Str) : Except PyExc (Option Dict) :=
  if (S "vless://").isPrefixOf uri then ProxyParser.parseVlessUri uri
  else if (S "vmess://").isPrefixOf uri then ProxyParser.parseVmessUri uri
  else if (S "trojan://").isPrefixOf uri then ProxyParser.parseTrojanUri uri
  else if (S "ss://").isPrefixOf uri then ProxyParser.parseSsUri uri
  else if (S "hy2://").isPrefixOf uri then ProxyParser.parseHy2Uri uri
  else if (S "ssr://").isPrefixOf uri then .ok none
  else .ok none

/-- Parameter-dict builder shared by the URI generators: each listed
field is added under its query key when its value is truthy (the
generators' `if s.get(k): params[k] = s[k]` chains; the subsequent
`None`-filter is a no-op because truthy values are never `None`). -/
def buildParams (s : Dict) (fields : List (Str × Str)) : List (Str × PyVal) :=
  (fields.map (fun f => (f.1, pyGetN s f.2))).filter (fun p => pyTruthy p.2)

/-- The VLESS generator's query parameter list (query key, dict key). -/
def vlessFields : List (Str × Str) :=
  [(S "encryption", S "encryption"), (S "security", S "security"), (S "type", S "type"),
   (S "host", S "host"), (S "path", S "path"), (S "sni", S "sni"), (S "flow", S "flow"),
   (S "fp", S "fp"), (S "pbk", S "pbk"), (S "sid", S "sid")]

/-- The Trojan generator's query parameter list. -/
def trojanFields : List (Str × Str) :=
  [(S "security", S "security"), (S "sni", S "sni"), (S "type", S "type"),
   (S "flow", S "flow"), (S "path", S "path"), (S "host", S "host")]

/-- The Hysteria2 generator's query parameter list (`obfs_password` is
emitted under the `obfs-password` query key). -/
def hy2Fields : List (Str × Str) :=
  [(S "sni", S "sni"), (S "obfs", S "obfs"), (S "obfs-password", S "obfs_password")]

/-- Embedding of `UriGenerator._generate_vless`
(`src/service/uri_generator.py`, lines 27–52). -/
def UriGenerator.genVless (s : Dict) : Str :=
  let user := pyGet s (S "vless_id") (.str [])
  let host := pyGet s (S "address") (.str [])
  let port := pyGet s (S "port") (.str [])
  let params := buildParams s vlessFields
  let query := pyUrlencode params
  let remark := pyQuote ['/'] (pyStrOfVal (pyGet s (S "remark") (.str [])))
  S "vless://" ++ pyStrOfVal user ++ ['@'] ++ pyStrOfVal host ++ [':'] ++ pyStrOfVal port ++
    ['?'] ++ query ++ ['#'] ++ remark

/-- Embedding of `UriGenerator._generate_vmess`
(`src/service/uri_generator.py`, lines 54–78): a fixed-order JSON object,
`None` values dropped, dumped compactly and base64-encoded. -/
def UriGenerator.genVmess (s : Dict) : Str :=
  let data : List (Str × PyVal) := [
    (S "v", .str (S "2")),
    (S "ps", pyGet s (S "remark") (.str [])),
    (S "add", pyGet s (S "address") (.str [])),
    (S "port", .str (pyStrOfVal (pyGet s (S "port") (.str [])))),
    (S "id", pyGet s (S "vmess_id") (.str [])),
    (S "aid", pyGet s (S "aid") (.int 0)),
    (S "scy", pyGet s (S "security") (.str (S "auto"))),
    (S "net", pyGet s (S "type") (.str (S "tcp"))),
    (S "type", .str (S "none")),
    (S "host", pyGet s (S "host") (.str [])),
    (S "path", pyGet s (S "path") (.str [])),
    (S "tls", pyGet s (S "tls") (.str [])),
    (S "sni", pyGet s (S "sni") (.str []))]
  let cleaned := data.filter (fun p => p.2 ≠ .null)
  let jsonStr := jsonDumpObj cleaned
  S "vmess://" ++ b64Encode (utf8Encode jsonStr)

/-- Embedding of `UriGenerator._generate_trojan`
(`src/service/uri_generator.py`, lines 80–99). -/
def UriGenerator.genTrojan (s : Dict) : Str :=
  let password := pyGet s (S "password") (.str [])
  let host := pyGet s (S "address") (.str [])
  let port := pyGet s (S "port") (.str [])
  let params := buildParams s trojanFields
  let query := pyUrlencode params
  let remark := pyQuote ['/'] (pyStrOfVal (pyGet s (S "remark") (.str [])))
  S "trojan://" ++ pyStrOfVal password ++ ['@'] ++ pyStrOfVal host ++ [':'] ++ pyStrOfVal port ++
    ['?'] ++ query ++ ['#'] ++ remark

/-- Embedding of `UriGenerator._generate_ss`
(`src/service/uri_generator.py`, lines 101–113). -/
def UriGenerator.genSs (s : Dict) : Str :=
  let method := pyGet s (S "method") (.str [])
  let password := pyGet s (S "password") (.str [])
  let host := pyGet s (S "address") (.str [])
  let port := pyGet s (S "port") (.str [])
  let userInfo := pyStrOfVal method ++ [':'] ++ pyStrOfVal password
  let userInfoB64 := stripEq (b64UrlsafeEncode (utf8Encode userInfo))
  let remark := pyQuote ['/'] (pyStrOfVal (pyGet s (S "remark") (.str [])))
  S "ss://" ++ userInfoB64 ++ ['@'] ++ pyStrOfVal host ++ [':'] ++ pyStrOfVal port ++
    ['#'] ++ remark

/-- Embedding of `UriGenerator._generate_hy2`
(`src/service/uri_generator.py`, lines 115–132). -/
def UriGenerator.genHy2 (s : Dict) : Str :=
  let auth := pyGet s (S "password") (.str [])
  let host := pyGet s (S "address") (.str [])
  let port := pyGet s (S "port") (.str [])
  let params :=
    buildParams s hy2Fields
      ++ (if pyTruthy (pyGetN s (S "insecure")) then [(S "insecure", PyVal.str (S "1"))] else [])
  let query := pyUrlencode params
  let remark := pyQuote ['/'] (pyStrOfVal (pyGet s (S "remark") (.str [])))
  S "hy2://" ++ pyStrOfVal auth ++ ['@'] ++ pyStrOfVal host ++ [':'] ++ pyStrOfVal port ++
    ['?'] ++ query ++ ['#'] ++ remark

/-- Embedding of `UriGenerator.generate`
(`src/service/uri_generator.py`, lines 11–25): dispatch on the protocol
field, falling back to the stored `raw_uri`. -/
def UriGenerator.generate (s : Dict) : Str :=
  let protocol := pyGetN s (S "protocol")
  if protocol = .str (S "vless") then UriGenerator.genVless s
  else if protocol = .str (S "vmess") then UriGenerator.genVmess s
  else if protocol = .str (S "trojan") then UriGenerator.genTrojan s
  else if protocol = .str (S "shadowsocks") then UriGenerator.genSs s
  else if protocol = .str (S "hysteria2") then UriGenerator.genHy2 s
  else pyStrOfVal (pyGet s (S "raw_uri") (.str []))

/-- The flatten-and-deduplicate loop of
`SubscriptionService.fetch_subscription_servers`
(`src/service/subscription_service.py`, lines 110–120): first occurrence
of each fingerprint wins, in feed order (Python dict insertion order). -/
def dedupAux : List Dict → List Fingerprint → List Dict
  | [], _ => []
  | s :: rest, seen =>
      let fp := SubscriptionService.generateFingerprint s
      if fp ∈ seen then dedupAux rest seen
      else s :: dedupAux rest (fp :: seen)

/-- Deduplication over the concatenation of the per-feed batches. -/
def SubscriptionService.dedupServers (servers : List Dict) : List Dict :=
  dedupAux servers []

/-- Probe delays: `float` latencies with `float("inf")` as `⊤`.  The
finite values measured by the probes are modelled in `ℚ`. -/
abbrev Delay := WithTop ℚ

/-- Python `round` on a rational: round half to even, computed on the
numerator and denominator with integer arithmetic (`q.num / q.den` is
`⌊q⌋` since `/` is Euclidean division and the denominator is positive). -/
def pyround (q : ℚ) : Int :=
  let fl := q.num / (q.den : Int)
  let r2 := 2 * (q.num - fl * q.den)
  if r2 < (q.den : Int) then fl
  else if (q.den : Int) < r2 then fl + 1
  else if Even fl then fl else fl + 1

/-- Python `round` applied to a delay the `≤ MAX_DELAY_MS` filter has
already proved finite (the `⊤` case is unreachable there). -/
def pyroundD : Delay → Int
  | ⊤ => 0
  | (q : ℚ) => pyround q

/-- Python's `sorted` with a key: a stable sort, modelled by stable
insertion (all stable sorts of a list under a total preorder produce the
same output, so this agrees with CPython's stable mergesort). -/
def pyInsert (lt : α → α → Bool) (x : α) : List α → List α
  | [] => [x]
  | y :: ys => if lt x y then x :: y :: ys else y :: pyInsert lt x ys

/-- Python `sorted(l, key=...)`, via repeated stable insertion. -/
def pySorted (lt : α → α → Bool) (l : List α) : List α :=
  l.foldl (fun acc x => pyInsert lt x acc) []

/-- Successive `BATCH_SIZE` chunks `servers[i : i + BATCH_SIZE]` of the
evaluator's batching loop (positive chunk size; a zero `BATCH_SIZE` would
make Python's `range` raise and never occurs). -/
def chunksAux : Nat → Nat → List α → List (List α)
  | 0, _, _ => []
  | _, _, [] => []
  | fuel + 1, n, l => l.take n :: chunksAux fuel n (l.drop n)

/-- The list of batches of size `n`. -/
def chunks (n : Nat) (l : List α) : List (List α) :=
  if n = 0 then [] else chunksAux l.length n l

/-- The configuration fields the embedded components read
(`src/core/config.py`; `MAX_DELAY_MS` is an `int` field). -/
structure Settings where
  BATCH_SIZE : Nat
  MAX_DELAY_MS : Int
  LOW_INTERNET_CONS : Bool
  LOW_INTERNET_LIMIT : Nat
  SITE_CACHE_TTL_SECONDS : ℚ
  PRECHECK_SITES : List Str

/-- Environment of one engine batch in `run_test_batch`: the engine
binary may be missing (`FileNotFoundError` from
`create_subprocess_exec`), the engine process may have exited by the end
of the readiness wait, the run may raise some other exception, or the
engine runs and the per-index probes measure the given delays. -/
inductive BatchEnv where
  | engineMissing : BatchEnv
  | engineExitedEarly : BatchEnv
  | raised (e : PyExc) : BatchEnv
  | running (probes : Nat → Delay) : BatchEnv

/-- The `try` body of `XrayService.run_test_batch`
(`src/service/xray_service.py`, lines 173–204): a missing binary raises
`FileNotFoundError`; an engine that has already exited returns `+∞` for
the whole batch from inside the `try`; otherwise the concurrent probes
produce one delay per index. -/
def XrayService.runTestBatchTry (env : BatchEnv) (servers : List Dict) :
    Except PyExc (List (Dict × Delay)) :=
  match env with
  | .engineMissing => .error .fileNotFoundError
  | .engineExitedEarly => .ok (servers.map (fun s => (s, ⊤)))
  | .raised e => .error e
  | .running probes => .ok (servers.enum.map (fun p => (p.2, probes p.1)))

/-- Embedding of `XrayService.run_test_batch`
(`src/service/xray_service.py`, lines 162–214): empty batches return
immediately; the `except FileNotFoundError` and `except Exception`
clauses both turn any raised exception into `(s, +∞)` for every member
of the batch, so the call always returns a value. -/
def XrayService.runTestBatchCall (env : BatchEnv) (servers : List Dict) :
    Except PyExc (List (Dict × Delay)) :=
  if servers.isEmpty then .ok []
  else
    match XrayService.runTestBatchTry env servers with
    | .ok r => .ok r
    | .error _ => .ok (servers.map (fun s => (s, ⊤)))

/-- The value `run_test_batch` returns (well-defined because every
exception is caught; related to the call by
`XrayService.runTestBatchCall_eq`). -/
def XrayService.runTestBatch (env : BatchEnv) (servers : List Dict) : List (Dict × Delay) :=
  if servers.isEmpty then []
  else
    match XrayService.runTestBatchTry env servers with
    | .ok r => r
    | .error _ => servers.map (fun s => (s, ⊤))

/-- Environment of one refresh tick: the outcome of the concurrent feed
fetch (a list of per-URL descriptor batches, or a raised exception), the
engine environment per batch index, the GeoIP adapter, the KV-store
availability, the wall-clock time and the per-site pre-check outcome. -/
structure TickEnv where
  fetched : Except PyExc (List (List Dict))
  benvs : Nat → BatchEnv
  geo : PyVal → Str × Str
  redisUp : Bool
  now : ℚ
  siteCheck : Str → Except PyExc (List Dict)

/-- Embedding of `SubscriptionService.fetch_subscription_servers`
(`src/service/subscription_service.py`, lines 101–127): flatten the
per-URL batches, deduplicate by fingerprint (first occurrence wins), and
truncate in low-internet mode. -/
def SubscriptionService.fetchSubscriptionServers (cfg : Settings)
    (batches : List (List Dict)) : List Dict :=
  let finalList := SubscriptionService.dedupServers batches.flatten
  if cfg.LOW_INTERNET_CONS then finalList.take cfg.LOW_INTERNET_LIMIT else finalList

/-- The enrichment step of `compute_top_servers`
(`src/service/subscription_service.py`, lines 148–166): copy the
descriptor, store the rounded delay, the GeoIP country and flag, rewrite
the remark to `"{flag} {cc} {delay}ms"` and regenerate `raw_uri`. -/
def SubscriptionService.enrich (geo : PyVal → Str × Str) (r : Dict × Delay) : Dict :=
  let delayInt := pyroundD r.2
  let s1 := dictSet r.1 (S "delay") (.int delayInt)
  let cc := (geo (pyGetN s1 (S "address"))).1
  let flag := (geo (pyGetN s1 (S "address"))).2
  let s2 := dictSet s1 (S "country_code") (.str cc)
  let s3 := dictSet s2 (S "flag") (.str flag)
  let newRemark := flag ++ [' '] ++ cc ++ [' '] ++ intToStr delayInt ++ S "ms"
  let s4 := dictSet s3 (S "remark") (.str newRemark)
  dictSet s4 (S "raw_uri") (.str (UriGenerator.generate s4))

/-- Embedding of `SubscriptionService.compute_top_servers`
(`src/service/subscription_service.py`, lines 129–168): fetch, dedupe,
probe in sequential batches, keep the results with delay at most
`MAX_DELAY_MS`, sort them by ascending delay (Python's stable `sorted`
with key `item[1]`), and enrich.  The fetch is the only step that can
raise. -/
def SubscriptionService.computeTopServers (cfg : Settings) (env : TickEnv) :
    Except PyExc (List Dict) := do
  let batches ← env.fetched
  let servers := SubscriptionService.fetchSubscriptionServers cfg batches
  if servers.isEmpty then
    return []
  let allResults :=
    ((chunks cfg.BATCH_SIZE servers).enum.map
      (fun p => XrayService.runTestBatch (env.benvs p.1) p.2)).flatten
  let successful :=
    pySorted (fun a b => decide (a.2 < b.2))
      (allResults.filter (fun r => decide (r.2 ≤ ((cfg.MAX_DELAY_MS : ℚ) : Delay))))
  return successful.map (SubscriptionService.enrich env.geo)

/-- The cache state owned by `SubscriptionService`: the full working set
and its head (`None` until first populated), the per-site cache with
insertion times, the KV-store blob under `working_servers`, and whether
`processing_lock` is held. -/
structure CacheState where
  cachedAll : Option (List Dict)
  cachedTop25 : Option (List Dict)
  siteCache : List (Str × (ℚ × List Dict))
  kv : Option (List Dict)
  processingLocked : Bool
  deriving Repr

/-- The post-swap phase of `update_cache`: persist to the KV store (its
failures are caught inside `save_servers`), then pre-check the configured
sites, each site's failures caught by the per-site `try` (the repository
push has no cache-visible effect and is not modelled). -/
def SubscriptionService.postPhase (cfg : Settings) (env : TickEnv) (top : List Dict)
    (st : CacheState) : CacheState :=
  let st1 := if env.redisUp then { st with kv := some top } else st
  if cfg.PRECHECK_SITES ≠ [] && !top.isEmpty then
    cfg.PRECHECK_SITES.foldl
      (fun acc site =>
        match env.siteCheck site with
        | .error _ => acc
        | .ok valid => { acc with siteCache := qsUpdate acc.siteCache site (env.now, valid) })
      st1
  else st1
where
  /-- Python `d[k] = v` on the site cache. -/
  qsUpdate (d : List (Str × (ℚ × List Dict))) (k : Str) (v : ℚ × List Dict) :
      List (Str × (ℚ × List Dict)) :=
    match d with
    | [] => [(k, v)]
    | (k2, w) :: rest => if k2 = k then (k2, v) :: rest else (k2, w) :: qsUpdate rest k v

/-- Embedding of `SubscriptionService.update_cache`
(`src/service/subscription_service.py`, lines 170–191): skip when the
processing lock is already held; otherwise run the evaluator under the
lock and swap both caches only after it has succeeded; the `except`
clause catches an evaluator exception and leaves every cache as it
was. -/
def SubscriptionService.updateCache (cfg : Settings) (env : TickEnv) (st : CacheState) :
    CacheState :=
  if st.processingLocked then st
  else
    match SubscriptionService.computeTopServers cfg env with
    | .error _ => st
    | .ok top =>
        SubscriptionService.postPhase cfg env top
          { st with cachedAll := some top, cachedTop25 := some (top.take 25) }

/-- Result of the `/servers/live` endpoint. -/
inductive LiveResp where
  | busy429 : LiveResp
  | unavailable503 : LiveResp
  | okCount (servers : List Dict) : LiveResp
  | errored (e : PyExc) : LiveResp
  deriving Repr

/-- Embedding of `get_servers_live` (`src/main.py`, lines 51–65): busy
when the processing lock is held; otherwise run the evaluator under the
lock and return the first 25 of the fresh working set, never writing any
cache. -/
def MainApp.getServersLive (cfg : Settings) (env : TickEnv) (st : CacheState) :
    LiveResp × CacheState :=
  if st.processingLocked then (.busy429, st)
  else
    match SubscriptionService.computeTopServers cfg env with
    | .error e => (.errored e, st)
    | .ok top =>
        if top.isEmpty then (.unavailable503, st)
        else (.okCount (top.take 25), st)

/-- Embedding of `SubscriptionService.get_site_specific_servers`
(`src/service/subscription_service.py`, lines 277–302): a fresh site
cache entry is returned as is; with an unpopulated or empty working set
the result is `None`; with the processing lock held the result is `None`;
otherwise the site evaluation runs under the lock and refreshes the site
cache.  `siteEval` is the (deterministic) site accessibility evaluation
for the current engine environment. -/
def SubscriptionService.siteFreshHit (cfg : Settings) (now : ℚ) (url : Str)
    (st : CacheState) : Option (List Dict) :=
  match assocFind url st.siteCache with
  | some (cacheTime, cachedServers) =>
      if now - cacheTime < cfg.SITE_CACHE_TTL_SECONDS then some cachedServers else none
  | none => none

/-- Embedding of `SubscriptionService.get_site_specific_servers`, with
its opening fresh-cache-hit check factored as `siteFreshHit` above. -/
def SubscriptionService.getSiteSpecificServers (cfg : Settings)
    (siteEval : List Dict → List Dict) (now : ℚ) (url : Str) (st : CacheState) :
    Option (List Dict) × CacheState :=
  match SubscriptionService.siteFreshHit cfg now url st with
  | some cached => (some cached, st)
  | none =>
      match st.cachedAll with
      | none => (none, st)
      | some serversToTest =>
          if serversToTest.isEmpty then (none, st)
          else if st.processingLocked then (none, st)
          else
            let successful := siteEval serversToTest
            let newCache := SubscriptionService.postPhase.qsUpdate st.siteCache url (now, successful)
            (some successful, { st with siteCache := newCache })

/-- Result of the `/subscription/site-specific` endpoint. -/
inductive SiteResp where
  | okList (servers : List Dict) : SiteResp
  | busy429 : SiteResp
  | notReady503 : SiteResp
  | notFound404 : SiteResp
  deriving DecidableEq, Repr

/-- Embedding of `get_site_specific_subscription` (`src/main.py`, lines
98–117): a `None` from the service is disambiguated by re-reading the
processing lock — busy when held, not-ready otherwise (no suspension
point separates the two reads, so the lock state is the one the service
saw); an empty list is the distinct 404 "no reachable servers" answer. -/
def MainApp.getSiteSpecificSubscription (cfg : Settings)
    (siteEval : List Dict → List Dict) (now : ℚ) (url : Str) (st : CacheState) :
    SiteResp × CacheState :=
  match SubscriptionService.getSiteSpecificServers cfg siteEval now url st with
  | (none, st2) =>
      if st2.processingLocked then (.busy429, st2) else (.notReady503, st2)
  | (some l, st2) =>
      if l.isEmpty then (.notFound404, st2) else (.okList l, st2)

/-- The `wsSettings` object the config builder emits. -/
structure WsSettings where
  path : PyVal
  host : Option PyVal
  deriving DecidableEq, Repr

/-- The `tlsSettings` / `realitySettings` object the config builder
emits for VLESS and Trojan outbounds. -/
structure SecuritySettings where
  serverName : PyVal
  fingerprint : Option PyVal
  publicKey : Option PyVal
  shortId : Option PyVal
  deriving DecidableEq, Repr

/-- The `streamSettings` object of one outbound. -/
structure StreamSettings where
  network : PyVal
  security : PyVal
  wsSettings : Option WsSettings
  tlsSettings : Option SecuritySettings
  realitySettings : Option SecuritySettings
  deriving DecidableEq, Repr

/-- Python `server["address"]` for descriptors admitted to the pipeline
(the key is always present; a missing key would raise `KeyError`, which
no admitted descriptor triggers). -/
def pyIndex (d : Dict) (k : Str) : PyVal := (assocFind k d).getD .null

/-- The `sni`-or-`host`-or-`address` expression of the config builder:
`server.get("sni", server.get("host", server["address"]))`.  Note that
`dict.get` falls back only when the key is absent — a stored `None` is
returned as `None`. -/
def XrayService.serverNameExpr (server : Dict) : PyVal :=
  pyGet server (S "sni") (pyGet server (S "host") (pyIndex server (S "address")))

/-- Embedding of the VLESS `streamSettings` construction of
`XrayService.build_xray_config_for_batch`
(`src/service/xray_service.py`, lines 35–51). -/
def XrayService.vlessStreamSettings (server : Dict) : StreamSettings :=
  let network := pyGet server (S "type") (.str (S "tcp"))
  let security0 := pyGet server (S "security") (.str (S "none"))
  let security := if security0 = .str (S "auto") then PyVal.str (S "none") else security0
  let ws : Option WsSettings :=
    if network = .str (S "ws") then
      let wsHost := pyGet server (S "host") (pyIndex server (S "address"))
      some ⟨pyGet server (S "path") (.str (S "/")),
            if pyTruthy wsHost then some wsHost else none⟩
    else none
  let sec : SecuritySettings :=
    ⟨XrayService.serverNameExpr server,
     some (pyGet server (S "fp") (.str (S "chrome"))),
     if security = .str (S "reality") then some (pyGetN server (S "pbk")) else none,
     if security = .str (S "reality") then some (pyGetN server (S "sid")) else none⟩
  ⟨network, security, ws,
   if security = .str (S "tls") then some sec else none,
   if security = .str (S "reality") then some sec else none⟩

/-- Embedding of the Trojan `streamSettings` construction of
`XrayService.build_xray_config_for_batch`
(`src/service/xray_service.py`, lines 71–80): security is always `tls`
and `tlsSettings.serverName` uses the same `sni`/`host`/`address`
expression (no `fingerprint` field). -/
def XrayService.trojanStreamSettings (server : Dict) : StreamSettings :=
  let network := pyGet server (S "type") (.str (S "tcp"))
  let ws : Option WsSettings :=
    if pyGetN server (S "type") = .str (S "ws") then
      let wsHost := pyGet server (S "host") (pyIndex server (S "address"))
      some ⟨pyGet server (S "path") (.str (S "/")),
            if pyTruthy wsHost then some wsHost else none⟩
    else none
  ⟨network, .str (S "tls"), ws,
   some ⟨XrayService.serverNameExpr server, none, none, none⟩,
   none⟩

/-- The `serverName` the specification describes: the descriptor's `sni`
if set, else its `host` if set, else its `address` ("set" meaning a
non-`None` value).  Stated from the specification's words, for
comparison with `XrayService.serverNameExpr`. -/
def specServerName (server : Dict) : PyVal :=
  match pyGetN server (S "sni") with
  | .null =>
      match pyGetN server (S "host") with
      | .null => pyIndex server (S "address")
      | h => h
  | v => v

/-- The `fingerprint` the specification describes for VLESS `tls` and
`reality`: the descriptor's `fp` if set, else `"chrome"`.  Stated from
the specification's words. -/
def specFp (server : Dict) : PyVal :=
  match pyGetN server (S "fp") with
  | .null => .str (S "chrome")
  | v => v

/-- File-system operations on the per-batch temporary config file. -/
inductive FsOp where
  | createTmp (id : Nat) : FsOp
  | removeTmpIfExists (id : Nat) : FsOp
  deriving DecidableEq, Repr

/-- Apply one file-system operation to the set of live temp files. -/
def applyFsOp (fs : List Nat) : FsOp → List Nat
  | .createTmp i => i :: fs
  | .removeTmpIfExists i => fs.erase i

/-- Run a trace of file-system operations. -/
def runFsOps (ops : List FsOp) (fs : List Nat) : List Nat := ops.foldl applyFsOp fs

/-- The file-system trace of `XrayService.run_test_batch`
(`src/service/xray_service.py`, lines 162–214): the empty-batch early
return happens before the temp file exists; otherwise the file is
created and closed before the `try`, the body performs no operation on
it on any of its four paths, and the `finally` clause removes it if it
exists. -/
def XrayService.runTestBatchFsOps (env : BatchEnv) (servers : List Dict) (id : Nat) :
    List FsOp :=
  if servers.isEmpty then []
  else
    [FsOp.createTmp id] ++
    (match env with
     | .engineMissing => []
     | .engineExitedEarly => []
     | .raised _ => []
     | .running _ => []) ++
    [FsOp.removeTmpIfExists id]

/-- The file-system trace of `XrayService.evaluate_site_accessibility`
(`src/service/xray_service.py`, lines 216–271): one temp file per batch,
removed by that batch's `finally`; an exception ends the loop after the
`finally` has run and propagates. -/
def XrayService.evalSiteFsOpsAux (envs : Nat → BatchEnv) : Nat → Nat → List FsOp
  | _, 0 => []
  | i, n + 1 =>
      [FsOp.createTmp i, FsOp.removeTmpIfExists i] ++
      (match envs i with
       | .raised _ => []
       | _ => XrayService.evalSiteFsOpsAux envs (i + 1) n)

/-- The full trace of a site evaluation over its batches. -/
def XrayService.evaluateSiteFsOps (cfg : Settings) (envs : Nat → BatchEnv)
    (serversToTest : List Dict) : List FsOp :=
  XrayService.evalSiteFsOpsAux envs 0 (chunks cfg.BATCH_SIZE serversToTest).length

/-! Basic facts about the string-splitting helpers. -/

theorem breakFirst_not_mem {c : Char} : ∀ {xs : Str}, c ∉ xs → breakFirst c xs = none := by
  intro xs h
  induction xs with
  | nil => rfl
  | cons x t ih =>
      simp only [breakFirst]
      rw [if_neg (by rintro rfl; exact h (List.mem_cons_self _ _)),
        ih (fun hm => h (List.mem_cons_of_mem _ hm))]
      rfl

theorem breakFirst_append_cons {c : Char} {xs : Str} (ys : Str) (h : c ∉ xs) :
    breakFirst c (xs ++ c :: ys) = some (xs, ys) := by
  induction xs with
  | nil => simp [breakFirst]
  | cons x t ih =>
      have hx : x ≠ c := fun he => h (he ▸ List.mem_cons_self _ _)
      have iht := ih (fun hm => h (List.mem_cons_of_mem _ hm))
      simp only [List.cons_append, breakFirst, if_neg hx]
      rw [show (t.append (c :: ys)) = t ++ c :: ys from rfl, iht]
      rfl

theorem takeWhile_append_cons {p : Char → Bool} : ∀ {xs : Str} {y : Char} (ys : Str),
    (∀ x ∈ xs, p x = true) → p y = false →
    (xs ++ y :: ys).takeWhile p = xs ∧ (xs ++ y :: ys).dropWhile p = y :: ys := by
  intro xs y ys hall hy
  induction xs with
  | nil => simp [List.takeWhile, List.dropWhile, hy]
  | cons x t ih =>
      have hx : p x = true := hall x (List.mem_cons_self _ _)
      have iht := ih (fun z hz => hall z (List.mem_cons_of_mem _ hz))
      simp only [List.cons_append, List.takeWhile_cons, List.dropWhile_cons, hx, iht.1, iht.2]
      simp

theorem takeWhile_all {p : Char → Bool} {xs : Str} (hall : ∀ x ∈ xs, p x = true) :
    xs.takeWhile p = xs ∧ xs.dropWhile p = [] := by
  induction xs with
  | nil => simp
  | cons x t ih =>
      have hx : p x = true := hall x (List.mem_cons_self _ _)
      have iht := ih (fun z hz => hall z (List.mem_cons_of_mem _ hz))
      simp only [List.takeWhile_cons, List.dropWhile_cons, hx, iht.1, iht.2]
      simp

theorem filter_eq_self_of_all {p : Char → Bool} {xs : Str} (hall : ∀ x ∈ xs, p x = true) :
    xs.filter p = xs :=
  List.filter_eq_self.mpr hall

/-! Decimal digits of naturals: every digit character is a digit, and the
printed form parses back to the value. -/

theorem natDigitsAux_digits {fuel n : Nat} (h : n ≤ fuel) :
    ∀ d ∈ natDigitsAux fuel n, d < 10 := by
  induction fuel generalizing n with
  | zero => intro d hd; simp [natDigitsAux] at hd
  | succ f ih =>
      intro d hd
      match n, hd with
      | 0, hd => simp [natDigitsAux] at hd
      | m + 1, hd =>
          simp only [natDigitsAux] at hd
          rcases List.mem_cons.mp hd with h1 | h2
          · omega
          · exact ih (by omega) d h2

theorem natDigitsAux_value {fuel n : Nat} (h : n ≤ fuel) :
    ((natDigitsAux fuel n).reverse.foldl (fun acc d => acc * 10 + d) 0) = n := by
  induction fuel generalizing n with
  | zero =>
      interval_cases n
      simp [natDigitsAux]
  | succ f ih =>
      match n with
      | 0 => simp [natDigitsAux]
      | m + 1 =>
          simp only [natDigitsAux, List.reverse_cons, List.foldl_append, List.foldl_cons,
            List.foldl_nil]
          rw [ih (by omega)]
          omega

theorem digitVal_digitCh {d : Nat} (h : d < 10) : digitVal (digitCh d) = d := by
  interval_cases d <;> decide

theorem isDigitCh_digitCh {d : Nat} (h : d < 10) : isDigitCh (digitCh d) = true := by
  interval_cases d <;> decide

theorem natToStr_all_digits (n : Nat) : ∀ c ∈ natToStr n, isDigitCh c = true := by
  intro c hc
  unfold natToStr at hc
  split at hc
  · simp only [List.mem_singleton] at hc
    subst hc; decide
  · rw [List.mem_reverse, List.mem_map] at hc
    obtain ⟨d, hd, rfl⟩ := hc
    exact isDigitCh_digitCh (natDigitsAux_digits le_rfl d hd)

theorem natToStr_ne_nil (n : Nat) : natToStr n ≠ [] := by
  unfold natToStr
  split
  · simp
  · intro h
    rw [List.reverse_eq_nil_iff, List.map_eq_nil_iff] at h
    have hv := natDigitsAux_value (le_refl n)
    rw [h] at hv
    simp at hv
    omega

theorem foldl_map_digitCh {l : List Nat} (h : ∀ d ∈ l, d < 10) :
    ∀ acc : Nat, (l.map digitCh).foldl (fun a c => a * 10 + digitVal c) acc =
      l.foldl (fun a d => a * 10 + d) acc := by
  induction l with
  | nil => intro acc; rfl
  | cons d t ih =>
      intro acc
      simp only [List.map_cons, List.foldl_cons]
      rw [digitVal_digitCh (h d (List.mem_cons_self _ _))]
      exact ih (fun z hz => h z (List.mem_cons_of_mem _ hz)) _

theorem digitsToNat_natToStr (n : Nat) : digitsToNat (natToStr n) = n := by
  unfold natToStr
  split
  · subst n; decide
  · rw [← List.map_reverse]
    have hd : ∀ d ∈ (natDigitsAux n n).reverse, d < 10 := by
      intro d hd
      exact natDigitsAux_digits le_rfl d (List.mem_reverse.mp hd)
    calc digitsToNat (((natDigitsAux n n).reverse).map digitCh)
        = (natDigitsAux n n).reverse.foldl (fun acc d => acc * 10 + d) 0 :=
          foldl_map_digitCh hd 0
      _ = n := natDigitsAux_value le_rfl

/-- The conservative URI-safe character set the amended round-trip claim
quantifies over: lower-case ASCII letters, digits, `-`, `_` and `.`.
Every such character is RFC 3986 unreserved, unaffected by percent
quoting, lower-casing and JSON escaping, and distinct from every URI
delimiter. -/
def safeCh (c : Char) : Bool :=
  isLowerCh c || isDigitCh c || c = '-' || c = '_' || c = '.'

theorem toNat_bounds_of_isLowerCh {c : Char} (h : isLowerCh c = true) :
    97 ≤ c.toNat ∧ c.toNat ≤ 122 := by
  unfold isLowerCh at h
  rw [Bool.and_eq_true, decide_eq_true_eq, decide_eq_true_eq] at h
  exact ⟨h.1, h.2⟩

theorem toNat_bounds_of_isDigitCh {c : Char} (h : isDigitCh c = true) :
    48 ≤ c.toNat ∧ c.toNat ≤ 57 := by
  unfold isDigitCh at h
  rw [Bool.and_eq_true, decide_eq_true_eq, decide_eq_true_eq] at h
  exact ⟨h.1, h.2⟩

theorem toNat_bounds_of_isUpperCh {c : Char} (h : isUpperCh c = true) :
    65 ≤ c.toNat ∧ c.toNat ≤ 90 := by
  unfold isUpperCh at h
  rw [Bool.and_eq_true, decide_eq_true_eq, decide_eq_true_eq] at h
  exact ⟨h.1, h.2⟩

theorem eq_of_toNat_eq {a b : Char} (h : a.toNat = b.toNat) : a = b := by
  have := congrArg Char.ofNat h
  rwa [Char.ofNat_toNat, Char.ofNat_toNat] at this

theorem safeCh_toNat_lt {c : Char} (h : safeCh c = true) : c.toNat < 128 := by
  unfold safeCh at h
  simp only [Bool.or_eq_true, decide_eq_true_eq] at h
  rcases h with ((((h | h) | h) | h) | h)
  · exact Nat.lt_of_le_of_lt (toNat_bounds_of_isLowerCh h).2 (by omega)
  · exact Nat.lt_of_le_of_lt (toNat_bounds_of_isDigitCh h).2 (by omega)
  all_goals (subst h; decide)

theorem safeCh_ne_of {c c2 : Char} (h : safeCh c = true) (h2 : safeCh c2 = false) : c ≠ c2 := by
  intro he
  rw [he, h2] at h
  cases h

theorem safeCh_not_mem {c : Char} {l : List Char} (h : safeCh c = true)
    (h2 : l.all (fun x => !safeCh x) = true) : c ∉ l := by
  intro hm
  have := List.all_eq_true.mp h2 c hm
  rw [h] at this
  cases this

theorem safeCh_alwaysSafe {c : Char} (h : safeCh c = true) : alwaysSafeCh c = true := by
  unfold safeCh at h
  unfold alwaysSafeCh isAlphaCh
  simp only [Bool.or_eq_true, decide_eq_true_eq] at h ⊢
  tauto

theorem safeCh_not_upper {c : Char} (h : safeCh c = true) : isUpperCh c = false := by
  by_contra hne
  rw [Bool.not_eq_false] at hne
  have hb := toNat_bounds_of_isUpperCh hne
  unfold safeCh at h
  simp only [Bool.or_eq_true, decide_eq_true_eq] at h
  rcases h with ((((h | h) | h) | h) | h)
  · have := toNat_bounds_of_isLowerCh h; omega
  · have := toNat_bounds_of_isDigitCh h; omega
  all_goals (subst h; simp [isUpperCh] at hne)

theorem lowerCh_safe {c : Char} (h : safeCh c = true) : lowerCh c = c := by
  unfold lowerCh
  rw [safeCh_not_upper h]
  simp

theorem pyLower_safe {s : Str} (h : s.all safeCh = true) : pyLower s = s := by
  unfold pyLower
  induction s with
  | nil => rfl
  | cons c t ih =>
      rw [List.map_cons, lowerCh_safe (List.all_eq_true.mp h c (List.mem_cons_self _ _)),
        ih (List.all_eq_true.mpr (fun z hz => List.all_eq_true.mp h z (List.mem_cons_of_mem _ hz)))]

/-! Percent quoting is the identity on safe strings: each safe character
is ASCII (so UTF-8 encodes it as its own code point) and always-safe (so
`quote` leaves it unchanged). -/

theorem utf8EncodeChar_safe {c : Char} (h : safeCh c = true) : utf8EncodeChar c = [c.toNat] := by
  unfold utf8EncodeChar
  rw [if_pos]
  exact Nat.lt_of_lt_of_le (safeCh_toNat_lt h) (by omega)

theorem ofNat_toNat_char (c : Char) : Char.ofNat c.toNat = c := Char.ofNat_toNat c

theorem quoteByte_safe {c : Char} (h : safeCh c = true) (safe : List Char) :
    quoteByte safe c.toNat = [c] := by
  unfold quoteByte
  rw [if_pos]
  · rw [ofNat_toNat_char]
  · rw [ofNat_toNat_char]
    simp [safeCh_toNat_lt h, Nat.lt_of_lt_of_le (safeCh_toNat_lt h) (by omega : 128 ≤ 128),
      safeCh_alwaysSafe h]

theorem pyQuote_safe {s : Str} (h : s.all safeCh = true) (safe : List Char) :
    pyQuote safe s = s := by
  unfold pyQuote utf8Encode
  induction s with
  | nil => rfl
  | cons c t ih =>
      have hc := List.all_eq_true.mp h c (List.mem_cons_self _ _)
      have ht : t.all safeCh = true :=
        List.all_eq_true.mpr (fun z hz => List.all_eq_true.mp h z (List.mem_cons_of_mem _ hz))
      simp only [List.flatMap_cons, List.flatMap_append]
      rw [utf8EncodeChar_safe hc]
      simp only [List.flatMap_cons, List.flatMap_nil, List.append_nil]
      rw [quoteByte_safe hc]
      simpa using ih ht

theorem pyQuotePlus_safe {s : Str} (h : s.all safeCh = true) (safe : List Char) :
    pyQuotePlus safe s = s := by
  unfold pyQuotePlus
  rw [if_pos]
  · exact pyQuote_safe h safe
  · intro hm
    exact absurd (List.all_eq_true.mp h ' ' hm) (by decide)

/-! Round trip of `urlencode` and `parse_qs` over safe parameters. -/

theorem pyUnquote_no_pct {s : Str} (h : '%' ∉ s) : pyUnquote s = s := by
  unfold pyUnquote
  rw [if_pos h]

theorem plusToSpace_no_plus {s : Str} (h : '+' ∉ s) :
    (s.map (fun c => if c = '+' then ' ' else c)) = s := by
  induction s with
  | nil => rfl
  | cons c t ih =>
      have hc : c ≠ '+' := fun he => h (he ▸ List.mem_cons_self _ _)
      rw [List.map_cons, if_neg hc, ih (fun hm => h (List.mem_cons_of_mem _ hm))]

theorem splitOnCh_cons (c x : Char) (t : Str) :
    splitOnCh c (x :: t) =
      match splitOnCh c t with
      | h :: r => if x = c then [] :: h :: r else (x :: h) :: r
      | [] => [[x]] := rfl

theorem cons_append_sep (a : Str) (c : Char) (x : Str) : a ++ [c] ++ x = a ++ c :: x := by
  simp

theorem splitOnCh_ne_nil (c : Char) (l : Str) : splitOnCh c l ≠ [] := by
  induction l with
  | nil => simp [splitOnCh]
  | cons x t ih =>
      rw [splitOnCh_cons]
      cases hs : splitOnCh c t with
      | nil => exact absurd hs ih
      | cons hd r =>
          by_cases hx : x = c <;> simp [hx]

theorem splitOnCh_no_sep {c : Char} : ∀ {l : Str}, c ∉ l → splitOnCh c l = [l] := by
  intro l h
  induction l with
  | nil => rfl
  | cons x t ih =>
      rw [splitOnCh_cons, ih (fun hm => h (List.mem_cons_of_mem _ hm))]
      simp only [if_neg (fun he : x = c => h (he ▸ List.mem_cons_self _ _))]

theorem splitOnCh_append_sep {c : Char} {xs : Str} (ys : Str) (h : c ∉ xs) :
    splitOnCh c (xs ++ c :: ys) = xs :: splitOnCh c ys := by
  induction xs with
  | nil =>
      simp only [List.nil_append]
      rw [splitOnCh_cons]
      rcases hs : splitOnCh c ys with _ | ⟨h2, r⟩
      · exact absurd hs (splitOnCh_ne_nil c ys)
      · simp
  | cons x t ih =>
      have hx : x ≠ c := fun he => h (he ▸ List.mem_cons_self _ _)
      rw [List.cons_append, splitOnCh_cons, ih (fun hm => h (List.mem_cons_of_mem _ hm))]
      simp only [if_neg hx]

/-- One safe parameter as its encoded chunk. -/
def paramChunk (p : Str × PyVal) : Str := p.1 ++ '=' :: pyStrOfVal p.2

/-- The safety condition on one generated query parameter: safe non-empty
key, safe non-empty string value. -/
def SafeParam (p : Str × PyVal) : Prop :=
  p.1 ≠ [] ∧ p.1.all safeCh = true ∧ ∃ s, p.2 = .str s ∧ s ≠ [] ∧ s.all safeCh = true

theorem pyUrlencode_safe {params : List (Str × PyVal)} (h : ∀ p ∈ params, SafeParam p) :
    pyUrlencode params = strJoin ['&'] (params.map paramChunk) := by
  unfold pyUrlencode
  congr 1
  apply List.map_congr_left
  intro p hp
  obtain ⟨hk1, hk2, s, hv, hs1, hs2⟩ := h p hp
  unfold paramChunk
  rw [pyQuotePlus_safe hk2, hv]
  simp only [pyStrOfVal]
  rw [pyQuotePlus_safe hs2]
  simp

theorem chunk_no_amp {p : Str × PyVal} (h : SafeParam p) : '&' ∉ paramChunk p := by
  obtain ⟨_, hk2, s, hv, _, hs2⟩ := h
  unfold paramChunk
  rw [hv]
  intro hm
  rcases List.mem_append.mp hm with hm | hm
  · exact absurd (List.all_eq_true.mp hk2 _ hm) (by decide)
  · rcases List.mem_cons.mp hm with hm | hm
    · cases hm
    · exact absurd (List.all_eq_true.mp hs2 _ hm) (by decide)

theorem splitOnCh_strJoin {parts : List Str} (h : ∀ p ∈ parts, '&' ∉ p) (hne : parts ≠ []) :
    splitOnCh '&' (strJoin ['&'] parts) = parts := by
  induction parts with
  | nil => exact absurd rfl hne
  | cons p t ih =>
      match t with
      | [] => exact splitOnCh_no_sep (h p (List.mem_cons_self _ _))
      | q :: r =>
          have he : strJoin ['&'] (p :: q :: r) = p ++ '&' :: strJoin ['&'] (q :: r) := by
            rw [show strJoin ['&'] (p :: q :: r) = p ++ ['&'] ++ strJoin ['&'] (q :: r) from rfl,
              cons_append_sep]
          rw [he, splitOnCh_append_sep _ (h p (List.mem_cons_self _ _)),
            ih (fun z hz => h z (List.mem_cons_of_mem _ hz)) (by simp)]

theorem parseQsl_chunk {p : Str × PyVal} (h : SafeParam p) :
    (match breakFirst '=' (paramChunk p) with
      | none => none
      | some (name, value) =>
          if value.isEmpty then none
          else some (pyUnquote (name.map (fun c => if c = '+' then ' ' else c)),
            pyUnquote (value.map (fun c => if c = '+' then ' ' else c)))) =
      some (p.1, pyStrOfVal p.2) := by
  obtain ⟨hk1, hk2, s, hv, hs1, hs2⟩ := h
  have hkne : '=' ∉ p.1 := fun hm => absurd (List.all_eq_true.mp hk2 _ hm) (by decide)
  unfold paramChunk
  rw [breakFirst_append_cons _ hkne]
  have hvne : (pyStrOfVal p.2).isEmpty = false := by
    rw [hv]; simpa [pyStrOfVal, List.isEmpty_iff] using hs1
  simp only [hvne, Bool.false_eq_true, if_false]
  have hkp : '+' ∉ p.1 := fun hm => absurd (List.all_eq_true.mp hk2 _ hm) (by decide)
  have hvp : '+' ∉ pyStrOfVal p.2 := by
    rw [hv]
    exact fun hm => absurd (List.all_eq_true.mp hs2 _ hm) (by decide)
  have hkpc : '%' ∉ p.1 := fun hm => absurd (List.all_eq_true.mp hk2 _ hm) (by decide)
  have hvpc : '%' ∉ pyStrOfVal p.2 := by
    rw [hv]
    exact fun hm => absurd (List.all_eq_true.mp hs2 _ hm) (by decide)
  rw [plusToSpace_no_plus hkp, plusToSpace_no_plus hvp, pyUnquote_no_pct hkpc,
    pyUnquote_no_pct hvpc]

theorem parseQsl_foldr {ps : List (Str × PyVal)} (h : ∀ p ∈ ps, SafeParam p) :
    ((ps.map paramChunk).foldr
      (fun chunk acc =>
        if chunk.isEmpty then acc
        else
          match breakFirst '=' chunk with
          | none => acc
          | some (name, value) =>
              if value.isEmpty then acc
              else
                (pyUnquote (name.map (fun c => if c = '+' then ' ' else c)),
                 pyUnquote (value.map (fun c => if c = '+' then ' ' else c))) :: acc)
      []) = ps.map (fun p => (p.1, pyStrOfVal p.2)) := by
  induction ps with
  | nil => rfl
  | cons p t ih =>
      have hp := h p (List.mem_cons_self _ _)
      have hchne : (paramChunk p).isEmpty = false := by
        obtain ⟨hk1, _, _, _, _, _⟩ := hp
        unfold paramChunk
        simp [List.isEmpty_iff, hk1]
      simp only [List.map_cons, List.foldr_cons, hchne, Bool.false_eq_true, if_false]
      rw [ih (fun z hz => h z (List.mem_cons_of_mem _ hz))]
      have hc := parseQsl_chunk hp
      revert hc
      rcases breakFirst '=' (paramChunk p) with _ | ⟨name, value⟩
      · intro hc; cases hc
      · simp only []
        rcases hv : value.isEmpty with _ | _
        · simp only [Bool.false_eq_true, if_false]
          intro hc
          rw [Option.some_inj] at hc
          rw [hc]
        · simp only [if_true]
          intro hc
          cases hc

theorem parseQsl_urlencode {params : List (Str × PyVal)} (h : ∀ p ∈ params, SafeParam p) :
    parseQsl (pyUrlencode params) = params.map (fun p => (p.1, pyStrOfVal p.2)) := by
  match params with
  | [] => rfl
  | p0 :: t0 =>
      rw [pyUrlencode_safe h]
      unfold parseQsl
      have hch0 : paramChunk p0 ≠ [] := by
        obtain ⟨hk1, _, _, _, _, _⟩ := h p0 (List.mem_cons_self _ _)
        unfold paramChunk
        simp [hk1]
      have hjne : (strJoin ['&'] ((p0 :: t0).map paramChunk)).isEmpty = false := by
        match t0 with
        | [] => simpa [strJoin, List.isEmpty_iff] using hch0
        | q :: r =>
            have he : strJoin ['&'] ((p0 :: q :: r).map paramChunk) =
                paramChunk p0 ++ '&' :: strJoin ['&'] ((q :: r).map paramChunk) := by
              rw [show strJoin ['&'] ((p0 :: q :: r).map paramChunk) =
                  paramChunk p0 ++ ['&'] ++ strJoin ['&'] ((q :: r).map paramChunk) from rfl,
                cons_append_sep]
            rw [he]
            simp [List.isEmpty_iff, hch0]
      rw [hjne]
      simp only [Bool.false_eq_true, if_false]
      rw [splitOnCh_strJoin (fun z hz => by
            obtain ⟨q, hq, rfl⟩ := List.mem_map.mp hz
            exact chunk_no_amp (h q hq)) (by simp)]
      exact parseQsl_foldr h

theorem qsInsert_not_mem {acc : List (Str × List Str)} {k : Str} (v : Str)
    (h : k ∉ acc.map Prod.fst) : qsInsert acc k v = acc ++ [(k, [v])] := by
  induction acc with
  | nil => rfl
  | cons p t ih =>
      unfold qsInsert
      rw [if_neg (fun (he : p.1 = k) => h (he ▸ List.mem_map_of_mem Prod.fst (List.mem_cons_self _ _)))]
      rw [ih (fun hm => h (by
        rcases List.mem_map.mp hm with ⟨q, hq, rfl⟩
        exact List.mem_map_of_mem _ (List.mem_cons_of_mem _ hq)))]
      rfl

theorem foldl_qsInsert_eq {pairs : List (Str × Str)} :
    ∀ acc : List (Str × List Str),
    (pairs.map Prod.fst).Nodup → (∀ p ∈ pairs, p.1 ∉ acc.map Prod.fst) →
    pairs.foldl (fun acc p => qsInsert acc p.1 p.2) acc =
      acc ++ pairs.map (fun p => (p.1, [p.2])) := by
  induction pairs with
  | nil => intro acc _ _; simp
  | cons p t ih =>
      intro acc hnd hdisj
      simp only [List.foldl_cons]
      rw [qsInsert_not_mem p.2 (hdisj p (List.mem_cons_self _ _))]
      rw [List.map_cons, List.nodup_cons] at hnd
      rw [ih (acc ++ [(p.1, [p.2])]) hnd.2 (fun q hq => by
        rw [List.map_append, List.mem_append]
        rintro (hm | hm)
        · exact hdisj q (List.mem_cons_of_mem _ hq) hm
        · simp only [List.map_cons, List.map_nil, List.mem_singleton] at hm
          exact hnd.1 (hm ▸ List.mem_map_of_mem Prod.fst hq))]
      simp

theorem parseQs_of_nodup {qs : Str} (hnd : ((parseQsl qs).map Prod.fst).Nodup) :
    parseQs qs = (parseQsl qs).map (fun p => (p.1, [p.2])) := by
  unfold parseQs
  rw [foldl_qsInsert_eq [] hnd (by simp)]
  rfl

theorem assocFind_map_singleton {pairs : List (Str × Str)} (k : Str) :
    assocFind k (pairs.map (fun p => (p.1, [p.2]))) = (assocFind k pairs).map (fun v => [v]) := by
  induction pairs with
  | nil => rfl
  | cons p t ih =>
      simp only [List.map_cons]
      unfold assocFind
      by_cases he : p.1 = k
      · rw [if_pos he, if_pos he]
        rfl
      · rw [if_neg he, if_neg he, ih]

/-- The value condition of the amended claim on an optional descriptor
field: unset (`None` stored or key absent), or a non-empty safe
string. -/
def OptSafeV (v : PyVal) : Prop :=
  v = .null ∨ ∃ s, v = .str s ∧ s ≠ [] ∧ s.all safeCh = true

/-- The value condition of the amended claim on a required descriptor
field: a non-empty safe string. -/
def ReqSafeV (v : PyVal) : Prop :=
  ∃ s, v = .str s ∧ s ≠ [] ∧ s.all safeCh = true

theorem assocFind_eq_none {α : Type} {k : Str} :
    ∀ {l : List (Str × α)}, k ∉ l.map Prod.fst → assocFind k l = none := by
  intro l h
  induction l with
  | nil => rfl
  | cons p t ih =>
      unfold assocFind
      rw [if_neg (fun (he : p.1 = k) => h (he ▸ List.mem_map_of_mem Prod.fst (List.mem_cons_self _ _)))]
      exact ih (fun hm => h (List.mem_cons_of_mem _ hm))

theorem buildParams_keys_sub {d : Dict} {t : List (Str × Str)} :
    ∀ k ∈ (buildParams d t).map Prod.fst, k ∈ t.map Prod.fst := by
  intro k hk
  rcases List.mem_map.mp hk with ⟨p, hp, rfl⟩
  rcases List.mem_filter.mp hp with ⟨hm, _⟩
  rcases List.mem_map.mp hm with ⟨g, hg, hge⟩
  rw [← hge]
  exact List.mem_map_of_mem Prod.fst hg

theorem assocFind_buildParams_mem {d : Dict} {fields : List (Str × Str)} {k fld : Str}
    (hmem : (k, fld) ∈ fields) (hnd : (fields.map Prod.fst).Nodup) :
    assocFind k (buildParams d fields) =
      if pyTruthy (pyGetN d fld) then some (pyGetN d fld) else none := by
  induction fields with
  | nil => cases hmem
  | cons f t ih =>
      rw [List.map_cons, List.nodup_cons] at hnd
      rcases List.mem_cons.mp hmem with he | hm
      · cases he
        by_cases ht : pyTruthy (pyGetN d fld) = true
        · unfold buildParams
          simp only [List.map_cons, List.filter_cons, ht, if_pos]
          unfold assocFind
          rw [if_pos rfl]
        · unfold buildParams
          simp only [List.map_cons, List.filter_cons, ht, Bool.false_eq_true, if_false]
          exact assocFind_eq_none (fun hk => hnd.1 (buildParams_keys_sub k hk))
      · have hkne : f.1 ≠ k := fun he =>
          hnd.1 (he ▸ List.mem_map_of_mem Prod.fst hm)
        have iht := ih hm hnd.2
        unfold buildParams at iht ⊢
        by_cases ht : pyTruthy (pyGetN d f.2) = true
        · simp only [List.map_cons, List.filter_cons, ht, if_pos]
          unfold assocFind
          rw [if_neg hkne]
          exact iht
        · simp only [List.map_cons, List.filter_cons, ht, Bool.false_eq_true, if_false]
          exact iht

theorem assocFind_map_snd {α β : Type} {l : List (Str × α)} (f : α → β) (k : Str) :
    assocFind k (l.map (fun p => (p.1, f p.2))) = (assocFind k l).map f := by
  induction l with
  | nil => rfl
  | cons p t ih =>
      simp only [List.map_cons]
      unfold assocFind
      by_cases he : p.1 = k
      · rw [if_pos he, if_pos he]
        rfl
      · rw [if_neg he, if_neg he, ih]

theorem buildParams_safe {d : Dict} {fields : List (Str × Str)}
    (hopt : ∀ p ∈ fields, OptSafeV (pyGetN d p.2))
    (hkeys : ∀ p ∈ fields, p.1 ≠ [] ∧ p.1.all safeCh = true) :
    ∀ p ∈ buildParams d fields, SafeParam p := by
  intro p hp
  rcases List.mem_filter.mp hp with ⟨hm, htr⟩
  rcases List.mem_map.mp hm with ⟨g, hg, hge⟩
  rcases hopt g hg with hn | ⟨s, hs, hs1, hs2⟩
  · rw [← hge] at htr
    rw [hn] at htr
    cases htr
  · refine ⟨?_, ?_, s, ?_, hs1, hs2⟩
    · rw [← hge]
      exact (hkeys g hg).1
    · rw [← hge]
      exact (hkeys g hg).2
    · rw [← hge]
      exact hs

theorem buildParams_keys_nodup {d : Dict} {fields : List (Str × Str)}
    (hnd : (fields.map Prod.fst).Nodup) :
    ((buildParams d fields).map Prod.fst).Nodup := by
  unfold buildParams
  have h1 : ((fields.map (fun f => (f.1, pyGetN d f.2))).filter
      (fun p => pyTruthy p.2)).Sublist (fields.map (fun f => (f.1, pyGetN d f.2))) :=
    List.filter_sublist _
  have h2 := h1.map Prod.fst
  apply h2.nodup
  rw [List.map_map]
  exact hnd

theorem parseQs_generated {d : Dict} {fields : List (Str × Str)}
    (hopt : ∀ p ∈ fields, OptSafeV (pyGetN d p.2))
    (hnd : (fields.map Prod.fst).Nodup)
    (hkeys : ∀ p ∈ fields, p.1 ≠ [] ∧ p.1.all safeCh = true) :
    parseQs (pyUrlencode (buildParams d fields)) =
      (buildParams d fields).map (fun p => (p.1, [pyStrOfVal p.2])) := by
  have hsafe := buildParams_safe hopt hkeys
  have hql := parseQsl_urlencode hsafe
  have hndq : ((parseQsl (pyUrlencode (buildParams d fields))).map Prod.fst).Nodup := by
    rw [hql, List.map_map]
    have : (Prod.fst ∘ fun p : Str × PyVal => (p.1, pyStrOfVal p.2)) = Prod.fst := rfl
    rw [this]
    exact buildParams_keys_nodup hnd
  rw [parseQs_of_nodup hndq, hql, List.map_map]
  rfl

theorem qsGet_buildParams {d : Dict} {fields : List (Str × Str)} {k fld : Str}
    (hopt : ∀ p ∈ fields, OptSafeV (pyGetN d p.2))
    (hnd : (fields.map Prod.fst).Nodup)
    (hkeys : ∀ p ∈ fields, p.1 ≠ [] ∧ p.1.all safeCh = true)
    (hmem : (k, fld) ∈ fields) (default : PyVal) :
    qsGet (parseQs (pyUrlencode (buildParams d fields))) k default =
      if pyTruthy (pyGetN d fld) then pyGetN d fld else default := by
  rw [parseQs_generated hopt hnd hkeys]
  unfold qsGet
  have he : (fun p : Str × PyVal => (p.1, [pyStrOfVal p.2])) =
      (fun p : Str × PyVal => (p.1, (fun v => [pyStrOfVal v]) p.2)) := rfl
  rw [he, assocFind_map_snd (fun v => [pyStrOfVal v]) k, assocFind_buildParams_mem hmem hnd]
  by_cases ht : pyTruthy (pyGetN d fld) = true
  · rw [if_pos ht, if_pos ht]
    rcases hopt (k, fld) hmem with hn | ⟨s, hs, _, _⟩
    · rw [hn] at ht
      cases ht
    · simp only [Option.map_some']
      rw [hs]
      rfl
  · rw [if_neg ht, if_neg ht]
    rfl

theorem qsGet_buildParams_absent {d : Dict} {fields : List (Str × Str)} {k : Str}
    (hopt : ∀ p ∈ fields, OptSafeV (pyGetN d p.2))
    (hnd : (fields.map Prod.fst).Nodup)
    (hkeys : ∀ p ∈ fields, p.1 ≠ [] ∧ p.1.all safeCh = true)
    (habs : k ∉ fields.map Prod.fst) (default : PyVal) :
    qsGet (parseQs (pyUrlencode (buildParams d fields))) k default = default := by
  rw [parseQs_generated hopt hnd hkeys]
  unfold qsGet
  have he : (fun p : Str × PyVal => (p.1, [pyStrOfVal p.2])) =
      (fun p : Str × PyVal => (p.1, (fun v => [pyStrOfVal v]) p.2)) := rfl
  rw [he, assocFind_map_snd (fun v => [pyStrOfVal v]) k,
    assocFind_eq_none (fun hk => habs (buildParams_keys_sub k hk))]
  rfl

/-! Behaviour of the `urlsplit` model on strings of the exact shape the
URI generators produce. -/

theorem ne_of_pred {p : Char → Bool} {c c2 : Char} (h : p c = true) (h2 : p c2 = false) :
    c ≠ c2 := by
  intro he
  rw [he, h2] at h
  cases h

theorem not_mem_of_all {p : Char → Bool} {l : Str} {c2 : Char} (hall : l.all p = true)
    (h2 : p c2 = false) : c2 ∉ l := by
  intro hm
  have := List.all_eq_true.mp hall c2 hm
  rw [h2] at this
  cases this

/-- Characters allowed in a generated query string: safe characters plus
the `=` and `&` separators. -/
def qryCh (c : Char) : Bool := safeCh c || c = '&' || c = '='

theorem isDigitCh_alwaysSafe {c : Char} (h : isDigitCh c = true) : alwaysSafeCh c = true := by
  unfold alwaysSafeCh
  rw [h]
  simp

theorem isLowerCh_safe {c : Char} (h : isLowerCh c = true) : safeCh c = true := by
  unfold safeCh
  rw [h]
  simp

theorem partitionCh_no {c : Char} {l : Str} (h : c ∉ l) : partitionCh c l = (l, false, []) := by
  unfold partitionCh
  rw [breakFirst_not_mem h]

theorem partitionCh_at {c : Char} {pre : Str} (post : Str) (h : c ∉ pre) :
    partitionCh c (pre ++ c :: post) = (pre, true, post) := by
  unfold partitionCh
  rw [breakFirst_append_cons _ h]

theorem rpartitionCh_unique {c : Char} {pre rest : Str} (_h1 : c ∉ pre) (h2 : c ∉ rest) :
    rpartitionCh c (pre ++ c :: rest) = (pre, true, rest) := by
  unfold rpartitionCh
  have hrev : (pre ++ c :: rest).reverse = rest.reverse ++ c :: pre.reverse := by
    simp [List.reverse_append]
  rw [hrev, breakFirst_append_cons _ (fun hm => h2 (List.mem_reverse.mp hm))]
  simp

/-- The netloc produced by the generator shapes. -/
def genNetloc (cred host : Str) (port : Nat) : Str :=
  cred ++ '@' :: (host ++ ':' :: natToStr port)

/-- The hypotheses of the shape lemmas: non-empty always-safe credential,
non-empty safe host, port in range. -/
structure NetlocOk (cred host : Str) (port : Nat) : Prop where
  credNe : cred ≠ []
  credSafe : cred.all alwaysSafeCh = true
  hostNe : host ≠ []
  hostSafe : host.all safeCh = true
  portLe : port ≤ 65535

theorem netloc_all_ok {cred host : Str} {port : Nat} (h : NetlocOk cred host port) :
    (genNetloc cred host port).all
      (fun c => alwaysSafeCh c || c = '@' || c = ':') = true := by
  unfold genNetloc
  rw [List.all_append, List.all_cons, List.all_append, List.all_cons]
  refine (Bool.and_eq_true _ _).mpr ⟨?_, (Bool.and_eq_true _ _).mpr ⟨by decide,
    (Bool.and_eq_true _ _).mpr ⟨?_, (Bool.and_eq_true _ _).mpr ⟨by decide, ?_⟩⟩⟩⟩
  · exact List.all_eq_true.mpr (fun c hc => by
      rw [List.all_eq_true.mp h.credSafe c hc]
      simp)
  · exact List.all_eq_true.mpr (fun c hc => by
      rw [safeCh_alwaysSafe (List.all_eq_true.mp h.hostSafe c hc)]
      simp)
  · exact List.all_eq_true.mpr (fun c hc => by
      rw [isDigitCh_alwaysSafe (natToStr_all_digits port c hc)]
      simp)

theorem username_genNetloc {cred host : Str} {port : Nat} (h : NetlocOk cred host port)
    (r : SplitResult) (hr : r.netloc = genNetloc cred host port) :
    r.username = some cred := by
  unfold SplitResult.username
  rw [hr]
  unfold genNetloc
  have hat : '@' ∉ cred := not_mem_of_all h.credSafe (by decide)
  have hat2 : '@' ∉ host ++ ':' :: natToStr port := by
    intro hm
    rcases List.mem_append.mp hm with hm | hm
    · exact not_mem_of_all h.hostSafe (by decide) hm
    · rcases List.mem_cons.mp hm with hm | hm
      · cases hm
      · exact absurd (natToStr_all_digits port _ hm) (by decide)
  rw [rpartitionCh_unique hat hat2]
  simp only [if_pos]
  rw [partitionCh_no (not_mem_of_all h.credSafe (by decide) : ':' ∉ cred)]

theorem hostinfo_genNetloc {cred host : Str} {port : Nat} (h : NetlocOk cred host port)
    (r : SplitResult) (hr : r.netloc = genNetloc cred host port) :
    r.hostinfo = (host, some (natToStr port)) := by
  unfold SplitResult.hostinfo
  rw [hr]
  unfold genNetloc
  have hat : '@' ∉ cred := not_mem_of_all h.credSafe (by decide)
  have hat2 : '@' ∉ host ++ ':' :: natToStr port := by
    intro hm
    rcases List.mem_append.mp hm with hm | hm
    · exact not_mem_of_all h.hostSafe (by decide) hm
    · rcases List.mem_cons.mp hm with hm | hm
      · cases hm
      · exact absurd (natToStr_all_digits port _ hm) (by decide)
  rw [rpartitionCh_unique hat hat2]
  have hbr : '[' ∉ host ++ ':' :: natToStr port := by
    intro hm
    rcases List.mem_append.mp hm with hm | hm
    · exact not_mem_of_all h.hostSafe (by decide) hm
    · rcases List.mem_cons.mp hm with hm | hm
      · cases hm
      · exact absurd (natToStr_all_digits port _ hm) (by decide)
  dsimp only
  rw [partitionCh_no hbr]
  dsimp only
  rw [partitionCh_at _ (not_mem_of_all h.hostSafe (by decide) : ':' ∉ host)]
  simp [natToStr_ne_nil port]

theorem hostname_genNetloc {cred host : Str} {port : Nat} (h : NetlocOk cred host port)
    (r : SplitResult) (hr : r.netloc = genNetloc cred host port) :
    r.hostname = some host := by
  unfold SplitResult.hostname
  rw [hostinfo_genNetloc h r hr]
  simp only [if_neg h.hostNe]
  rw [partitionCh_no (not_mem_of_all h.hostSafe (by decide) : '%' ∉ host)]
  simp only []
  rw [pyLower_safe h.hostSafe]
  simp

theorem port_genNetloc {cred host : Str} {port : Nat} (h : NetlocOk cred host port)
    (r : SplitResult) (hr : r.netloc = genNetloc cred host port) :
    r.port = .ok (some port) := by
  unfold SplitResult.port
  rw [hostinfo_genNetloc h r hr]
  simp only []
  rw [if_pos (List.all_eq_true.mpr (natToStr_all_digits port)), digitsToNat_natToStr]
  rw [if_pos h.portLe]

/-- The URL shape all three URL-style generators emit. -/
def genUrl (scheme cred host : Str) (port : Nat) (query frag : Str) : Str :=
  scheme ++ ':' :: '/' :: '/' :: (genNetloc cred host port ++ '?' :: (query ++ '#' :: frag))

theorem noTRN_of_alwaysSafe {c : Char} (h : alwaysSafeCh c = true) :
    (c ≠ '\t' && c ≠ '\r' && c ≠ '\n') = true := by
  simp only [Bool.and_eq_true, decide_eq_true_eq]
  exact ⟨⟨ne_of_pred h (by decide), ne_of_pred h (by decide)⟩, ne_of_pred h (by decide)⟩

theorem isLowerCh_alwaysSafe {c : Char} (h : isLowerCh c = true) : alwaysSafeCh c = true :=
  safeCh_alwaysSafe (isLowerCh_safe h)

theorem genUrl_filter_id {scheme cred host : Str} {port : Nat} {query frag : Str}
    (hs2 : scheme.all (fun c => isLowerCh c || isDigitCh c) = true) (hn : NetlocOk cred host port)
    (hq : query.all qryCh = true) (hf : frag.all safeCh = true) :
    (genUrl scheme cred host port query frag).filter
      (fun c => c ≠ '\t' && c ≠ '\r' && c ≠ '\n') = genUrl scheme cred host port query frag := by
  apply filter_eq_self_of_all
  intro c hc
  unfold genUrl at hc
  rcases List.mem_append.mp hc with hm | hm
  · have hcl := List.all_eq_true.mp hs2 c hm
    simp only [Bool.or_eq_true] at hcl
    rcases hcl with hl | hd
    · exact noTRN_of_alwaysSafe (isLowerCh_alwaysSafe hl)
    · exact noTRN_of_alwaysSafe (isDigitCh_alwaysSafe hd)
  · rcases List.mem_cons.mp hm with rfl | hm
    · decide
    · rcases List.mem_cons.mp hm with rfl | hm
      · decide
      · rcases List.mem_cons.mp hm with rfl | hm
        · decide
        · rcases List.mem_append.mp hm with hm | hm
          · have hcl := List.all_eq_true.mp (netloc_all_ok hn) c hm
            simp only [Bool.or_eq_true, decide_eq_true_eq] at hcl
            rcases hcl with (ha | rfl) | rfl
            · exact noTRN_of_alwaysSafe ha
            · decide
            · decide
          · rcases List.mem_cons.mp hm with rfl | hm
            · decide
            · rcases List.mem_append.mp hm with hm | hm
              · have hcl := List.all_eq_true.mp hq c hm
                simp only [qryCh, Bool.or_eq_true, decide_eq_true_eq] at hcl
                rcases hcl with (ha | rfl) | rfl
                · exact noTRN_of_alwaysSafe (safeCh_alwaysSafe ha)
                · decide
                · decide
              · rcases List.mem_cons.mp hm with rfl | hm
                · decide
                · exact noTRN_of_alwaysSafe
                    (safeCh_alwaysSafe (List.all_eq_true.mp hf c hm))

theorem pyUrlsplit_genUrl {scheme cred host : Str} {port : Nat} {query frag : Str}
    (hs1 : scheme ≠ []) (hs2 : scheme.all (fun c => isLowerCh c || isDigitCh c) = true)
    (hs3 : isLowerCh (scheme.headD 'a') = true)
    (hn : NetlocOk cred host port)
    (hq : query.all qryCh = true) (hf : frag.all safeCh = true) :
    pyUrlsplit (genUrl scheme cred host port query frag) =
      .ok ⟨scheme, genNetloc cred host port, [], query, frag⟩ := by
  unfold pyUrlsplit
  rw [genUrl_filter_id hs2 hn hq hf]
  have hsch0 : schemeSplit (genUrl scheme cred host port query frag) =
      (scheme, '/' :: '/' :: (genNetloc cred host port ++ '?' :: (query ++ '#' :: frag))) := by
    unfold schemeSplit genUrl
    have hcolon : ':' ∉ scheme := fun hm =>
      absurd (List.all_eq_true.mp hs2 ':' hm) (by decide)
    rw [breakFirst_append_cons _ hcolon]
    dsimp only
    rw [if_pos]
    · rw [pyLower_safe (List.all_eq_true.mpr (fun c hc => by
        have hcl := List.all_eq_true.mp hs2 c hc
        simp only [Bool.or_eq_true] at hcl
        rcases hcl with hl | hd
        · exact isLowerCh_safe hl
        · unfold safeCh
          rw [hd]
          simp))]
    · refine (Bool.and_eq_true _ _).mpr ⟨(Bool.and_eq_true _ _).mpr ⟨?_, ?_⟩, ?_⟩
      · simp [hs1]
      · cases scheme with
        | nil => exact absurd rfl hs1
        | cons c t =>
            have hl : isLowerCh c = true := hs3
            show (isLowerCh c || isUpperCh c) = true
            rw [hl]
            simp
      · exact List.all_eq_true.mpr (fun c hc => by
          have hcl := List.all_eq_true.mp hs2 c hc
          simp only [Bool.or_eq_true] at hcl
          unfold isSchemeCh isAlphaCh
          rcases hcl with hl | hd
          · rw [hl]
            simp
          · rw [hd]
            simp)
  dsimp only
  rw [hsch0]
  dsimp only
  have htake : ('/' :: '/' :: (genNetloc cred host port ++ '?' ::
      (query ++ '#' :: frag))).take 2 = ['/', '/'] := rfl
  rw [if_pos htake]
  have hsn : splitNetloc (('/' :: '/' :: (genNetloc cred host port ++ '?' ::
      (query ++ '#' :: frag))).drop 2) =
      (genNetloc cred host port, '?' :: (query ++ '#' :: frag)) := by
    unfold splitNetloc
    simp only [List.drop_succ_cons, List.drop_zero]
    have := @takeWhile_append_cons (fun c => c ≠ '/' && c ≠ '?' && c ≠ '#')
      (genNetloc cred host port) '?' (query ++ '#' :: frag)
      (fun x hx => by
        have hcl := List.all_eq_true.mp (netloc_all_ok hn) x hx
        simp only [Bool.or_eq_true, decide_eq_true_eq] at hcl
        rcases hcl with (ha | rfl) | rfl
        · simp only [Bool.and_eq_true, decide_eq_true_eq]
          exact ⟨⟨ne_of_pred ha (by decide), ne_of_pred ha (by decide)⟩,
            ne_of_pred ha (by decide)⟩
        · decide
        · decide)
      (by decide)
    rw [this.1, this.2]
  rw [hsn]
  dsimp only
  have hnall := netloc_all_ok hn
  have hbr1 : ('[' ∈ genNetloc cred host port) = False := by
    simp only [eq_iff_iff, iff_false]
    exact not_mem_of_all hnall (by decide)
  have hbr2 : (']' ∈ genNetloc cred host port) = False := by
    simp only [eq_iff_iff, iff_false]
    exact not_mem_of_all hnall (by decide)
  rw [if_neg (by
    simp only [Bool.or_eq_true, Bool.and_eq_true, decide_eq_true_eq, hbr1, hbr2]
    simp)]
  have hfr : breakFirst '#' ('?' :: (query ++ '#' :: frag)) =
      some ('?' :: query, frag) := by
    have : '#' ∉ '?' :: query := by
      intro hm
      rcases List.mem_cons.mp hm with he | hm
      · cases he
      · have hcl := List.all_eq_true.mp hq '#' hm
        exact absurd hcl (by decide)
    have he : '?' :: (query ++ '#' :: frag) = ('?' :: query) ++ '#' :: frag := rfl
    rw [he, breakFirst_append_cons _ this]
  rw [hfr]
  dsimp only
  have hqr : breakFirst '?' ('?' :: query) = some ([], query) := by
    unfold breakFirst
    simp
  rw [hqr]

/-! Helper facts bridging the descriptor hypotheses to the generator and
parser expressions. -/

theorem pyGet_of_pyGetN {d : Dict} {k : Str} {v : PyVal} (h : pyGetN d k = v)
    (hne : v ≠ .null) (dflt : PyVal) : pyGet d k dflt = v := by
  unfold pyGetN at h
  unfold pyGet at h ⊢
  cases hfind : assocFind k d with
  | some w => rw [hfind] at h; exact h
  | none => rw [hfind] at h; exact absurd h.symm hne

theorem intToStr_natCast (p : Nat) : intToStr (p : Int) = natToStr p := by
  unfold intToStr
  rw [if_neg (by omega), Int.natAbs_ofNat]

theorem optStrTruthy_some {u : Str} (h : u ≠ []) : optStrTruthy (some u) = true := by
  unfold optStrTruthy
  simp [List.isEmpty_iff, h]

theorem optPortTruthy_pos {p : Nat} (h : 1 ≤ p) : optPortTruthy (some p) = true := by
  unfold optPortTruthy
  simp
  omega

theorem ite_truthy_opt {v : PyVal} (h : OptSafeV v) :
    (if pyTruthy v then v else .null) = v := by
  rcases h with rfl | ⟨s, rfl, hs1, _⟩
  · rfl
  · rw [if_pos]
    unfold pyTruthy
    simp [List.isEmpty_iff, hs1]

theorem ite_truthy_req {v : PyVal} (h : ReqSafeV v) (dflt : PyVal) :
    (if pyTruthy v then v else dflt) = v := by
  rcases h with ⟨s, rfl, hs1, _⟩
  rw [if_pos]
  unfold pyTruthy
  simp [List.isEmpty_iff, hs1]

theorem reqSafe_opt {v : PyVal} (h : ReqSafeV v) : OptSafeV v := Or.inr h

theorem chunk_all_qry {p : Str × PyVal} (h : SafeParam p) : (paramChunk p).all qryCh = true := by
  obtain ⟨_, hk2, s, hv, _, hs2⟩ := h
  unfold paramChunk
  rw [hv]
  rw [List.all_append, List.all_cons]
  refine (Bool.and_eq_true _ _).mpr ⟨?_, (Bool.and_eq_true _ _).mpr ⟨by decide, ?_⟩⟩
  · exact List.all_eq_true.mpr (fun c hc => by
      unfold qryCh
      rw [List.all_eq_true.mp hk2 c hc]
      simp)
  · exact List.all_eq_true.mpr (fun c hc => by
      unfold qryCh
      rw [List.all_eq_true.mp hs2 c hc]
      simp)

theorem strJoin_all_qry {parts : List Str} (h : ∀ p ∈ parts, p.all qryCh = true) :
    (strJoin ['&'] parts).all qryCh = true := by
  induction parts with
  | nil => rfl
  | cons p t ih =>
      match t with
      | [] => exact h p (List.mem_cons_self _ _)
      | q :: r =>
          rw [show strJoin ['&'] (p :: q :: r) = p ++ ['&'] ++ strJoin ['&'] (q :: r) from rfl]
          rw [List.all_append, List.all_append]
      
          refine (Bool.and_eq_true _ _).mpr ⟨(Bool.and_eq_true _ _).mpr
        ⟨h p (List.mem_cons_self _ _), by decide⟩,
        ih (fun z hz => h z (List.mem_cons_of_mem _ hz))⟩

theorem pyUrlencode_all_qry {params : List (Str × PyVal)} (h : ∀ p ∈ params, SafeParam p) :
    (pyUrlencode params).all qryCh = true := by
  rw [pyUrlencode_safe h]
  exact strJoin_all_qry (fun z hz => by
    rcases List.mem_map.mp hz with ⟨q, hq, rfl⟩
    exact chunk_all_qry (h q hq))

theorem assemble_genUrl (sch cred host : Str) (p : Nat) (q frag : Str) :
    sch ++ [':', '/', '/'] ++ cred ++ ['@'] ++ host ++ [':'] ++ natToStr p ++ ['?'] ++ q ++
      ['#'] ++ frag = genUrl sch cred host p q frag := by
  unfold genUrl genNetloc
  simp [List.append_assoc]

/-- The amended claim's conditions on a Trojan descriptor. -/
structure TrojanOk (d : Dict) : Prop where
  proto : pyGetN d (S "protocol") = .str (S "trojan")
  addr : ReqSafeV (pyGetN d (S "address"))
  portv : ∃ p : Nat, pyGetN d (S "port") = .int (p : Int) ∧ 1 ≤ p ∧ p ≤ 65535
  pw : ReqSafeV (pyGetN d (S "password"))
  sec : OptSafeV (pyGetN d (S "security"))
  sniv : OptSafeV (pyGetN d (S "sni"))
  typ : OptSafeV (pyGetN d (S "type"))
  flowv : OptSafeV (pyGetN d (S "flow"))
  pathv : OptSafeV (pyGetN d (S "path"))
  hostv : OptSafeV (pyGetN d (S "host"))
  remark : ∃ r, pyGet d (S "remark") (.str []) = .str r ∧ r.all safeCh = true

theorem isPrefixOf_append_self (l r : List Char) : l.isPrefixOf (l ++ r) = true := by
  induction l with
  | nil => simp [List.isPrefixOf]
  | cons c t ih => simp [List.isPrefixOf, ih]

theorem genUrl_decomp (sch cred host : Str) (p : Nat) (q f : Str) :
    genUrl sch cred host p q f =
      (sch ++ [':', '/', '/']) ++ (genNetloc cred host p ++ '?' :: (q ++ '#' :: f)) := by
  unfold genUrl
  rw [List.append_assoc]
  rfl

theorem all_alwaysSafe_of_safe {s : Str} (h : s.all safeCh = true) :
    s.all alwaysSafeCh = true :=
  List.all_eq_true.mpr (fun c hc => safeCh_alwaysSafe (List.all_eq_true.mp h c hc))

theorem trojan_roundtrip {d : Dict} (h : TrojanOk d) :
    ∃ d2, ProxyParser.parse (UriGenerator.generate d) = .ok (some d2) ∧
      SubscriptionService.generateFingerprint d2 = SubscriptionService.generateFingerprint d := by
  obtain ⟨a, ha, ha1, ha2⟩ := h.addr
  obtain ⟨p, hp, hp1, hp2⟩ := h.portv
  obtain ⟨pw, hpw, hpw1, hpw2⟩ := h.pw
  obtain ⟨rmk, hrmk, hrmk2⟩ := h.remark
  have hopt : ∀ q ∈ trojanFields, OptSafeV (pyGetN d q.2) := by
    intro q hq
    rcases List.mem_cons.mp hq with rfl | hq
    · exact h.sec
    rcases List.mem_cons.mp hq with rfl | hq
    · exact h.sniv
    rcases List.mem_cons.mp hq with rfl | hq
    · exact h.typ
    rcases List.mem_cons.mp hq with rfl | hq
    · exact h.flowv
    rcases List.mem_cons.mp hq with rfl | hq
    · exact h.pathv
    rcases List.mem_cons.mp hq with rfl | hq
    · exact h.hostv
    cases hq
  have hnd : (trojanFields.map Prod.fst).Nodup := by decide
  have hkeys : ∀ q ∈ trojanFields, q.1 ≠ [] ∧ q.1.all safeCh = true := by decide
  have hqall : (pyUrlencode (buildParams d trojanFields)).all qryCh = true :=
    pyUrlencode_all_qry (buildParams_safe hopt hkeys)
  have hnet : NetlocOk pw a p :=
    ⟨hpw1, all_alwaysSafe_of_safe hpw2, ha1, ha2, hp2⟩
  have hgen : UriGenerator.generate d =
      genUrl (S "trojan") pw a p (pyUrlencode (buildParams d trojanFields)) rmk := by
    unfold UriGenerator.generate
    rw [h.proto]
    rw [if_neg (by decide), if_neg (by decide), if_pos rfl]
    unfold UriGenerator.genTrojan
    dsimp only
    rw [pyGet_of_pyGetN hpw (by simp) _, pyGet_of_pyGetN ha (by simp) _,
      pyGet_of_pyGetN hp (by simp) _, hrmk]
    simp only [pyStrOfVal]
    rw [intToStr_natCast, pyQuote_safe hrmk2]
    rw [show S "trojan://" = S "trojan" ++ [':', '/', '/'] from rfl]
    exact assemble_genUrl _ _ _ _ _ _
  rw [hgen]
  have hsplit := @pyUrlsplit_genUrl (S "trojan") pw a p (pyUrlencode (buildParams d trojanFields))
    rmk (by decide) (by decide) (by decide) hnet hqall hrmk2
  have hpre1 : (S "vless://").isPrefixOf
      (genUrl (S "trojan") pw a p (pyUrlencode (buildParams d trojanFields)) rmk) = false := rfl
  have hpre2 : (S "vmess://").isPrefixOf
      (genUrl (S "trojan") pw a p (pyUrlencode (buildParams d trojanFields)) rmk) = false := rfl
  have hpre3 : (S "trojan://").isPrefixOf
      (genUrl (S "trojan") pw a p (pyUrlencode (buildParams d trojanFields)) rmk) = true := by
    rw [genUrl_decomp]
    exact isPrefixOf_append_self _ _
  unfold ProxyParser.parse
  rw [hpre1, hpre2, hpre3]
  simp only [Bool.false_eq_true, if_false, if_true]
  unfold ProxyParser.parseTrojanUri
  have hbody : ProxyParser.parseTrojanUriBody
      (genUrl (S "trojan") pw a p (pyUrlencode (buildParams d trojanFields)) rmk) =
      .ok (some [
        (S "protocol", .str (S "trojan")),
        (S "remark", .str rmk),
        (S "address", .str a),
        (S "port", .int (p : Int)),
        (S "password", .str pw),
        (S "sni", if pyTruthy (pyGetN d (S "sni")) then pyGetN d (S "sni") else .null),
        (S "security", if pyTruthy (pyGetN d (S "security")) then pyGetN d (S "security")
          else .str (S "tls")),
        (S "type", if pyTruthy (pyGetN d (S "type")) then pyGetN d (S "type")
          else .str (S "tcp")),
        (S "flow", if pyTruthy (pyGetN d (S "flow")) then pyGetN d (S "flow") else .null),
        (S "path", if pyTruthy (pyGetN d (S "path")) then pyGetN d (S "path") else .null),
        (S "host", if pyTruthy (pyGetN d (S "host")) then pyGetN d (S "host") else .null),
        (S "raw_uri", .str (genUrl (S "trojan") pw a p
          (pyUrlencode (buildParams d trojanFields)) rmk))]) := by
    unfold ProxyParser.parseTrojanUriBody
    rw [hsplit]
    dsimp only [Except.bind, bind]
    rw [port_genNetloc hnet _ rfl]
    dsimp only [Except.bind]
    rw [username_genNetloc hnet _ rfl, hostname_genNetloc hnet _ rfl]
    rw [optStrTruthy_some hpw1, optStrTruthy_some ha1, optPortTruthy_pos hp1]
    rw [if_neg (by decide)]
    rw [qsGet_buildParams_absent hopt hnd hkeys
        (by decide : (S "peer") ∉ trojanFields.map Prod.fst) PyVal.null,
      qsGet_buildParams hopt hnd hkeys
        (by decide : ((S "sni", S "sni")) ∈ trojanFields) PyVal.null,
      qsGet_buildParams hopt hnd hkeys
        (by decide : ((S "security", S "security")) ∈ trojanFields) (PyVal.str (S "tls")),
      qsGet_buildParams hopt hnd hkeys
        (by decide : ((S "type", S "type")) ∈ trojanFields) (PyVal.str (S "tcp")),
      qsGet_buildParams hopt hnd hkeys
        (by decide : ((S "flow", S "flow")) ∈ trojanFields) PyVal.null,
      qsGet_buildParams hopt hnd hkeys
        (by decide : ((S "path", S "path")) ∈ trojanFields) PyVal.null,
      qsGet_buildParams hopt hnd hkeys
        (by decide : ((S "host", S "host")) ∈ trojanFields) PyVal.null]
    rfl
  refine ⟨[
    (S "protocol", .str (S "trojan")),
    (S "remark", .str rmk),
    (S "address", .str a),
    (S "port", .int (p : Int)),
    (S "password", .str pw),
    (S "sni", if pyTruthy (pyGetN d (S "sni")) then pyGetN d (S "sni") else .null),
    (S "security", if pyTruthy (pyGetN d (S "security")) then pyGetN d (S "security")
      else .str (S "tls")),
    (S "type", if pyTruthy (pyGetN d (S "type")) then pyGetN d (S "type") else .str (S "tcp")),
    (S "flow", if pyTruthy (pyGetN d (S "flow")) then pyGetN d (S "flow") else .null),
    (S "path", if pyTruthy (pyGetN d (S "path")) then pyGetN d (S "path") else .null),
    (S "host", if pyTruthy (pyGetN d (S "host")) then pyGetN d (S "host") else .null),
    (S "raw_uri", .str (genUrl (S "trojan") pw a p
      (pyUrlencode (buildParams d trojanFields)) rmk))], ?_, ?_⟩
  · unfold pyCatch
    rw [hbody]
  · have hfd : SubscriptionService.generateFingerprint d =
        .tup [.str (S "trojan"), pyGetN d (S "address"), pyGetN d (S "port"),
          pyGetN d (S "password")] := by
      unfold SubscriptionService.generateFingerprint
      rw [h.proto]
      rw [if_neg (by decide), if_neg (by decide), if_pos rfl]
      rfl
    rw [hfd, ha, hp, hpw]
    rfl

/-- The amended claim's conditions on a VLESS descriptor: the fields
whose parse defaults are non-`None` (`security`, `type`) must be set,
because they enter the fingerprint. -/
structure VlessOk (d : Dict) : Prop where
  proto : pyGetN d (S "protocol") = .str (S "vless")
  addr : ReqSafeV (pyGetN d (S "address"))
  portv : ∃ p : Nat, pyGetN d (S "port") = .int (p : Int) ∧ 1 ≤ p ∧ p ≤ 65535
  vid : ReqSafeV (pyGetN d (S "vless_id"))
  sec : ReqSafeV (pyGetN d (S "security"))
  typ : ReqSafeV (pyGetN d (S "type"))
  enc : OptSafeV (pyGetN d (S "encryption"))
  hostv : OptSafeV (pyGetN d (S "host"))
  pathv : OptSafeV (pyGetN d (S "path"))
  sniv : OptSafeV (pyGetN d (S "sni"))
  flowv : OptSafeV (pyGetN d (S "flow"))
  fpv : OptSafeV (pyGetN d (S "fp"))
  pbkv : OptSafeV (pyGetN d (S "pbk"))
  sidv : OptSafeV (pyGetN d (S "sid"))
  remark : ∃ r, pyGet d (S "remark") (.str []) = .str r ∧ r.all safeCh = true

theorem vless_roundtrip {d : Dict} (h : VlessOk d) :
    ∃ d2, ProxyParser.parse (UriGenerator.generate d) = .ok (some d2) ∧
      SubscriptionService.generateFingerprint d2 = SubscriptionService.generateFingerprint d := by
  obtain ⟨a, ha, ha1, ha2⟩ := h.addr
  obtain ⟨p, hp, hp1, hp2⟩ := h.portv
  obtain ⟨u, hu, hu1, hu2⟩ := h.vid
  obtain ⟨rmk, hrmk, hrmk2⟩ := h.remark
  have hopt : ∀ q ∈ vlessFields, OptSafeV (pyGetN d q.2) := by
    intro q hq
    rcases List.mem_cons.mp hq with rfl | hq
    · exact h.enc
    rcases List.mem_cons.mp hq with rfl | hq
    · exact reqSafe_opt h.sec
    rcases List.mem_cons.mp hq with rfl | hq
    · exact reqSafe_opt h.typ
    rcases List.mem_cons.mp hq with rfl | hq
    · exact h.hostv
    rcases List.mem_cons.mp hq with rfl | hq
    · exact h.pathv
    rcases List.mem_cons.mp hq with rfl | hq
    · exact h.sniv
    rcases List.mem_cons.mp hq with rfl | hq
    · exact h.flowv
    rcases List.mem_cons.mp hq with rfl | hq
    · exact h.fpv
    rcases List.mem_cons.mp hq with rfl | hq
    · exact h.pbkv
    rcases List.mem_cons.mp hq with rfl | hq
    · exact h.sidv
    cases hq
  have hnd : (vlessFields.map Prod.fst).Nodup := by decide
  have hkeys : ∀ q ∈ vlessFields, q.1 ≠ [] ∧ q.1.all safeCh = true := by decide
  have hqall : (pyUrlencode (buildParams d vlessFields)).all qryCh = true :=
    pyUrlencode_all_qry (buildParams_safe hopt hkeys)
  have hnet : NetlocOk u a p :=
    ⟨hu1, all_alwaysSafe_of_safe hu2, ha1, ha2, hp2⟩
  have hgen : UriGenerator.generate d =
      genUrl (S "vless") u a p (pyUrlencode (buildParams d vlessFields)) rmk := by
    unfold UriGenerator.generate
    rw [h.proto]
    rw [if_pos rfl]
    unfold UriGenerator.genVless
    dsimp only
    rw [pyGet_of_pyGetN hu (by simp) _, pyGet_of_pyGetN ha (by simp) _,
      pyGet_of_pyGetN hp (by simp) _, hrmk]
    simp only [pyStrOfVal]
    rw [intToStr_natCast, pyQuote_safe hrmk2]
    rw [show S "vless://" = S "vless" ++ [':', '/', '/'] from rfl]
    exact assemble_genUrl _ _ _ _ _ _
  rw [hgen]
  have hsplit := @pyUrlsplit_genUrl (S "vless") u a p (pyUrlencode (buildParams d vlessFields))
    rmk (by decide) (by decide) (by decide) hnet hqall hrmk2
  have hpre1 : (S "vless://").isPrefixOf
      (genUrl (S "vless") u a p (pyUrlencode (buildParams d vlessFields)) rmk) = true := by
    rw [genUrl_decomp]
    exact isPrefixOf_append_self _ _
  unfold ProxyParser.parse
  rw [hpre1]
  simp only [if_true]
  unfold ProxyParser.parseVlessUri
  have hbody : ProxyParser.parseVlessUriBody
      (genUrl (S "vless") u a p (pyUrlencode (buildParams d vlessFields)) rmk) =
      .ok (some [
        (S "protocol", .str (S "vless")),
        (S "remark", .str rmk),
        (S "address", .str a),
        (S "port", .int (p : Int)),
        (S "vless_id", .str u),
        (S "encryption", if pyTruthy (pyGetN d (S "encryption")) then pyGetN d (S "encryption")
          else .str (S "none")),
        (S "security", if pyTruthy (pyGetN d (S "security")) then pyGetN d (S "security")
          else .str (S "none")),
        (S "type", if pyTruthy (pyGetN d (S "type")) then pyGetN d (S "type")
          else .str (S "tcp")),
        (S "host", if pyTruthy (pyGetN d (S "host")) then pyGetN d (S "host") else .null),
        (S "path", if pyTruthy (pyGetN d (S "path")) then pyGetN d (S "path") else .null),
        (S "sni", if pyTruthy (pyGetN d (S "sni")) then pyGetN d (S "sni") else .null),
        (S "flow", if pyTruthy (pyGetN d (S "flow")) then pyGetN d (S "flow") else .null),
        (S "fp", if pyTruthy (pyGetN d (S "fp")) then pyGetN d (S "fp") else .null),
        (S "pbk", if pyTruthy (pyGetN d (S "pbk")) then pyGetN d (S "pbk") else .null),
        (S "sid", if pyTruthy (pyGetN d (S "sid")) then pyGetN d (S "sid") else .null),
        (S "raw_uri", .str (genUrl (S "vless") u a p
          (pyUrlencode (buildParams d vlessFields)) rmk))]) := by
    unfold ProxyParser.parseVlessUriBody
    rw [hsplit]
    dsimp only [Except.bind, bind]
    rw [port_genNetloc hnet _ rfl]
    dsimp only [Except.bind]
    rw [username_genNetloc hnet _ rfl, hostname_genNetloc hnet _ rfl]
    rw [optStrTruthy_some hu1, optStrTruthy_some ha1, optPortTruthy_pos hp1]
    rw [if_neg (by decide)]
    rw [qsGet_buildParams hopt hnd hkeys
        (by decide : ((S "encryption", S "encryption")) ∈ vlessFields) (PyVal.str (S "none")),
      qsGet_buildParams hopt hnd hkeys
        (by decide : ((S "security", S "security")) ∈ vlessFields) (PyVal.str (S "none")),
      qsGet_buildParams hopt hnd hkeys
        (by decide : ((S "type", S "type")) ∈ vlessFields) (PyVal.str (S "tcp")),
      qsGet_buildParams hopt hnd hkeys
        (by decide : ((S "host", S "host")) ∈ vlessFields) PyVal.null,
      qsGet_buildParams hopt hnd hkeys
        (by decide : ((S "path", S "path")) ∈ vlessFields) PyVal.null,
      qsGet_buildParams hopt hnd hkeys
        (by decide : ((S "sni", S "sni")) ∈ vlessFields) PyVal.null,
      qsGet_buildParams hopt hnd hkeys
        (by decide : ((S "flow", S "flow")) ∈ vlessFields) PyVal.null,
      qsGet_buildParams hopt hnd hkeys
        (by decide : ((S "fp", S "fp")) ∈ vlessFields) PyVal.null,
      qsGet_buildParams hopt hnd hkeys
        (by decide : ((S "pbk", S "pbk")) ∈ vlessFields) PyVal.null,
      qsGet_buildParams hopt hnd hkeys
        (by decide : ((S "sid", S "sid")) ∈ vlessFields) PyVal.null]
    rfl
  refine ⟨[
    (S "protocol", .str (S "vless")),
    (S "remark", .str rmk),
    (S "address", .str a),
    (S "port", .int (p : Int)),
    (S "vless_id", .str u),
    (S "encryption", if pyTruthy (pyGetN d (S "encryption")) then pyGetN d (S "encryption")
      else .str (S "none")),
    (S "security", if pyTruthy (pyGetN d (S "security")) then pyGetN d (S "security")
      else .str (S "none")),
    (S "type", if pyTruthy (pyGetN d (S "type")) then pyGetN d (S "type") else .str (S "tcp")),
    (S "host", if pyTruthy (pyGetN d (S "host")) then pyGetN d (S "host") else .null),
    (S "path", if pyTruthy (pyGetN d (S "path")) then pyGetN d (S "path") else .null),
    (S "sni", if pyTruthy (pyGetN d (S "sni")) then pyGetN d (S "sni") else .null),
    (S "flow", if pyTruthy (pyGetN d (S "flow")) then pyGetN d (S "flow") else .null),
    (S "fp", if pyTruthy (pyGetN d (S "fp")) then pyGetN d (S "fp") else .null),
    (S "pbk", if pyTruthy (pyGetN d (S "pbk")) then pyGetN d (S "pbk") else .null),
    (S "sid", if pyTruthy (pyGetN d (S "sid")) then pyGetN d (S "sid") else .null),
    (S "raw_uri", .str (genUrl (S "vless") u a p
      (pyUrlencode (buildParams d vlessFields)) rmk))], ?_, ?_⟩
  · unfold pyCatch
    rw [hbody]
  · have hfd : SubscriptionService.generateFingerprint d =
        .tup [.str (S "vless"), pyGetN d (S "address"), pyGetN d (S "port"),
          pyGetN d (S "vless_id"), pyGetN d (S "flow"), pyGetN d (S "type"),
          pyGetN d (S "security"), pyGetN d (S "path")] := by
      unfold SubscriptionService.generateFingerprint
      rw [h.proto]
      rw [if_pos rfl]
      rfl
    have hfd2 : SubscriptionService.generateFingerprint ([
        (S "protocol", PyVal.str (S "vless")),
        (S "remark", PyVal.str rmk),
        (S "address", PyVal.str a),
        (S "port", PyVal.int (p : Int)),
        (S "vless_id", PyVal.str u),
        (S "encryption", if pyTruthy (pyGetN d (S "encryption")) then pyGetN d (S "encryption")
          else .str (S "none")),
        (S "security", if pyTruthy (pyGetN d (S "security")) then pyGetN d (S "security")
          else .str (S "none")),
        (S "type", if pyTruthy (pyGetN d (S "type")) then pyGetN d (S "type")
          else .str (S "tcp")),
        (S "host", if pyTruthy (pyGetN d (S "host")) then pyGetN d (S "host") else .null),
        (S "path", if pyTruthy (pyGetN d (S "path")) then pyGetN d (S "path") else .null),
        (S "sni", if pyTruthy (pyGetN d (S "sni")) then pyGetN d (S "sni") else .null),
        (S "flow", if pyTruthy (pyGetN d (S "flow")) then pyGetN d (S "flow") else .null),
        (S "fp", if pyTruthy (pyGetN d (S "fp")) then pyGetN d (S "fp") else .null),
        (S "pbk", if pyTruthy (pyGetN d (S "pbk")) then pyGetN d (S "pbk") else .null),
        (S "sid", if pyTruthy (pyGetN d (S "sid")) then pyGetN d (S "sid") else .null),
        (S "raw_uri", PyVal.str (genUrl (S "vless") u a p
          (pyUrlencode (buildParams d vlessFields)) rmk))] : Dict) =
        .tup [.str (S "vless"), .str a, .int (p : Int), .str u,
          (if pyTruthy (pyGetN d (S "flow")) then pyGetN d (S "flow") else .null),
          (if pyTruthy (pyGetN d (S "type")) then pyGetN d (S "type") else .str (S "tcp")),
          (if pyTruthy (pyGetN d (S "security")) then pyGetN d (S "security")
            else .str (S "none")),
          (if pyTruthy (pyGetN d (S "path")) then pyGetN d (S "path") else .null)] := rfl
    rw [hfd2, hfd, ite_truthy_opt h.flowv, ite_truthy_req h.typ _, ite_truthy_req h.sec _,
      ite_truthy_opt h.pathv, ha, hp, hu]

/-- The amended claim's conditions on a Hysteria2 descriptor: `insecure`
must be unset/false, since the generator would emit `insecure=1` while
the parser stores a `bool`, which the generator run on the parsed dict
handles, but which is not a safe string value. -/
structure Hy2Ok (d : Dict) : Prop where
  proto : pyGetN d (S "protocol") = .str (S "hysteria2")
  addr : ReqSafeV (pyGetN d (S "address"))
  portv : ∃ p : Nat, pyGetN d (S "port") = .int (p : Int) ∧ 1 ≤ p ∧ p ≤ 65535
  pw : ReqSafeV (pyGetN d (S "password"))
  sniv : OptSafeV (pyGetN d (S "sni"))
  obfsv : OptSafeV (pyGetN d (S "obfs"))
  obfspw : OptSafeV (pyGetN d (S "obfs_password"))
  insec : pyTruthy (pyGetN d (S "insecure")) = false
  remark : ∃ r, pyGet d (S "remark") (.str []) = .str r ∧ r.all safeCh = true

theorem hy2_roundtrip {d : Dict} (h : Hy2Ok d) :
    ∃ d2, ProxyParser.parse (UriGenerator.generate d) = .ok (some d2) ∧
      SubscriptionService.generateFingerprint d2 = SubscriptionService.generateFingerprint d := by
  obtain ⟨a, ha, ha1, ha2⟩ := h.addr
  obtain ⟨p, hp, hp1, hp2⟩ := h.portv
  obtain ⟨pw, hpw, hpw1, hpw2⟩ := h.pw
  obtain ⟨rmk, hrmk, hrmk2⟩ := h.remark
  have hopt : ∀ q ∈ hy2Fields, OptSafeV (pyGetN d q.2) := by
    intro q hq
    rcases List.mem_cons.mp hq with rfl | hq
    · exact h.sniv
    rcases List.mem_cons.mp hq with rfl | hq
    · exact h.obfsv
    rcases List.mem_cons.mp hq with rfl | hq
    · exact h.obfspw
    cases hq
  have hnd : (hy2Fields.map Prod.fst).Nodup := by decide
  have hkeys : ∀ q ∈ hy2Fields, q.1 ≠ [] ∧ q.1.all safeCh = true := by decide
  have hqall : (pyUrlencode (buildParams d hy2Fields)).all qryCh = true :=
    pyUrlencode_all_qry (buildParams_safe hopt hkeys)
  have hnet : NetlocOk pw a p :=
    ⟨hpw1, all_alwaysSafe_of_safe hpw2, ha1, ha2, hp2⟩
  have hgen : UriGenerator.generate d =
      genUrl (S "hy2") pw a p (pyUrlencode (buildParams d hy2Fields)) rmk := by
    unfold UriGenerator.generate
    rw [h.proto]
    rw [if_neg (by decide), if_neg (by decide), if_neg (by decide), if_neg (by decide),
      if_pos rfl]
    unfold UriGenerator.genHy2
    dsimp only
    rw [h.insec]
    simp only [Bool.false_eq_true, if_false, List.append_nil]
    rw [pyGet_of_pyGetN hpw (by simp) _, pyGet_of_pyGetN ha (by simp) _,
      pyGet_of_pyGetN hp (by simp) _, hrmk]
    simp only [pyStrOfVal]
    rw [intToStr_natCast, pyQuote_safe hrmk2]
    rw [show S "hy2://" = S "hy2" ++ [':', '/', '/'] from rfl]
    exact assemble_genUrl _ _ _ _ _ _
  rw [hgen]
  have hsplit := @pyUrlsplit_genUrl (S "hy2") pw a p (pyUrlencode (buildParams d hy2Fields))
    rmk (by decide) (by decide) (by decide) hnet hqall hrmk2
  have hpre1 : (S "vless://").isPrefixOf
      (genUrl (S "hy2") pw a p (pyUrlencode (buildParams d hy2Fields)) rmk) = false := rfl
  have hpre2 : (S "vmess://").isPrefixOf
      (genUrl (S "hy2") pw a p (pyUrlencode (buildParams d hy2Fields)) rmk) = false := rfl
  have hpre3 : (S "trojan://").isPrefixOf
      (genUrl (S "hy2") pw a p (pyUrlencode (buildParams d hy2Fields)) rmk) = false := rfl
  have hpre4 : (S "ss://").isPrefixOf
      (genUrl (S "hy2") pw a p (pyUrlencode (buildParams d hy2Fields)) rmk) = false := rfl
  have hpre5 : (S "hy2://").isPrefixOf
      (genUrl (S "hy2") pw a p (pyUrlencode (buildParams d hy2Fields)) rmk) = true := by
    rw [genUrl_decomp]
    exact isPrefixOf_append_self _ _
  unfold ProxyParser.parse
  rw [hpre1, hpre2, hpre3, hpre4, hpre5]
  simp only [Bool.false_eq_true, if_false, if_true]
  unfold ProxyParser.parseHy2Uri
  have hbody : ProxyParser.parseHy2UriBody
      (genUrl (S "hy2") pw a p (pyUrlencode (buildParams d hy2Fields)) rmk) =
      .ok (some [
        (S "protocol", .str (S "hysteria2")),
        (S "remark", .str rmk),
        (S "address", .str a),
        (S "port", .int (p : Int)),
        (S "password", .str pw),
        (S "sni", if pyTruthy (pyGetN d (S "sni")) then pyGetN d (S "sni") else .null),
        (S "insecure", .bool false),
        (S "obfs", if pyTruthy (pyGetN d (S "obfs")) then pyGetN d (S "obfs") else .null),
        (S "obfs_password", if pyTruthy (pyGetN d (S "obfs_password"))
          then pyGetN d (S "obfs_password") else .null),
        (S "raw_uri", .str (genUrl (S "hy2") pw a p
          (pyUrlencode (buildParams d hy2Fields)) rmk))]) := by
    unfold ProxyParser.parseHy2UriBody
    rw [hsplit]
    dsimp only [Except.bind, bind]
    rw [if_neg (by decide)]
    rw [port_genNetloc hnet _ rfl]
    dsimp only [Except.bind]
    rw [username_genNetloc hnet _ rfl, hostname_genNetloc hnet _ rfl]
    rw [optStrTruthy_some ha1, optPortTruthy_pos hp1, optStrTruthy_some hpw1]
    rw [if_neg (by decide)]
    rw [qsGet_buildParams hopt hnd hkeys
        (by decide : ((S "sni", S "sni")) ∈ hy2Fields) PyVal.null,
      qsGet_buildParams_absent hopt hnd hkeys
        (by decide : (S "insecure") ∉ hy2Fields.map Prod.fst) (PyVal.str (S "0")),
      qsGet_buildParams hopt hnd hkeys
        (by decide : ((S "obfs", S "obfs")) ∈ hy2Fields) PyVal.null,
      qsGet_buildParams hopt hnd hkeys
        (by decide : ((S "obfs-password", S "obfs_password")) ∈ hy2Fields) PyVal.null]
    rfl
  refine ⟨[
    (S "protocol", .str (S "hysteria2")),
    (S "remark", .str rmk),
    (S "address", .str a),
    (S "port", .int (p : Int)),
    (S "password", .str pw),
    (S "sni", if pyTruthy (pyGetN d (S "sni")) then pyGetN d (S "sni") else .null),
    (S "insecure", .bool false),
    (S "obfs", if pyTruthy (pyGetN d (S "obfs")) then pyGetN d (S "obfs") else .null),
    (S "obfs_password", if pyTruthy (pyGetN d (S "obfs_password"))
      then pyGetN d (S "obfs_password") else .null),
    (S "raw_uri", .str (genUrl (S "hy2") pw a p
      (pyUrlencode (buildParams d hy2Fields)) rmk))], ?_, ?_⟩
  · unfold pyCatch
    rw [hbody]
  · have hfd : SubscriptionService.generateFingerprint d =
        .tup [.str (S "hysteria2"), pyGetN d (S "address"), pyGetN d (S "port"),
          pyGetN d (S "password"), pyGetN d (S "obfs")] := by
      unfold SubscriptionService.generateFingerprint
      rw [h.proto]
      rw [if_neg (by decide), if_neg (by decide), if_neg (by decide), if_neg (by decide),
        if_pos rfl]
      rfl
    have hfd2 : SubscriptionService.generateFingerprint ([
        (S "protocol", PyVal.str (S "hysteria2")),
        (S "remark", PyVal.str rmk),
        (S "address", PyVal.str a),
        (S "port", PyVal.int (p : Int)),
        (S "password", PyVal.str pw),
        (S "sni", if pyTruthy (pyGetN d (S "sni")) then pyGetN d (S "sni") else .null),
        (S "insecure", PyVal.bool false),
        (S "obfs", if pyTruthy (pyGetN d (S "obfs")) then pyGetN d (S "obfs") else .null),
        (S "obfs_password", if pyTruthy (pyGetN d (S "obfs_password"))
          then pyGetN d (S "obfs_password") else .null),
        (S "raw_uri", PyVal.str (genUrl (S "hy2") pw a p
          (pyUrlencode (buildParams d hy2Fields)) rmk))] : Dict) =
        .tup [.str (S "hysteria2"), .str a, .int (p : Int), .str pw,
          (if pyTruthy (pyGetN d (S "obfs")) then pyGetN d (S "obfs") else .null)] := rfl
    rw [hfd2, hfd, ite_truthy_opt h.obfsv, ha, hp, hpw]

/-! Base64 round-trip facts for the Shadowsocks user-info. -/

theorem b64Ch_props : ∀ v : Nat, v < 64 →
    (b64Index (b64Ch v) = some v ∧ b64Ch v ≠ '=' ∧ b64Ch v ≠ '-' ∧ b64Ch v ≠ '_') := by decide

theorem a2b64_step_data {fuel : Nat} {c : Char} {t : Str} {quad : List Nat} {pad2 : Bool}
    {v : Nat} (hne : c ≠ '=') (hix : b64Index c = some v) (hq : quad.length ≤ 2) :
    a2b64Aux (fuel + 1) (c :: t) quad pad2 = a2b64Aux fuel t (quad ++ [v]) false := by
  conv_lhs => unfold a2b64Aux
  rw [if_neg hne, hix]
  rcases quad with _ | ⟨a, _ | ⟨b, _ | ⟨c3, q⟩⟩⟩
  · rfl
  · rfl
  · rfl
  · simp only [List.length_cons] at hq
    omega

theorem a2b64_step_last {fuel : Nat} {c : Char} {t : Str} {a b c3 v : Nat} {pad2 : Bool}
    {rest : List Nat} (hne : c ≠ '=') (hix : b64Index c = some v)
    (hrest : a2b64Aux fuel t [] false = .ok rest) :
    a2b64Aux (fuel + 1) (c :: t) [a, b, c3] pad2 =
      .ok ((a * 4 + b / 16) :: ((b % 16 * 16 + c3 / 4) :: ((c3 % 4 * 64 + v) :: rest))) := by
  conv_lhs => unfold a2b64Aux
  rw [if_neg hne, hix]
  dsimp only
  rw [hrest]

theorem a2b64_encode : ∀ (bs : List Nat), (∀ b ∈ bs, b < 256) →
    a2b64Aux ((b64Encode bs).length + 1) (b64Encode bs) [] false = .ok bs
  | [], _ => rfl
  | [b1], h => by
      have hb1 : b1 < 256 := h b1 (by simp)
      have h1 : b1 / 4 < 64 := by omega
      have h2 : b1 % 4 * 16 < 64 := by omega
      rw [show b64Encode [b1] = [b64Ch (b1 / 4), b64Ch (b1 % 4 * 16), '=', '='] from rfl]
      rw [show ([b64Ch (b1 / 4), b64Ch (b1 % 4 * 16), '=', '='] : Str).length + 1 = 4 + 1
        from rfl]
      rw [a2b64_step_data (b64Ch_props _ h1).2.1 (b64Ch_props _ h1).1 (by simp)]
      rw [show (4 : Nat) = 3 + 1 from rfl]
      rw [a2b64_step_data (b64Ch_props _ h2).2.1 (b64Ch_props _ h2).1 (by simp)]
      simp only [List.nil_append, List.cons_append]
      rw [show a2b64Aux 3 ['=', '='] [b1 / 4, b1 % 4 * 16] false =
        (Except.ok [b1 / 4 * 4 + b1 % 4 * 16 / 16] : Except PyExc (List Nat)) from rfl]
      rw [show b1 / 4 * 4 + b1 % 4 * 16 / 16 = b1 from by omega]
  | [b1, b2], h => by
      have hb1 : b1 < 256 := h b1 (by simp)
      have hb2 : b2 < 256 := h b2 (by simp)
      have h1 : b1 / 4 < 64 := by omega
      have h2 : b1 % 4 * 16 + b2 / 16 < 64 := by omega
      have h3 : b2 % 16 * 4 < 64 := by omega
      rw [show b64Encode [b1, b2] =
        [b64Ch (b1 / 4), b64Ch (b1 % 4 * 16 + b2 / 16), b64Ch (b2 % 16 * 4), '='] from rfl]
      rw [show ([b64Ch (b1 / 4), b64Ch (b1 % 4 * 16 + b2 / 16), b64Ch (b2 % 16 * 4), '='] :
        Str).length + 1 = 4 + 1 from rfl]
      rw [a2b64_step_data (b64Ch_props _ h1).2.1 (b64Ch_props _ h1).1 (by simp)]
      rw [show (4 : Nat) = 3 + 1 from rfl]
      rw [a2b64_step_data (b64Ch_props _ h2).2.1 (b64Ch_props _ h2).1 (by simp)]
      rw [show (3 : Nat) = 2 + 1 from rfl]
      rw [a2b64_step_data (b64Ch_props _ h3).2.1 (b64Ch_props _ h3).1 (by simp)]
      simp only [List.nil_append, List.cons_append]
      rw [show a2b64Aux 2 ['='] [b1 / 4, b1 % 4 * 16 + b2 / 16, b2 % 16 * 4] false =
        (Except.ok [b1 / 4 * 4 + (b1 % 4 * 16 + b2 / 16) / 16,
          (b1 % 4 * 16 + b2 / 16) % 16 * 16 + b2 % 16 * 4 / 4] :
          Except PyExc (List Nat)) from rfl]
      rw [show b1 / 4 * 4 + (b1 % 4 * 16 + b2 / 16) / 16 = b1 from by omega,
        show (b1 % 4 * 16 + b2 / 16) % 16 * 16 + b2 % 16 * 4 / 4 = b2 from by omega]
  | b1 :: b2 :: b3 :: rest, h => by
      have hb1 : b1 < 256 := h b1 (by simp)
      have hb2 : b2 < 256 := h b2 (by simp)
      have hb3 : b3 < 256 := h b3 (by simp)
      have ih := a2b64_encode rest (fun b hb => h b (by simp [hb]))
      have h1 : b1 / 4 < 64 := by omega
      have h2 : b1 % 4 * 16 + b2 / 16 < 64 := by omega
      have h3 : b2 % 16 * 4 + b3 / 64 < 64 := by omega
      have h4 : b3 % 64 < 64 := by omega
      rw [show b64Encode (b1 :: b2 :: b3 :: rest) =
        b64Ch (b1 / 4) :: b64Ch (b1 % 4 * 16 + b2 / 16) :: b64Ch (b2 % 16 * 4 + b3 / 64) ::
          b64Ch (b3 % 64) :: b64Encode rest from rfl]
      rw [show (b64Ch (b1 / 4) :: b64Ch (b1 % 4 * 16 + b2 / 16) ::
          b64Ch (b2 % 16 * 4 + b3 / 64) :: b64Ch (b3 % 64) :: b64Encode rest).length + 1 =
          (((((b64Encode rest).length + 1) + 1) + 1) + 1) + 1 from rfl]
      rw [a2b64_step_data (b64Ch_props _ h1).2.1 (b64Ch_props _ h1).1 (by simp)]
      rw [a2b64_step_data (b64Ch_props _ h2).2.1 (b64Ch_props _ h2).1 (by simp)]
      rw [a2b64_step_data (b64Ch_props _ h3).2.1 (b64Ch_props _ h3).1 (by simp)]
      simp only [List.nil_append, List.cons_append]
      rw [a2b64_step_last (b64Ch_props _ h4).2.1 (b64Ch_props _ h4).1 ih]
      rw [show b1 / 4 * 4 + (b1 % 4 * 16 + b2 / 16) / 16 = b1 from by omega,
        show (b1 % 4 * 16 + b2 / 16) % 16 * 16 + (b2 % 16 * 4 + b3 / 64) / 4 = b2 from by omega,
        show (b2 % 16 * 4 + b3 / 64) % 4 * 64 + b3 % 64 = b3 from by omega]

theorem map_id_of_all {α : Type} {f : α → α} : ∀ {l : List α}, (∀ c ∈ l, f c = c) →
    l.map f = l := by
  intro l h
  induction l with
  | nil => rfl
  | cons c t ih =>
      rw [List.map_cons, h c (List.mem_cons_self _ _), ih (fun z hz => h z (List.mem_cons_of_mem _ hz))]

theorem map_dropWhile {α β : Type} (f : α → β) (p : α → Bool) (q : β → Bool)
    (hpq : ∀ c, q (f c) = p c) : ∀ l : List α, (l.map f).dropWhile q = (l.dropWhile p).map f := by
  intro l
  induction l with
  | nil => rfl
  | cons c t ih =>
      rw [List.map_cons, List.dropWhile_cons, List.dropWhile_cons, hpq c]
      cases p c with
      | true => simpa using ih
      | false => simp

theorem stripEq_map {f : Char → Char} (hf : ∀ c, ((f c = '=') : Bool) = ((c = '=') : Bool)) :
    ∀ s : Str, stripEq (s.map f) = (stripEq s).map f := by
  intro s
  unfold stripEq
  rw [map_dropWhile f (fun c => c = '=') (fun c => c = '=') hf s, ← List.map_reverse,
    map_dropWhile f (fun c => c = '=') (fun c => c = '=') hf, ← List.map_reverse]

theorem padB64_map {f : Char → Char} (hf : f '=' = '=') (s : Str) :
    padB64 (s.map f) = (padB64 s).map f := by
  unfold padB64
  rw [List.length_map]
  by_cases hc : 4 - s.length % 4 ≠ 4
  · rw [if_pos hc, if_pos hc, List.map_append, List.map_replicate, hf]
  · rw [if_neg hc, if_neg hc]

theorem b64Encode_decomp : ∀ (bs : List Nat), (∀ b ∈ bs, b < 256) → bs ≠ [] →
    ∃ body n, b64Encode bs = body ++ List.replicate n '=' ∧ body ≠ [] ∧
      (∀ c ∈ body, ∃ v, v < 64 ∧ c = b64Ch v) ∧ n ≤ 2 ∧ (body.length + n) % 4 = 0
  | [], _, hne => absurd rfl hne
  | [b1], h, _ => by
      have hb1 : b1 < 256 := h b1 (by simp)
      refine ⟨[b64Ch (b1 / 4), b64Ch (b1 % 4 * 16)], 2, rfl, by simp, ?_, by omega, by simp⟩
      intro c hc
      rcases List.mem_cons.mp hc with rfl | hc
      · exact ⟨b1 / 4, by omega, rfl⟩
      rcases List.mem_cons.mp hc with rfl | hc
      · exact ⟨b1 % 4 * 16, by omega, rfl⟩
      cases hc
  | [b1, b2], h, _ => by
      have hb1 : b1 < 256 := h b1 (by simp)
      have hb2 : b2 < 256 := h b2 (by simp)
      refine ⟨[b64Ch (b1 / 4), b64Ch (b1 % 4 * 16 + b2 / 16), b64Ch (b2 % 16 * 4)], 1, rfl,
        by simp, ?_, by omega, by simp⟩
      intro c hc
      rcases List.mem_cons.mp hc with rfl | hc
      · exact ⟨b1 / 4, by omega, rfl⟩
      rcases List.mem_cons.mp hc with rfl | hc
      · exact ⟨b1 % 4 * 16 + b2 / 16, by omega, rfl⟩
      rcases List.mem_cons.mp hc with rfl | hc
      · exact ⟨b2 % 16 * 4, by omega, rfl⟩
      cases hc
  | b1 :: b2 :: b3 :: rest, h, _ => by
      have hb1 : b1 < 256 := h b1 (by simp)
      have hb2 : b2 < 256 := h b2 (by simp)
      have hb3 : b3 < 256 := h b3 (by simp)
      have hch : ∀ c ∈ [b64Ch (b1 / 4), b64Ch (b1 % 4 * 16 + b2 / 16),
          b64Ch (b2 % 16 * 4 + b3 / 64), b64Ch (b3 % 64)], ∃ v, v < 64 ∧ c = b64Ch v := by
        intro c hc
        rcases List.mem_cons.mp hc with rfl | hc
        · exact ⟨b1 / 4, by omega, rfl⟩
        rcases List.mem_cons.mp hc with rfl | hc
        · exact ⟨b1 % 4 * 16 + b2 / 16, by omega, rfl⟩
        rcases List.mem_cons.mp hc with rfl | hc
        · exact ⟨b2 % 16 * 4 + b3 / 64, by omega, rfl⟩
        rcases List.mem_cons.mp hc with rfl | hc
        · exact ⟨b3 % 64, by omega, rfl⟩
        cases hc
      by_cases hr : rest = []
      · subst hr
        refine ⟨[b64Ch (b1 / 4), b64Ch (b1 % 4 * 16 + b2 / 16),
          b64Ch (b2 % 16 * 4 + b3 / 64), b64Ch (b3 % 64)], 0, by simp [b64Encode], by simp,
          hch, by omega, by simp⟩
      · obtain ⟨body, n, he, hbody, hchars, hn, hlen⟩ :=
          b64Encode_decomp rest (fun b hb => h b (by simp [hb])) hr
        refine ⟨b64Ch (b1 / 4) :: b64Ch (b1 % 4 * 16 + b2 / 16) ::
          b64Ch (b2 % 16 * 4 + b3 / 64) :: b64Ch (b3 % 64) :: body, n, ?_, by simp, ?_, hn, ?_⟩
        · rw [show b64Encode (b1 :: b2 :: b3 :: rest) =
            b64Ch (b1 / 4) :: b64Ch (b1 % 4 * 16 + b2 / 16) :: b64Ch (b2 % 16 * 4 + b3 / 64) ::
              b64Ch (b3 % 64) :: b64Encode rest from rfl, he]
          simp
        · intro c hc
          rcases List.mem_cons.mp hc with rfl | hc
          · exact ⟨b1 / 4, by omega, rfl⟩
          rcases List.mem_cons.mp hc with rfl | hc
          · exact ⟨b1 % 4 * 16 + b2 / 16, by omega, rfl⟩
          rcases List.mem_cons.mp hc with rfl | hc
          · exact ⟨b2 % 16 * 4 + b3 / 64, by omega, rfl⟩
          rcases List.mem_cons.mp hc with rfl | hc
          · exact ⟨b3 % 64, by omega, rfl⟩
          exact hchars c hc
        · simp only [List.length_cons]
          omega

theorem dropWhile_replicate_append (p : Char → Bool) (x : Char) (hx : p x = true) :
    ∀ (n : Nat) (l : Str), (List.replicate n x ++ l).dropWhile p = l.dropWhile p := by
  intro n
  induction n with
  | zero => intro l; rfl
  | succ m ih =>
      intro l
      rw [List.replicate_succ, List.cons_append, List.dropWhile_cons, hx]
      exact ih l

theorem stripEq_body {body : Str} (n : Nat) (hbody : body ≠ [])
    (hchars : ∀ c ∈ body, ∃ v, v < 64 ∧ c = b64Ch v) :
    stripEq (body ++ List.replicate n '=') = body := by
  unfold stripEq
  have hhead : ∀ c ∈ body, ((c = '=') : Bool) = false := by
    intro c hc
    obtain ⟨v, hv, rfl⟩ := hchars c hc
    simp only [decide_eq_false_iff_not]
    exact (b64Ch_props v hv).2.1
  have h1 : (body ++ List.replicate n '=').dropWhile (fun c => c = '=') =
      body ++ List.replicate n '=' := by
    cases body with
    | nil => exact absurd rfl hbody
    | cons c t =>
        rw [List.cons_append, List.dropWhile_cons, hhead c (List.mem_cons_self _ _)]
        simp
  rw [h1, List.reverse_append, List.reverse_replicate,
    dropWhile_replicate_append _ '=' (by simp) n body.reverse]
  have h2 : body.reverse.dropWhile (fun c => c = '=') = body.reverse := by
    cases hrev : body.reverse with
    | nil => rfl
    | cons c t =>
        have hcm : c ∈ body := List.mem_reverse.mp (by rw [hrev]; exact List.mem_cons_self _ _)
        rw [List.dropWhile_cons, hhead c hcm]
        simp
  rw [h2, List.reverse_reverse]

theorem padB64_body {body : Str} {n : Nat} (hn : n ≤ 2) (hlen : (body.length + n) % 4 = 0) :
    padB64 body = body ++ List.replicate n '=' := by
  unfold padB64
  rcases Nat.lt_or_ge n 1 with h0 | h1
  · have hn0 : n = 0 := by omega
    subst hn0
    have : body.length % 4 = 0 := by omega
    rw [this]
    simp
  · have hm : body.length % 4 = 4 - n := by omega
    rw [hm]
    rw [if_pos (by omega)]
    have : 4 - (4 - n) = n := by omega
    rw [this]

theorem strip_pad_encode (bs : List Nat) (h : ∀ b ∈ bs, b < 256) :
    padB64 (stripEq (b64Encode bs)) = b64Encode bs := by
  by_cases hne : bs = []
  · subst hne
    rfl
  · obtain ⟨body, n, he, hbody, hchars, hn, hlen⟩ := b64Encode_decomp bs h hne
    rw [he, stripEq_body n hbody hchars, padB64_body hn hlen]

theorem b64_roundtrip (bs : List Nat) (h : ∀ b ∈ bs, b < 256) :
    b64UrlsafeDecode (padB64 (stripEq (b64UrlsafeEncode bs))) = .ok bs := by
  unfold b64UrlsafeEncode b64UrlsafeDecode
  rw [stripEq_map (by intro c; by_cases h1 : c = '+' <;> by_cases h2 : c = '/' <;>
    simp [h1, h2]) (b64Encode bs)]
  rw [padB64_map (by simp) (stripEq (b64Encode bs))]
  rw [List.map_map]
  have hmm : ((padB64 (stripEq (b64Encode bs))).map
      ((fun c => if c = '-' then '+' else if c = '_' then '/' else c) ∘
        fun c => if c = '+' then '-' else if c = '/' then '_' else c)) =
      padB64 (stripEq (b64Encode bs)) := by
    apply map_id_of_all
    intro c hc
    rw [strip_pad_encode bs h] at hc
    by_cases hne : bs = []
    · subst hne
      cases hc
    · obtain ⟨body, n, he, hbody, hchars, hn, hlen⟩ := b64Encode_decomp bs h hne
      rw [he] at hc
      rcases List.mem_append.mp hc with hm | hm
      · obtain ⟨v, hv, rfl⟩ := hchars c hm
        have h1 := (b64Ch_props v hv).2.2.1
        have h2 := (b64Ch_props v hv).2.2.2
        simp only [Function.comp]
        by_cases hp : b64Ch v = '+'
        · rw [hp]
          rfl
        · by_cases hs : b64Ch v = '/'
          · rw [hs]
            rfl
          · rw [if_neg hp, if_neg hs, if_neg h1, if_neg h2]
      · have : c = '=' := List.eq_of_mem_replicate hm
        subst this
        rfl
  rw [hmm, strip_pad_encode bs h]
  unfold b64Decode
  exact a2b64_encode bs h

theorem utf8Encode_ascii : ∀ (s : Str), (∀ c ∈ s, c.toNat < 128) →
    utf8Encode s = s.map Char.toNat := by
  intro s h
  induction s with
  | nil => rfl
  | cons c t ih =>
      have hc : c.toNat < 128 := h c (List.mem_cons_self _ _)
      unfold utf8Encode
      rw [List.flatMap_cons, List.map_cons]
      rw [show utf8EncodeChar c = [c.toNat] from by unfold utf8EncodeChar; rw [if_pos hc]]
      rw [show (t.flatMap utf8EncodeChar) = utf8Encode t from rfl,
        ih (fun z hz => h z (List.mem_cons_of_mem _ hz))]
      rfl

theorem utf8Tokens_map_toNat : ∀ (s : Str), (∀ c ∈ s, c.toNat < 128) →
    utf8Tokens (s.length + 1) (s.map Char.toNat) = s.map some := by
  intro s
  induction s with
  | nil => intro _; rfl
  | cons c t ih =>
      intro h
      have hc : c.toNat < 128 := h c (List.mem_cons_self _ _)
      rw [List.map_cons, List.map_cons, List.length_cons]
      conv_lhs => unfold utf8Tokens
      have hstep : utf8Step (c.toNat :: t.map Char.toNat) = (some (Char.ofNat c.toNat), 1) := by
        conv_lhs => unfold utf8Step
        dsimp only
        rw [if_pos hc]
      rw [hstep]
      dsimp only
      rw [ofNat_toNat_char]
      rw [show List.drop (1 ⊔ 1) (c.toNat :: List.map Char.toNat t) = List.map Char.toNat t
        from rfl]
      rw [ih (fun z hz => h z (List.mem_cons_of_mem _ hz))]

theorem utf8DecodeStrict_ascii (s : Str) (h : ∀ c ∈ s, c.toNat < 128) :
    utf8DecodeStrict (utf8Encode s) = .ok s := by
  unfold utf8DecodeStrict
  rw [utf8Encode_ascii s h, List.length_map, utf8Tokens_map_toNat s h]
  rw [if_pos (by
    rw [List.all_eq_true]
    intro o ho
    rcases List.mem_map.mp ho with ⟨c, _, rfl⟩
    rfl)]
  congr 1
  induction s with
  | nil => rfl
  | cons c t ih =>
      rw [List.map_cons, List.filterMap_cons]
      dsimp only [id]
      rw [ih (fun z hz => h z (List.mem_cons_of_mem _ hz))]

/-- The URL shape the Shadowsocks generator emits: no query part. -/
def genUrlNQ (scheme cred host : Str) (port : Nat) (frag : Str) : Str :=
  scheme ++ ':' :: '/' :: '/' :: (genNetloc cred host port ++ '#' :: frag)

theorem genUrlNQ_filter_id {scheme cred host : Str} {port : Nat} {frag : Str}
    (hs2 : scheme.all (fun c => isLowerCh c || isDigitCh c) = true) (hn : NetlocOk cred host port)
    (hf : frag.all safeCh = true) :
    (genUrlNQ scheme cred host port frag).filter
      (fun c => c ≠ '\t' && c ≠ '\r' && c ≠ '\n') = genUrlNQ scheme cred host port frag := by
  apply filter_eq_self_of_all
  intro c hc
  unfold genUrlNQ at hc
  rcases List.mem_append.mp hc with hm | hm
  · have hcl := List.all_eq_true.mp hs2 c hm
    simp only [Bool.or_eq_true] at hcl
    rcases hcl with hl | hd
    · exact noTRN_of_alwaysSafe (isLowerCh_alwaysSafe hl)
    · exact noTRN_of_alwaysSafe (isDigitCh_alwaysSafe hd)
  · rcases List.mem_cons.mp hm with rfl | hm
    · decide
    · rcases List.mem_cons.mp hm with rfl | hm
      · decide
      · rcases List.mem_cons.mp hm with rfl | hm
        · decide
        · rcases List.mem_append.mp hm with hm | hm
          · have hcl := List.all_eq_true.mp (netloc_all_ok hn) c hm
            simp only [Bool.or_eq_true, decide_eq_true_eq] at hcl
            rcases hcl with (ha | rfl) | rfl
            · exact noTRN_of_alwaysSafe ha
            · decide
            · decide
          · rcases List.mem_cons.mp hm with rfl | hm
            · decide
            · exact noTRN_of_alwaysSafe
                (safeCh_alwaysSafe (List.all_eq_true.mp hf c hm))

theorem pyUrlsplit_genUrlNQ {scheme cred host : Str} {port : Nat} {frag : Str}
    (hs1 : scheme ≠ []) (hs2 : scheme.all (fun c => isLowerCh c || isDigitCh c) = true)
    (hs3 : isLowerCh (scheme.headD 'a') = true)
    (hn : NetlocOk cred host port) (hf : frag.all safeCh = true) :
    pyUrlsplit (genUrlNQ scheme cred host port frag) =
      .ok ⟨scheme, genNetloc cred host port, [], [], frag⟩ := by
  unfold pyUrlsplit
  rw [genUrlNQ_filter_id hs2 hn hf]
  have hsch0 : schemeSplit (genUrlNQ scheme cred host port frag) =
      (scheme, '/' :: '/' :: (genNetloc cred host port ++ '#' :: frag)) := by
    unfold schemeSplit genUrlNQ
    have hcolon : ':' ∉ scheme := fun hm =>
      absurd (List.all_eq_true.mp hs2 ':' hm) (by decide)
    rw [breakFirst_append_cons _ hcolon]
    dsimp only
    rw [if_pos]
    · rw [pyLower_safe (List.all_eq_true.mpr (fun c hc => by
        have hcl := List.all_eq_true.mp hs2 c hc
        simp only [Bool.or_eq_true] at hcl
        rcases hcl with hl | hd
        · exact isLowerCh_safe hl
        · unfold safeCh
          rw [hd]
          simp))]
    · refine (Bool.and_eq_true _ _).mpr ⟨(Bool.and_eq_true _ _).mpr ⟨?_, ?_⟩, ?_⟩
      · simp [hs1]
      · cases scheme with
        | nil => exact absurd rfl hs1
        | cons c t =>
            have hl : isLowerCh c = true := hs3
            show (isLowerCh c || isUpperCh c) = true
            rw [hl]
            simp
      · exact List.all_eq_true.mpr (fun c hc => by
          have hcl := List.all_eq_true.mp hs2 c hc
          simp only [Bool.or_eq_true] at hcl
          unfold isSchemeCh isAlphaCh
          rcases hcl with hl | hd
          · rw [hl]
            simp
          · rw [hd]
            simp)
  dsimp only
  rw [hsch0]
  dsimp only
  have htake : ('/' :: '/' :: (genNetloc cred host port ++ '#' :: frag)).take 2 =
      ['/', '/'] := rfl
  rw [if_pos htake]
  have hsn : splitNetloc (('/' :: '/' :: (genNetloc cred host port ++ '#' :: frag)).drop 2) =
      (genNetloc cred host port, '#' :: frag) := by
    unfold splitNetloc
    simp only [List.drop_succ_cons, List.drop_zero]
    have := @takeWhile_append_cons (fun c => c ≠ '/' && c ≠ '?' && c ≠ '#')
      (genNetloc cred host port) '#' frag
      (fun x hx => by
        have hcl := List.all_eq_true.mp (netloc_all_ok hn) x hx
        simp only [Bool.or_eq_true, decide_eq_true_eq] at hcl
        rcases hcl with (ha | rfl) | rfl
        · simp only [Bool.and_eq_true, decide_eq_true_eq]
          exact ⟨⟨ne_of_pred ha (by decide), ne_of_pred ha (by decide)⟩,
            ne_of_pred ha (by decide)⟩
        · decide
        · decide)
      (by decide)
    rw [this.1, this.2]
  rw [hsn]
  dsimp only
  have hnall := netloc_all_ok hn
  have hbr1 : ('[' ∈ genNetloc cred host port) = False := by
    simp only [eq_iff_iff, iff_false]
    exact not_mem_of_all hnall (by decide)
  have hbr2 : (']' ∈ genNetloc cred host port) = False := by
    simp only [eq_iff_iff, iff_false]
    exact not_mem_of_all hnall (by decide)
  rw [if_neg (by
    simp only [Bool.or_eq_true, Bool.and_eq_true, decide_eq_true_eq, hbr1, hbr2]
    simp)]
  have hfr : breakFirst '#' ('#' :: frag) = some ([], frag) := by
    unfold breakFirst
    simp
  rw [hfr]
  dsimp only
  rfl

theorem assemble_genUrlNQ (sch cred host : Str) (p : Nat) (frag : Str) :
    sch ++ [':', '/', '/'] ++ cred ++ ['@'] ++ host ++ [':'] ++ natToStr p ++ ['#'] ++ frag =
      genUrlNQ sch cred host p frag := by
  unfold genUrlNQ genNetloc
  simp [List.append_assoc]

theorem genUrlNQ_decomp (sch cred host : Str) (p : Nat) (f : Str) :
    genUrlNQ sch cred host p f =
      (sch ++ [':', '/', '/']) ++ (genNetloc cred host p ++ '#' :: f) := by
  unfold genUrlNQ
  rw [List.append_assoc]
  rfl

theorem pyIntOfStr_natToStr (p : Nat) : pyIntOfStr (natToStr p) = .ok (p : Int) := by
  unfold pyIntOfStr
  split
  · rename_i rest heq
    have := natToStr_all_digits p '-' (by rw [heq]; exact List.mem_cons_self _ _)
    exact absurd this (by decide)
  · rename_i rest heq
    have := natToStr_all_digits p '+' (by rw [heq]; exact List.mem_cons_self _ _)
    exact absurd this (by decide)
  · rw [if_pos (by
      refine (Bool.and_eq_true _ _).mpr ⟨?_, List.all_eq_true.mpr (natToStr_all_digits p)⟩
      simp [natToStr_ne_nil p])]
    rw [digitsToNat_natToStr]

theorem b64Ch_mapped_alwaysSafe : ∀ v : Nat, v < 64 →
    alwaysSafeCh (if b64Ch v = '+' then '-' else if b64Ch v = '/' then '_' else b64Ch v) =
      true := by decide

theorem stripEq_urlsafe_encode (bs : List Nat) (h : ∀ b ∈ bs, b < 256) (hne : bs ≠ []) :
    stripEq (b64UrlsafeEncode bs) ≠ [] ∧
      (stripEq (b64UrlsafeEncode bs)).all alwaysSafeCh = true := by
  unfold b64UrlsafeEncode
  rw [stripEq_map (by intro c; by_cases h1 : c = '+' <;> by_cases h2 : c = '/' <;>
    simp [h1, h2]) (b64Encode bs)]
  obtain ⟨body, n, he, hbody, hchars, hn, hlen⟩ := b64Encode_decomp bs h hne
  rw [he, stripEq_body n hbody hchars]
  constructor
  · simp [hbody]
  · rw [List.all_eq_true]
    intro c hc
    rcases List.mem_map.mp hc with ⟨c0, hc0, rfl⟩
    obtain ⟨v, hv, rfl⟩ := hchars c0 hc0
    exact b64Ch_mapped_alwaysSafe v hv

theorem utf8Encode_ascii_bytes {s : Str} (h : ∀ c ∈ s, c.toNat < 128) :
    ∀ b ∈ utf8Encode s, b < 256 := by
  rw [utf8Encode_ascii s h]
  intro b hb
  rcases List.mem_map.mp hb with ⟨c, hc, rfl⟩
  have := h c hc
  omega

/-- The amended claim's conditions on a Shadowsocks descriptor. -/
structure SsOk (d : Dict) : Prop where
  proto : pyGetN d (S "protocol") = .str (S "shadowsocks")
  addr : ReqSafeV (pyGetN d (S "address"))
  portv : ∃ p : Nat, pyGetN d (S "port") = .int (p : Int) ∧ 1 ≤ p ∧ p ≤ 65535
  meth : ReqSafeV (pyGetN d (S "method"))
  pw : ReqSafeV (pyGetN d (S "password"))
  remark : ∃ r, pyGet d (S "remark") (.str []) = .str r ∧ r.all safeCh = true

theorem ss_roundtrip {d : Dict} (h : SsOk d) :
    ∃ d2, ProxyParser.parse (UriGenerator.generate d) = .ok (some d2) ∧
      SubscriptionService.generateFingerprint d2 = SubscriptionService.generateFingerprint d := by
  obtain ⟨a, ha, ha1, ha2⟩ := h.addr
  obtain ⟨p, hp, hp1, hp2⟩ := h.portv
  obtain ⟨m, hm, hm1, hm2⟩ := h.meth
  obtain ⟨pw, hpw, hpw1, hpw2⟩ := h.pw
  obtain ⟨rmk, hrmk, hrmk2⟩ := h.remark
  have hascii : ∀ c ∈ m ++ ':' :: pw, c.toNat < 128 := by
    intro c hc
    rcases List.mem_append.mp hc with hc | hc
    · exact safeCh_toNat_lt (List.all_eq_true.mp hm2 c hc)
    rcases List.mem_cons.mp hc with rfl | hc
    · decide
    · exact safeCh_toNat_lt (List.all_eq_true.mp hpw2 c hc)
  have hbytes : ∀ b ∈ utf8Encode (m ++ ':' :: pw), b < 256 := utf8Encode_ascii_bytes hascii
  have hbne : utf8Encode (m ++ ':' :: pw) ≠ [] := by
    rw [utf8Encode_ascii _ hascii]
    simp
  have hcred := stripEq_urlsafe_encode (utf8Encode (m ++ ':' :: pw)) hbytes hbne
  have hnet : NetlocOk (stripEq (b64UrlsafeEncode (utf8Encode (m ++ ':' :: pw)))) a p :=
    ⟨hcred.1, hcred.2, ha1, ha2, hp2⟩
  have hgen : UriGenerator.generate d =
      genUrlNQ (S "ss") (stripEq (b64UrlsafeEncode (utf8Encode (m ++ ':' :: pw)))) a p rmk := by
    unfold UriGenerator.generate
    rw [h.proto]
    rw [if_neg (by decide), if_neg (by decide), if_neg (by decide), if_pos rfl]
    unfold UriGenerator.genSs
    dsimp only
    rw [pyGet_of_pyGetN hm (by simp) _, pyGet_of_pyGetN hpw (by simp) _,
      pyGet_of_pyGetN ha (by simp) _, pyGet_of_pyGetN hp (by simp) _, hrmk]
    simp only [pyStrOfVal]
    rw [intToStr_natCast, pyQuote_safe hrmk2]
    rw [show m ++ [':'] ++ pw = m ++ ':' :: pw from by simp]
    rw [show S "ss://" = S "ss" ++ [':', '/', '/'] from rfl]
    exact assemble_genUrlNQ _ _ _ _ _
  rw [hgen]
  have hsplit := @pyUrlsplit_genUrlNQ (S "ss")
    (stripEq (b64UrlsafeEncode (utf8Encode (m ++ ':' :: pw)))) a p rmk
    (by decide) (by decide) (by decide) hnet hrmk2
  have hpre1 : (S "vless://").isPrefixOf
      (genUrlNQ (S "ss") (stripEq (b64UrlsafeEncode (utf8Encode (m ++ ':' :: pw)))) a p rmk) =
      false := rfl
  have hpre2 : (S "vmess://").isPrefixOf
      (genUrlNQ (S "ss") (stripEq (b64UrlsafeEncode (utf8Encode (m ++ ':' :: pw)))) a p rmk) =
      false := rfl
  have hpre3 : (S "trojan://").isPrefixOf
      (genUrlNQ (S "ss") (stripEq (b64UrlsafeEncode (utf8Encode (m ++ ':' :: pw)))) a p rmk) =
      false := rfl
  have hpre4 : (S "ss://").isPrefixOf
      (genUrlNQ (S "ss") (stripEq (b64UrlsafeEncode (utf8Encode (m ++ ':' :: pw)))) a p rmk) =
      true := by
    rw [genUrlNQ_decomp]
    exact isPrefixOf_append_self _ _
  unfold ProxyParser.parse
  rw [hpre1, hpre2, hpre3, hpre4]
  simp only [Bool.false_eq_true, if_false, if_true]
  unfold ProxyParser.parseSsUri
  have hat : breakFirst '@' (genNetloc (stripEq (b64UrlsafeEncode (utf8Encode (m ++ ':' :: pw))))
      a p) = some (stripEq (b64UrlsafeEncode (utf8Encode (m ++ ':' :: pw))),
      a ++ ':' :: natToStr p) := by
    unfold genNetloc
    exact breakFirst_append_cons _ (not_mem_of_all hcred.2 (by decide))
  have hremark : (if List.isEmpty rmk then ([] : Str) else pyUnquote rmk) = rmk := by
    by_cases hre : rmk = []
    · subst hre
      rfl
    · rw [if_neg (by simp [List.isEmpty_iff, hre])]
      exact pyUnquote_no_pct (not_mem_of_all hrmk2 (by decide))
  have hbody : ProxyParser.parseSsUriBody
      (genUrlNQ (S "ss") (stripEq (b64UrlsafeEncode (utf8Encode (m ++ ':' :: pw)))) a p rmk) =
      .ok (some [
        (S "protocol", .str (S "shadowsocks")),
        (S "remark", .str rmk),
        (S "address", .str a),
        (S "port", .int (p : Int)),
        (S "method", .str m),
        (S "password", .str pw),
        (S "raw_uri", .str (genUrlNQ (S "ss")
          (stripEq (b64UrlsafeEncode (utf8Encode (m ++ ':' :: pw)))) a p rmk))]) := by
    unfold ProxyParser.parseSsUriBody
    rw [hsplit]
    dsimp only [Except.bind, bind]
    rw [hat]
    dsimp only
    rw [b64_roundtrip _ hbytes]
    dsimp only [Except.bind]
    rw [utf8DecodeStrict_ascii _ hascii]
    dsimp only [Except.bind]
    rw [breakFirst_append_cons _ (not_mem_of_all hm2 (by decide))]
    dsimp only
    rw [rpartitionCh_unique (not_mem_of_all ha2 (by decide))
      (fun hmem => absurd (natToStr_all_digits p ':' hmem) (by decide))]
    dsimp only
    rw [if_neg (by decide)]
    rw [pyIntOfStr_natToStr]
    dsimp only [Except.bind]
    rw [hremark]
    rfl
  refine ⟨[
    (S "protocol", .str (S "shadowsocks")),
    (S "remark", .str rmk),
    (S "address", .str a),
    (S "port", .int (p : Int)),
    (S "method", .str m),
    (S "password", .str pw),
    (S "raw_uri", .str (genUrlNQ (S "ss")
      (stripEq (b64UrlsafeEncode (utf8Encode (m ++ ':' :: pw)))) a p rmk))], ?_, ?_⟩
  · unfold pyCatch
    rw [hbody]
  · have hfd : SubscriptionService.generateFingerprint d =
        .tup [.str (S "shadowsocks"), pyGetN d (S "address"), pyGetN d (S "port"),
          pyGetN d (S "method"), pyGetN d (S "password")] := by
      unfold SubscriptionService.generateFingerprint
      rw [h.proto]
      rw [if_neg (by decide), if_neg (by decide), if_neg (by decide), if_pos rfl]
      rfl
    rw [hfd, ha, hp, hm, hpw]
    rfl

/-! Plumbing for the VMess round-trip: prefix replacement, whitespace
strip, base64 length, ASCII decode-ignore, last-brace truncation. -/

theorem pyReplace_no_occ {pat : Str} {c : Char} (hc : c ∈ pat) :
    ∀ (fuel : Nat) (s : Str), c ∉ s → pyReplace fuel s pat [] = s := by
  intro fuel
  induction fuel with
  | zero => intro s _; rfl
  | succ f ih =>
      intro s hs
      cases s with
      | nil => rfl
      | cons x t =>
          conv_lhs => unfold pyReplace
          rw [if_neg (fun hpre => hs
            ((List.isPrefixOf_iff_prefix.mp hpre).subset hc))]
          rw [ih t (fun hm => hs (List.mem_cons_of_mem _ hm))]

theorem pyReplace_drops_leading {pat s : Str} {c : Char} (hpat : pat ≠ []) (hc : c ∈ pat)
    (hs : c ∉ s) (fuel : Nat) :
    pyReplace (fuel + 1) (pat ++ s) pat [] = s := by
  cases pat with
  | nil => exact absurd rfl hpat
  | cons p0 pt =>
      rw [List.cons_append]
      rw [show pyReplace (fuel + 1) (p0 :: (pt ++ s)) (p0 :: pt) [] =
        (if (p0 :: pt).isPrefixOf (p0 :: (pt ++ s)) then
          [] ++ pyReplace fuel ((p0 :: (pt ++ s)).drop (p0 :: pt).length) (p0 :: pt) []
        else p0 :: pyReplace fuel (pt ++ s) (p0 :: pt) []) from rfl]
      rw [if_pos (by rw [← List.cons_append]; exact isPrefixOf_append_self _ _)]
      rw [← List.cons_append, List.drop_left]
      rw [pyReplace_no_occ hc fuel s hs]
      rfl

theorem pyStrip_id {s : Str} (h : ∀ c ∈ s, isPyWs c = false) : pyStrip s = s := by
  unfold pyStrip
  have h1 : s.dropWhile isPyWs = s := by
    cases s with
    | nil => rfl
    | cons c t =>
        rw [List.dropWhile_cons, h c (List.mem_cons_self _ _)]
        simp
  rw [h1]
  have h2 : s.reverse.dropWhile isPyWs = s.reverse := by
    cases hrev : s.reverse with
    | nil => rfl
    | cons c t =>
        have hcm : c ∈ s := List.mem_reverse.mp (by rw [hrev]; exact List.mem_cons_self _ _)
        rw [List.dropWhile_cons, h c hcm]
        simp
  rw [h2, List.reverse_reverse]

theorem b64Encode_len_mod4 : ∀ bs : List Nat, (b64Encode bs).length % 4 = 0
  | [] => rfl
  | [b1] => by
      rw [show b64Encode [b1] = [b64Ch (b1 / 4), b64Ch (b1 % 4 * 16), '=', '='] from rfl]
      simp
  | [b1, b2] => by
      rw [show b64Encode [b1, b2] =
        [b64Ch (b1 / 4), b64Ch (b1 % 4 * 16 + b2 / 16), b64Ch (b2 % 16 * 4), '='] from rfl]
      simp
  | b1 :: b2 :: b3 :: rest => by
      have ih := b64Encode_len_mod4 rest
      rw [show b64Encode (b1 :: b2 :: b3 :: rest) =
        b64Ch (b1 / 4) :: b64Ch (b1 % 4 * 16 + b2 / 16) :: b64Ch (b2 % 16 * 4 + b3 / 64) ::
          b64Ch (b3 % 64) :: b64Encode rest from rfl]
      simp only [List.length_cons]
      omega

theorem padB64_id {s : Str} (h : s.length % 4 = 0) : padB64 s = s := by
  unfold padB64
  rw [h]
  simp

theorem b64Encode_chars (bs : List Nat) (h : ∀ b ∈ bs, b < 256) :
    ∀ c ∈ b64Encode bs, c = '=' ∨ ∃ v, v < 64 ∧ c = b64Ch v := by
  intro c hc
  by_cases hne : bs = []
  · subst hne
    cases hc
  · obtain ⟨body, n, he, _, hchars, _, _⟩ := b64Encode_decomp bs h hne
    rw [he] at hc
    rcases List.mem_append.mp hc with hm | hm
    · exact Or.inr (hchars c hm)
    · exact Or.inl (List.eq_of_mem_replicate hm)

theorem filterMap_id_map_some (s : Str) : (s.map some).filterMap id = s := by
  induction s with
  | nil => rfl
  | cons c t ih =>
      rw [List.map_cons, List.filterMap_cons]
      dsimp only [id]
      rw [ih]

theorem utf8DecodeIgnore_ascii (s : Str) (h : ∀ c ∈ s, c.toNat < 128) :
    utf8DecodeIgnore (utf8Encode s) = s := by
  unfold utf8DecodeIgnore
  rw [utf8Encode_ascii s h, List.length_map, utf8Tokens_map_toNat s h,
    filterMap_id_map_some]

theorem truncAtLastBrace_append (t : Str) :
    truncAtLastBrace (t ++ ['\x7d']) = t ++ ['\x7d'] := by
  unfold truncAtLastBrace
  have hrev : (t ++ ['\x7d']).reverse = '\x7d' :: t.reverse := by simp
  rw [hrev]
  rw [show breakFirst '\x7d' ('\x7d' :: t.reverse) = some ([], t.reverse) from by
    unfold breakFirst
    simp]
  simp

/-! JSON dump/load round-trip for flat objects of safe strings and
natural numbers, as the VMess generator emits them. -/

theorem jsonEscapeCh_safe {c : Char} (h : safeCh c = true) : jsonEscapeCh c = [c] := by
  have hlt := safeCh_toNat_lt h
  have hge : 32 ≤ c.toNat := by
    unfold safeCh at h
    simp only [Bool.or_eq_true, decide_eq_true_eq] at h
    rcases h with ((((h | h) | rfl) | rfl) | rfl)
    · have := toNat_bounds_of_isLowerCh h
      omega
    · have := toNat_bounds_of_isDigitCh h
      omega
    · decide
    · decide
    · decide
  unfold jsonEscapeCh
  rw [if_neg (ne_of_pred h (by decide)), if_neg (ne_of_pred h (by decide)),
    if_neg (ne_of_pred h (by decide)), if_neg (ne_of_pred h (by decide)),
    if_neg (ne_of_pred h (by decide)), if_neg (ne_of_pred h (by decide)),
    if_neg (ne_of_pred h (by decide)),
    if_neg (by simp only [Bool.or_eq_true, decide_eq_true_eq, not_or]; omega)]

theorem jsonEscape_flatMap_safe {s : Str} (h : s.all safeCh = true) :
    s.flatMap jsonEscapeCh = s := by
  induction s with
  | nil => rfl
  | cons c t ih =>
      rw [List.all_cons, Bool.and_eq_true] at h
      rw [List.flatMap_cons, jsonEscapeCh_safe h.1, ih h.2]
      rfl

theorem jsonStrAux_step_plain {f : Nat} {c : Char} {t : Str} (h1 : c ≠ '"') (h2 : c ≠ '\\') :
    jsonStrAux (f + 1) (c :: t) =
      match jsonStrAux f t with
      | .ok (s, r) => .ok (c :: s, r)
      | .error er => .error er := by
  conv_lhs => unfold jsonStrAux
  rw [if_neg h1, if_neg h2]

theorem jsonStrAux_safe : ∀ (s : Str) (rest : Str) (fuel : Nat), s.all safeCh = true →
    fuel ≥ s.length + 1 → jsonStrAux fuel (s ++ '"' :: rest) = .ok (s, rest) := by
  intro s
  induction s with
  | nil =>
      intro rest fuel _ hf
      cases fuel with
      | zero => omega
      | succ f =>
          rw [List.nil_append]
          rfl
  | cons c t ih =>
      intro rest fuel hall hf
      rw [List.all_cons, Bool.and_eq_true] at hall
      cases fuel with
      | zero => simp only [List.length_cons] at hf; omega
      | succ f =>
          rw [List.cons_append]
          rw [jsonStrAux_step_plain (ne_of_pred hall.1 (by decide))
            (ne_of_pred hall.1 (by decide))]
          rw [ih rest f hall.2 (by simp only [List.length_cons] at hf; omega)]

theorem jsonScalarAux_str {s rest : Str} (h : s.all safeCh = true) :
    jsonScalarAux ('"' :: (s ++ '"' :: rest)) = .ok (.str s, rest) := by
  rw [show jsonScalarAux ('"' :: (s ++ '"' :: rest)) =
    (match jsonStrAux ((s ++ '"' :: rest).length + 1) (s ++ '"' :: rest) with
     | .ok (str, r) => .ok (.str str, r)
     | .error e => .error e) from rfl]
  rw [jsonStrAux_safe s rest ((s ++ '"' :: rest).length + 1) h
    (by simp only [List.length_append, List.length_cons]; omega)]

theorem isJsonWs_of_digit {c : Char} (h : isDigitCh c = true) : isJsonWs c = false := by
  have h1 : c ≠ ' ' := ne_of_pred h (by decide)
  have h2 : c ≠ '\t' := ne_of_pred h (by decide)
  have h3 : c ≠ '\n' := ne_of_pred h (by decide)
  have h4 : c ≠ '\r' := ne_of_pred h (by decide)
  have h5 : c ≠ Char.ofNat 11 := ne_of_pred h (by decide)
  have h6 : c ≠ Char.ofNat 12 := ne_of_pred h (by decide)
  simp [isJsonWs, h1, h2, h3, h4, h5, h6]

theorem jsonScalarAux_nat (n : Nat) {rest : Str}
    (hr : isDigitCh (rest.headD ',') = false) :
    jsonScalarAux (natToStr n ++ rest) = .ok (.int (n : Int), rest) := by
  cases hs : natToStr n with
  | nil => exact absurd hs (natToStr_ne_nil n)
  | cons c t =>
      have hdigits : ∀ x ∈ c :: t, isDigitCh x = true := by
        rw [← hs]
        exact natToStr_all_digits n
      have hc : isDigitCh c = true := hdigits c (List.mem_cons_self _ _)
      have hval : digitsToNat (c :: t) = n := by
        rw [← hs, digitsToNat_natToStr]
      rw [List.cons_append]
      conv_lhs => unfold jsonScalarAux
      split
      · rename_i t2 heq
        injection heq with he _
        rw [he] at hc
        exact absurd hc (by decide)
      · rename_i t2 heq
        injection heq with he _
        rw [he] at hc
        exact absurd hc (by decide)
      · rename_i t2 heq
        injection heq with he _
        rw [he] at hc
        exact absurd hc (by decide)
      · rename_i t2 heq
        injection heq with he _
        rw [he] at hc
        exact absurd hc (by decide)
      · rename_i t2 heq
        injection heq with he _
        rw [he] at hc
        exact absurd hc (by decide)
      · rename_i c2 t2 heq
        injection heq with he ht
        subst he
        subst ht
        rw [if_pos hc]
        cases rest with
        | nil =>
            rw [List.append_nil]
            rw [(takeWhile_all hdigits).1, (takeWhile_all hdigits).2]
            dsimp only
            rw [hval]
        | cons r0 rs =>
            have hr0 : isDigitCh r0 = false := hr
            rw [← List.cons_append]
            rw [(@takeWhile_append_cons isDigitCh (c :: t) r0 rs hdigits hr0).1,
              (@takeWhile_append_cons isDigitCh (c :: t) r0 rs hdigits hr0).2]
            dsimp only
            rw [hval]
      · rename_i heq
        cases heq

theorem dictSet_append {k : Str} {v : PyVal} : ∀ (d : Dict), k ∉ d.map Prod.fst →
    dictSet d k v = d ++ [(k, v)] := by
  intro d
  induction d with
  | nil => intro _; rfl
  | cons p t ih =>
      intro h
      rcases p with ⟨k2, w⟩
      unfold dictSet
      rw [if_neg (fun (he : k2 = k) => h
        (he ▸ List.mem_map_of_mem Prod.fst (List.mem_cons_self _ _)))]
      rw [ih (fun hm => h (List.mem_cons_of_mem _ hm))]
      rfl

theorem foldl_dictSet_append : ∀ (kvs acc : List (Str × PyVal)),
    (kvs.map Prod.fst).Nodup → (∀ k ∈ kvs.map Prod.fst, k ∉ acc.map Prod.fst) →
    kvs.foldl (fun a p => dictSet a p.1 p.2) acc = acc ++ kvs := by
  intro kvs
  induction kvs with
  | nil =>
      intro acc _ _
      simp
  | cons p t ih =>
      intro acc hnd hdisj
      rw [List.foldl_cons, dictSet_append acc
        (hdisj p.1 (List.mem_map_of_mem Prod.fst (List.mem_cons_self _ _)))]
      rw [List.map_cons, List.nodup_cons] at hnd
      rw [ih (acc ++ [(p.1, p.2)]) hnd.2 (fun k hk => by
        rw [List.map_append]
        intro hm
        rcases List.mem_append.mp hm with hm | hm
        · exact hdisj k (List.mem_cons_of_mem _ hk) hm
        · simp only [List.map_cons, List.map_nil, List.mem_singleton] at hm
          subst hm
          exact hnd.1 hk)]
      simp

theorem strJoin_length_ge : ∀ (l : List Str), (∀ x ∈ l, x ≠ []) →
    l.length ≤ (strJoin [','] l).length := by
  intro l
  induction l with
  | nil =>
      intro _
      simp [strJoin]
  | cons x t ih =>
      intro h
      cases t with
      | nil =>
          have hx := List.length_pos.mpr (h x (by simp))
          simp only [strJoin, List.length_cons, List.length_nil]
          omega
      | cons y ts =>
          rw [show strJoin [','] (x :: y :: ts) = x ++ [','] ++ strJoin [','] (y :: ts)
            from rfl]
          have iht := ih (fun z hz => h z (List.mem_cons_of_mem _ hz))
          have hx := List.length_pos.mpr (h x (by simp))
          simp only [List.length_append, List.length_cons] at iht ⊢
          omega

theorem dropWhile_ws_cons {c : Char} (h : isJsonWs c = false) (t : Str) :
    (c :: t).dropWhile isJsonWs = c :: t := by
  rw [List.dropWhile_cons, h]
  simp

theorem jsonObjAux_cons_quote (f : Nat) (t : Str) (acc : List (Str × PyVal)) :
    jsonObjAux (f + 1) ('"' :: t) acc =
      match jsonStrAux (t.length + 1) t with
      | .ok (key, r1) =>
          (match r1.dropWhile isJsonWs with
           | ':' :: r2 =>
               (match jsonScalarAux (r2.dropWhile isJsonWs) with
                | .ok (v, r3) =>
                    (match r3.dropWhile isJsonWs with
                     | ',' :: r4 => jsonObjAux f r4 (dictSet acc key v)
                     | c :: r4 => if c = '\x7d' then .ok (dictSet acc key v, r4)
                         else .error .jsonDecodeError
                     | [] => .error .jsonDecodeError)
                | .error e => .error e)
           | _ => .error .jsonDecodeError)
      | .error e => .error e := by
  conv_lhs => unfold jsonObjAux
  rw [dropWhile_ws_cons (by decide)]
  rfl

theorem jsonObjAux_keyed {f : Nat} {t k r2 : Str} {acc : List (Str × PyVal)}
    (hk : jsonStrAux (t.length + 1) t = .ok (k, ':' :: r2)) :
    jsonObjAux (f + 1) ('"' :: t) acc =
      match jsonScalarAux (r2.dropWhile isJsonWs) with
      | .ok (v, r3) =>
          (match r3.dropWhile isJsonWs with
           | ',' :: r4 => jsonObjAux f r4 (dictSet acc k v)
           | c :: r4 => if c = '\x7d' then .ok (dictSet acc k v, r4)
               else .error .jsonDecodeError
           | [] => .error .jsonDecodeError)
      | .error e => .error e := by
  rw [jsonObjAux_cons_quote, hk]
  rfl

theorem dropWhile_ws_natToStr (n : Nat) (r : Str) :
    (natToStr n ++ r).dropWhile isJsonWs = natToStr n ++ r := by
  cases hns : natToStr n with
  | nil => exact absurd hns (natToStr_ne_nil n)
  | cons c0 t0 =>
      have hd0 : isDigitCh c0 = true :=
        natToStr_all_digits n c0 (by rw [hns]; exact List.mem_cons_self _ _)
      rw [List.cons_append, dropWhile_ws_cons (isJsonWs_of_digit hd0)]

theorem jsonObjAux_entry_comma {f : Nat} {k : Str} {v : PyVal} {r : Str}
    {acc : List (Str × PyVal)} (hk2 : k.all safeCh = true)
    (hv : (∃ s, v = .str s ∧ s.all safeCh = true) ∨ ∃ n : Nat, v = .int (n : Int)) :
    jsonObjAux (f + 1) ('"' :: (k ++ '"' :: ':' :: (jsonDumpVal v ++ ',' :: r))) acc =
      jsonObjAux f r (dictSet acc k v) := by
  rw [jsonObjAux_keyed (jsonStrAux_safe k _ _ hk2
    (by simp only [List.length_append, List.length_cons]; omega))]
  rcases hv with ⟨s, rfl, hs⟩ | ⟨n, rfl⟩
  · rw [show jsonDumpVal (PyVal.str s) ++ ',' :: r = '"' :: (s ++ '"' :: ',' :: r) from by
      rw [show jsonDumpVal (PyVal.str s) = '"' :: (s.flatMap jsonEscapeCh ++ ['"']) from rfl,
        jsonEscape_flatMap_safe hs]
      simp]
    rw [dropWhile_ws_cons (by decide)]
    rw [jsonScalarAux_str hs]
    rfl
  · rw [show jsonDumpVal (PyVal.int (n : Int)) ++ ',' :: r = natToStr n ++ ',' :: r from by
      rw [show jsonDumpVal (PyVal.int (n : Int)) = intToStr (n : Int) from rfl,
        intToStr_natCast]]
    rw [dropWhile_ws_natToStr]
    rw [@jsonScalarAux_nat n (',' :: r) (by rfl)]
    rfl

theorem jsonObjAux_entry_end {f : Nat} {k : Str} {v : PyVal} {acc : List (Str × PyVal)}
    (hk2 : k.all safeCh = true)
    (hv : (∃ s, v = .str s ∧ s.all safeCh = true) ∨ ∃ n : Nat, v = .int (n : Int)) :
    jsonObjAux (f + 1) ('"' :: (k ++ '"' :: ':' :: (jsonDumpVal v ++ ['\x7d']))) acc =
      .ok (dictSet acc k v, []) := by
  rw [jsonObjAux_keyed (jsonStrAux_safe k _ _ hk2
    (by simp only [List.length_append, List.length_cons]; omega))]
  rcases hv with ⟨s, rfl, hs⟩ | ⟨n, rfl⟩
  · rw [show jsonDumpVal (PyVal.str s) ++ ['\x7d'] = '"' :: (s ++ '"' :: '\x7d' :: []) from by
      rw [show jsonDumpVal (PyVal.str s) = '"' :: (s.flatMap jsonEscapeCh ++ ['"']) from rfl,
        jsonEscape_flatMap_safe hs]
      simp]
    rw [dropWhile_ws_cons (by decide)]
    rw [jsonScalarAux_str hs]
    rfl
  · rw [show jsonDumpVal (PyVal.int (n : Int)) ++ ['\x7d'] = natToStr n ++ '\x7d' :: [] from by
      rw [show jsonDumpVal (PyVal.int (n : Int)) = intToStr (n : Int) from rfl,
        intToStr_natCast]]
    rw [show (natToStr n ++ '\x7d' :: [] : Str) = natToStr n ++ ['\x7d'] from rfl]
    rw [dropWhile_ws_natToStr]
    rw [@jsonScalarAux_nat n ['\x7d'] (by decide)]
    rfl

theorem jsonObjAux_dump : ∀ (kvs : List (Str × PyVal)) (acc : List (Str × PyVal)) (f : Nat),
    kvs ≠ [] →
    (∀ p ∈ kvs, p.1 ≠ [] ∧ p.1.all safeCh = true ∧
      ((∃ s, p.2 = .str s ∧ s.all safeCh = true) ∨ ∃ n : Nat, p.2 = .int (n : Int))) →
    f ≥ kvs.length →
    jsonObjAux (f + 1)
      (strJoin [','] (kvs.map (fun p => jsonDumpStr p.1 ++ [':'] ++ jsonDumpVal p.2)) ++
        ['\x7d']) acc =
      .ok (kvs.foldl (fun a p => dictSet a p.1 p.2) acc, []) := by
  intro kvs
  induction kvs with
  | nil => intro acc f hne _ _; exact absurd rfl hne
  | cons p t ih =>
      intro acc f _ hent hf
      rcases p with ⟨k, v⟩
      obtain ⟨hk1, hk2, hv⟩ := hent (k, v) (List.mem_cons_self _ _)
      cases t with
      | nil =>
          have hstream : strJoin [',']
              (((k, v) :: ([] : List (Str × PyVal))).map
                (fun p => jsonDumpStr p.1 ++ [':'] ++ jsonDumpVal p.2)) ++ ['\x7d'] =
              '"' :: (k ++ '"' :: ':' :: (jsonDumpVal v ++ ['\x7d'])) := by
            rw [List.map_cons, List.map_nil]
            rw [show strJoin [','] [jsonDumpStr k ++ [':'] ++ jsonDumpVal v] =
              jsonDumpStr k ++ [':'] ++ jsonDumpVal v from rfl]
            unfold jsonDumpStr
            rw [jsonEscape_flatMap_safe hk2]
            simp
          rw [hstream, jsonObjAux_entry_end hk2 hv]
          rfl
      | cons q ts =>
          have hstream : strJoin [',']
              (((k, v) :: q :: ts).map
                (fun p => jsonDumpStr p.1 ++ [':'] ++ jsonDumpVal p.2)) ++ ['\x7d'] =
              '"' :: (k ++ '"' :: ':' :: (jsonDumpVal v ++ ',' ::
                (strJoin [','] ((q :: ts).map
                  (fun p => jsonDumpStr p.1 ++ [':'] ++ jsonDumpVal p.2)) ++ ['\x7d']))) := by
            rw [List.map_cons]
            rw [show strJoin [','] ((jsonDumpStr k ++ [':'] ++ jsonDumpVal v) ::
              (q :: ts).map (fun p => jsonDumpStr p.1 ++ [':'] ++ jsonDumpVal p.2)) =
              jsonDumpStr k ++ [':'] ++ jsonDumpVal v ++ [','] ++
                strJoin [','] ((q :: ts).map
                  (fun p => jsonDumpStr p.1 ++ [':'] ++ jsonDumpVal p.2)) from by
              rw [show ((q :: ts).map
                (fun p => jsonDumpStr p.1 ++ [':'] ++ jsonDumpVal p.2)) =
                (jsonDumpStr q.1 ++ [':'] ++ jsonDumpVal q.2) ::
                  ts.map (fun p => jsonDumpStr p.1 ++ [':'] ++ jsonDumpVal p.2) from by
                rw [List.map_cons]]
              rfl]
            unfold jsonDumpStr
            rw [jsonEscape_flatMap_safe hk2]
            simp
          rw [hstream, jsonObjAux_entry_comma hk2 hv]
          cases f with
          | zero => simp only [List.length_cons] at hf; omega
          | succ f2 =>
              rw [ih (dictSet acc k v) f2 (by simp)
                (fun p hp => hent p (List.mem_cons_of_mem _ hp))
                (by simp only [List.length_cons] at hf ⊢; omega)]
              rfl

theorem jsonLoads_brace_quote (Y : Str) :
    jsonLoads ('\x7b' :: ('"' :: Y)) =
      match jsonObjAux (('"' :: Y).length + 1) ('"' :: Y) [] with
      | .ok (kvs, r) => if ((r.dropWhile isJsonWs).isEmpty) then .ok (.obj kvs)
          else .error .jsonDecodeError
      | .error e => .error e := by
  unfold jsonLoads
  rw [dropWhile_ws_cons (by decide)]
  rfl

theorem jsonLoads_dumpObj (kvs : List (Str × PyVal)) (hne : kvs ≠ [])
    (hent : ∀ p ∈ kvs, p.1 ≠ [] ∧ p.1.all safeCh = true ∧
      ((∃ s, p.2 = .str s ∧ s.all safeCh = true) ∨ ∃ n : Nat, p.2 = .int (n : Int)))
    (hnd : (kvs.map Prod.fst).Nodup) :
    jsonLoads (jsonDumpObj kvs) = .ok (.obj kvs) := by
  rcases kvs with _ | ⟨⟨k, v⟩, t⟩
  · cases hne rfl
  obtain ⟨hk1, hk2, hv⟩ := hent (k, v) (List.mem_cons_self _ _)
  have hsh : strJoin [','] (((k, v) :: t).map
      (fun p => jsonDumpStr p.1 ++ [':'] ++ jsonDumpVal p.2)) ++ ['\x7d'] =
      '"' :: ((k ++ '"' :: ':' :: (jsonDumpVal v ++ (match t with
        | [] => ['\x7d']
        | _ :: _ => ',' :: (strJoin [','] (t.map
            (fun p => jsonDumpStr p.1 ++ [':'] ++ jsonDumpVal p.2)) ++ ['\x7d']))))) := by
    cases t with
    | nil =>
        rw [List.map_cons, List.map_nil]
        rw [show strJoin [','] [jsonDumpStr k ++ [':'] ++ jsonDumpVal v] =
          jsonDumpStr k ++ [':'] ++ jsonDumpVal v from rfl]
        rw [show jsonDumpStr k = '"' :: (k.flatMap jsonEscapeCh ++ ['"']) from rfl,
          jsonEscape_flatMap_safe hk2]
        simp
    | cons q ts =>
        rw [List.map_cons]
        rw [show strJoin [','] ((jsonDumpStr k ++ [':'] ++ jsonDumpVal v) ::
          (q :: ts).map (fun p => jsonDumpStr p.1 ++ [':'] ++ jsonDumpVal p.2)) =
          jsonDumpStr k ++ [':'] ++ jsonDumpVal v ++ [','] ++
            strJoin [','] ((q :: ts).map
              (fun p => jsonDumpStr p.1 ++ [':'] ++ jsonDumpVal p.2)) from by
          rw [show ((q :: ts).map
            (fun p => jsonDumpStr p.1 ++ [':'] ++ jsonDumpVal p.2)) =
            (jsonDumpStr q.1 ++ [':'] ++ jsonDumpVal q.2) ::
              ts.map (fun p => jsonDumpStr p.1 ++ [':'] ++ jsonDumpVal p.2) from by
            rw [List.map_cons]]
          rfl]
        rw [show jsonDumpStr k = '"' :: (k.flatMap jsonEscapeCh ++ ['"']) from rfl,
          jsonEscape_flatMap_safe hk2]
        simp
  rw [show jsonDumpObj ((k, v) :: t) = '\x7b' :: (strJoin [','] (((k, v) :: t).map
    (fun p => jsonDumpStr p.1 ++ [':'] ++ jsonDumpVal p.2)) ++ ['\x7d']) from rfl]
  rw [hsh, jsonLoads_brace_quote, ← hsh]
  have hjlen : ((k, v) :: t).length ≤
      (strJoin [','] (((k, v) :: t).map
        (fun p => jsonDumpStr p.1 ++ [':'] ++ jsonDumpVal p.2)) ++ ['\x7d']).length := by
    rw [List.length_append]
    have := strJoin_length_ge (((k, v) :: t).map
      (fun p => jsonDumpStr p.1 ++ [':'] ++ jsonDumpVal p.2))
      (by
        intro x hx
        rcases List.mem_map.mp hx with ⟨p, _, rfl⟩
        rw [show jsonDumpStr p.1 ++ [':'] ++ jsonDumpVal p.2 =
          '"' :: (p.1.flatMap jsonEscapeCh ++ ['"'] ++ [':'] ++ jsonDumpVal p.2) from by
          rw [show jsonDumpStr p.1 = '"' :: (p.1.flatMap jsonEscapeCh ++ ['"']) from rfl]
          simp]
        simp)
    rw [List.length_map] at this
    simp only [List.length_cons] at this ⊢
    omega
  rw [jsonObjAux_dump ((k, v) :: t) [] _ (by simp) hent hjlen]
  rw [foldl_dictSet_append ((k, v) :: t) [] hnd (fun z _ => List.not_mem_nil z)]
  rfl

theorem b64Ch_extra : ∀ v : Nat, v < 64 →
    (b64Ch v ≠ ':' ∧ b64Ch v ≠ '?' ∧ isPyWs (b64Ch v) = false ∧ (b64Ch v).toNat < 128) := by
  decide

theorem truncAtLastBrace_dumpObj (kvs : List (Str × PyVal)) :
    truncAtLastBrace (jsonDumpObj kvs) = jsonDumpObj kvs := by
  rw [show jsonDumpObj kvs = ('\x7b' :: strJoin [','] (kvs.map
    (fun p => jsonDumpStr p.1 ++ [':'] ++ jsonDumpVal p.2))) ++ ['\x7d'] from rfl]
  exact truncAtLastBrace_append _

theorem strJoin_mem {sep : Str} {c : Char} : ∀ {l : List Str}, c ∈ strJoin sep l →
    c ∈ sep ∨ ∃ x ∈ l, c ∈ x := by
  intro l
  induction l with
  | nil => intro h; cases h
  | cons x t ih =>
      intro h
      cases t with
      | nil => exact Or.inr ⟨x, List.mem_cons_self _ _, h⟩
      | cons y ts =>
          rw [show strJoin sep (x :: y :: ts) = x ++ sep ++ strJoin sep (y :: ts) from rfl]
            at h
          rcases List.mem_append.mp h with h | h
          · rcases List.mem_append.mp h with h | h
            · exact Or.inr ⟨x, List.mem_cons_self _ _, h⟩
            · exact Or.inl h
          · rcases ih h with h | ⟨z, hz, hc⟩
            · exact Or.inl h
            · exact Or.inr ⟨z, List.mem_cons_of_mem _ hz, hc⟩

theorem jsonDumpStr_ascii {k : Str} (hk : k.all safeCh = true) :
    ∀ c ∈ jsonDumpStr k, c.toNat < 128 := by
  intro c hc
  rw [show jsonDumpStr k = '"' :: (k.flatMap jsonEscapeCh ++ ['"']) from rfl,
    jsonEscape_flatMap_safe hk] at hc
  rcases List.mem_cons.mp hc with rfl | hc
  · decide
  rcases List.mem_append.mp hc with hc | hc
  · exact safeCh_toNat_lt (List.all_eq_true.mp hk c hc)
  · rcases List.mem_cons.mp hc with rfl | hc
    · decide
    · cases hc

theorem jsonDumpObj_ascii {kvs : List (Str × PyVal)}
    (hent : ∀ p ∈ kvs, p.1 ≠ [] ∧ p.1.all safeCh = true ∧
      ((∃ s, p.2 = .str s ∧ s.all safeCh = true) ∨ ∃ n : Nat, p.2 = .int (n : Int))) :
    ∀ c ∈ jsonDumpObj kvs, c.toNat < 128 := by
  intro c hc
  rw [show jsonDumpObj kvs = '\x7b' :: (strJoin [','] (kvs.map
    (fun p => jsonDumpStr p.1 ++ [':'] ++ jsonDumpVal p.2)) ++ ['\x7d']) from rfl] at hc
  rcases List.mem_cons.mp hc with rfl | hc
  · decide
  rcases List.mem_append.mp hc with hc | hc
  · rcases strJoin_mem hc with hm | ⟨x, hx, hcx⟩
    · rcases List.mem_cons.mp hm with rfl | hm
      · decide
      · cases hm
    · rcases List.mem_map.mp hx with ⟨p, hp, rfl⟩
      obtain ⟨_, hk2, hv⟩ := hent p hp
      rcases List.mem_append.mp hcx with hcx | hcx
      · rcases List.mem_append.mp hcx with hcx | hcx
        · exact jsonDumpStr_ascii hk2 c hcx
        · rcases List.mem_cons.mp hcx with rfl | hcx
          · decide
          · cases hcx
      · rcases hv with ⟨s, he, hs⟩ | ⟨n, he⟩
        · rw [he] at hcx
          exact jsonDumpStr_ascii hs c hcx
        · rw [he] at hcx
          rw [show jsonDumpVal (PyVal.int (n : Int)) = intToStr (n : Int) from rfl,
            intToStr_natCast] at hcx
          have := toNat_bounds_of_isDigitCh (natToStr_all_digits n c hcx)
          omega
  · rcases List.mem_cons.mp hc with rfl | hc
    · decide
    · cases hc

/-- The amended claim's conditions on a VMess descriptor: every field the
generator serialises must be present as a safe string (or, for `aid` and
`port`, an integer), because the parser fills missing JSON keys with
non-`None` defaults that would change the fingerprint. -/
structure VmessOk (d : Dict) : Prop where
  proto : pyGetN d (S "protocol") = .str (S "vmess")
  remark : ∃ r, pyGet d (S "remark") (.str []) = .str r ∧ r.all safeCh = true
  addr : ∃ a, pyGetN d (S "address") = .str a ∧ a.all safeCh = true
  portv : ∃ p : Nat, pyGetN d (S "port") = .int (p : Int) ∧ 1 ≤ p ∧ p ≤ 65535
  vid : ∃ u, pyGetN d (S "vmess_id") = .str u ∧ u.all safeCh = true
  aidv : ∃ n : Nat, pyGetN d (S "aid") = .int (n : Int)
  sec : ∃ s, pyGetN d (S "security") = .str s ∧ s.all safeCh = true
  typ : ∃ s, pyGetN d (S "type") = .str s ∧ s.all safeCh = true
  hostv : ∃ s, pyGetN d (S "host") = .str s ∧ s.all safeCh = true
  pathv : ∃ s, pyGetN d (S "path") = .str s ∧ s.all safeCh = true
  tlsv : ∃ s, pyGetN d (S "tls") = .str s ∧ s.all safeCh = true
  sniv : ∃ s, pyGetN d (S "sni") = .str s ∧ s.all safeCh = true

theorem vmess_roundtrip {d : Dict} (h : VmessOk d) :
    ∃ d2, ProxyParser.parse (UriGenerator.generate d) = .ok (some d2) ∧
      SubscriptionService.generateFingerprint d2 = SubscriptionService.generateFingerprint d := by
  obtain ⟨rmk, hrmk, hrmk2⟩ := h.remark
  obtain ⟨a, ha, ha2⟩ := h.addr
  obtain ⟨p, hp, hp1, hp2⟩ := h.portv
  obtain ⟨u, hu, hu2⟩ := h.vid
  obtain ⟨n, hn⟩ := h.aidv
  obtain ⟨sc, hsc, hsc2⟩ := h.sec
  obtain ⟨ty, hty, hty2⟩ := h.typ
  obtain ⟨ho, hho, hho2⟩ := h.hostv
  obtain ⟨pa, hpa, hpa2⟩ := h.pathv
  obtain ⟨tl, htl, htl2⟩ := h.tlsv
  obtain ⟨sn, hsn, hsn2⟩ := h.sniv
  have hnat : (natToStr p).all safeCh = true :=
    List.all_eq_true.mpr (fun c hc => by
      unfold safeCh
      rw [natToStr_all_digits p c hc]
      simp)
  have hentD : ∀ q ∈ ([
        (S "v", PyVal.str (S "2")),
        (S "ps", PyVal.str rmk),
        (S "add", PyVal.str a),
        (S "port", PyVal.str (natToStr p)),
        (S "id", PyVal.str u),
        (S "aid", PyVal.int (n : Int)),
        (S "scy", PyVal.str sc),
        (S "net", PyVal.str ty),
        (S "type", PyVal.str (S "none")),
        (S "host", PyVal.str ho),
        (S "path", PyVal.str pa),
        (S "tls", PyVal.str tl),
        (S "sni", PyVal.str sn)] : List (Str × PyVal)),
      q.1 ≠ [] ∧ q.1.all safeCh = true ∧
        ((∃ s, q.2 = .str s ∧ s.all safeCh = true) ∨ ∃ m : Nat, q.2 = .int (m : Int)) := by
    intro q hq
    rcases List.mem_cons.mp hq with rfl | hq
    · exact ⟨(by decide : S "v" ≠ []), (by decide : (S "v").all safeCh = true), Or.inl ⟨_, rfl, by decide⟩⟩
    rcases List.mem_cons.mp hq with rfl | hq
    · exact ⟨(by decide : S "ps" ≠ []), (by decide : (S "ps").all safeCh = true), Or.inl ⟨_, rfl, hrmk2⟩⟩
    rcases List.mem_cons.mp hq with rfl | hq
    · exact ⟨(by decide : S "add" ≠ []), (by decide : (S "add").all safeCh = true), Or.inl ⟨_, rfl, ha2⟩⟩
    rcases List.mem_cons.mp hq with rfl | hq
    · exact ⟨(by decide : S "port" ≠ []), (by decide : (S "port").all safeCh = true), Or.inl ⟨_, rfl, hnat⟩⟩
    rcases List.mem_cons.mp hq with rfl | hq
    · exact ⟨(by decide : S "id" ≠ []), (by decide : (S "id").all safeCh = true), Or.inl ⟨_, rfl, hu2⟩⟩
    rcases List.mem_cons.mp hq with rfl | hq
    · exact ⟨(by decide : S "aid" ≠ []), (by decide : (S "aid").all safeCh = true), Or.inr ⟨n, rfl⟩⟩
    rcases List.mem_cons.mp hq with rfl | hq
    · exact ⟨(by decide : S "scy" ≠ []), (by decide : (S "scy").all safeCh = true), Or.inl ⟨_, rfl, hsc2⟩⟩
    rcases List.mem_cons.mp hq with rfl | hq
    · exact ⟨(by decide : S "net" ≠ []), (by decide : (S "net").all safeCh = true), Or.inl ⟨_, rfl, hty2⟩⟩
    rcases List.mem_cons.mp hq with rfl | hq
    · exact ⟨(by decide : S "type" ≠ []), (by decide : (S "type").all safeCh = true), Or.inl ⟨_, rfl, by decide⟩⟩
    rcases List.mem_cons.mp hq with rfl | hq
    · exact ⟨(by decide : S "host" ≠ []), (by decide : (S "host").all safeCh = true), Or.inl ⟨_, rfl, hho2⟩⟩
    rcases List.mem_cons.mp hq with rfl | hq
    · exact ⟨(by decide : S "path" ≠ []), (by decide : (S "path").all safeCh = true), Or.inl ⟨_, rfl, hpa2⟩⟩
    rcases List.mem_cons.mp hq with rfl | hq
    · exact ⟨(by decide : S "tls" ≠ []), (by decide : (S "tls").all safeCh = true), Or.inl ⟨_, rfl, htl2⟩⟩
    rcases List.mem_cons.mp hq with rfl | hq
    · exact ⟨(by decide : S "sni" ≠ []), (by decide : (S "sni").all safeCh = true), Or.inl ⟨_, rfl, hsn2⟩⟩
    cases hq
  have hJascii : ∀ c ∈ jsonDumpObj ([
        (S "v", PyVal.str (S "2")),
        (S "ps", PyVal.str rmk),
        (S "add", PyVal.str a),
        (S "port", PyVal.str (natToStr p)),
        (S "id", PyVal.str u),
        (S "aid", PyVal.int (n : Int)),
        (S "scy", PyVal.str sc),
        (S "net", PyVal.str ty),
        (S "type", PyVal.str (S "none")),
        (S "host", PyVal.str ho),
        (S "path", PyVal.str pa),
        (S "tls", PyVal.str tl),
        (S "sni", PyVal.str sn)] : List (Str × PyVal)), c.toNat < 128 :=
    jsonDumpObj_ascii hentD
  have hbytes : ∀ b ∈ utf8Encode (jsonDumpObj ([
        (S "v", PyVal.str (S "2")),
        (S "ps", PyVal.str rmk),
        (S "add", PyVal.str a),
        (S "port", PyVal.str (natToStr p)),
        (S "id", PyVal.str u),
        (S "aid", PyVal.int (n : Int)),
        (S "scy", PyVal.str sc),
        (S "net", PyVal.str ty),
        (S "type", PyVal.str (S "none")),
        (S "host", PyVal.str ho),
        (S "path", PyVal.str pa),
        (S "tls", PyVal.str tl),
        (S "sni", PyVal.str sn)] : List (Str × PyVal))), b < 256 :=
    utf8Encode_ascii_bytes hJascii
  have hBchars := b64Encode_chars (utf8Encode (jsonDumpObj ([
        (S "v", PyVal.str (S "2")),
        (S "ps", PyVal.str rmk),
        (S "add", PyVal.str a),
        (S "port", PyVal.str (natToStr p)),
        (S "id", PyVal.str u),
        (S "aid", PyVal.int (n : Int)),
        (S "scy", PyVal.str sc),
        (S "net", PyVal.str ty),
        (S "type", PyVal.str (S "none")),
        (S "host", PyVal.str ho),
        (S "path", PyVal.str pa),
        (S "tls", PyVal.str tl),
        (S "sni", PyVal.str sn)] : List (Str × PyVal))))
    hbytes
  have hnocolon : ':' ∉ b64Encode (utf8Encode (jsonDumpObj ([
        (S "v", PyVal.str (S "2")),
        (S "ps", PyVal.str rmk),
        (S "add", PyVal.str a),
        (S "port", PyVal.str (natToStr p)),
        (S "id", PyVal.str u),
        (S "aid", PyVal.int (n : Int)),
        (S "scy", PyVal.str sc),
        (S "net", PyVal.str ty),
        (S "type", PyVal.str (S "none")),
        (S "host", PyVal.str ho),
        (S "path", PyVal.str pa),
        (S "tls", PyVal.str tl),
        (S "sni", PyVal.str sn)] : List (Str × PyVal)))) := by
    intro hm
    rcases hBchars ':' hm with he | ⟨v, hv, he⟩
    · cases he
    · exact absurd he.symm (b64Ch_extra v hv).1
  have hnoq : '?' ∉ b64Encode (utf8Encode (jsonDumpObj ([
        (S "v", PyVal.str (S "2")),
        (S "ps", PyVal.str rmk),
        (S "add", PyVal.str a),
        (S "port", PyVal.str (natToStr p)),
        (S "id", PyVal.str u),
        (S "aid", PyVal.int (n : Int)),
        (S "scy", PyVal.str sc),
        (S "net", PyVal.str ty),
        (S "type", PyVal.str (S "none")),
        (S "host", PyVal.str ho),
        (S "path", PyVal.str pa),
        (S "tls", PyVal.str tl),
        (S "sni", PyVal.str sn)] : List (Str × PyVal)))) := by
    intro hm
    rcases hBchars '?' hm with he | ⟨v, hv, he⟩
    · cases he
    · exact absurd he.symm (b64Ch_extra v hv).2.1
  have hnows : ∀ c ∈ b64Encode (utf8Encode (jsonDumpObj ([
        (S "v", PyVal.str (S "2")),
        (S "ps", PyVal.str rmk),
        (S "add", PyVal.str a),
        (S "port", PyVal.str (natToStr p)),
        (S "id", PyVal.str u),
        (S "aid", PyVal.int (n : Int)),
        (S "scy", PyVal.str sc),
        (S "net", PyVal.str ty),
        (S "type", PyVal.str (S "none")),
        (S "host", PyVal.str ho),
        (S "path", PyVal.str pa),
        (S "tls", PyVal.str tl),
        (S "sni", PyVal.str sn)] : List (Str × PyVal)))),
      isPyWs c = false := by
    intro c hc
    rcases hBchars c hc with rfl | ⟨v, hv, rfl⟩
    · decide
    · exact (b64Ch_extra v hv).2.2.1
  have hgen : UriGenerator.generate d =
      S "vmess://" ++ b64Encode (utf8Encode (jsonDumpObj ([
        (S "v", PyVal.str (S "2")),
        (S "ps", PyVal.str rmk),
        (S "add", PyVal.str a),
        (S "port", PyVal.str (natToStr p)),
        (S "id", PyVal.str u),
        (S "aid", PyVal.int (n : Int)),
        (S "scy", PyVal.str sc),
        (S "net", PyVal.str ty),
        (S "type", PyVal.str (S "none")),
        (S "host", PyVal.str ho),
        (S "path", PyVal.str pa),
        (S "tls", PyVal.str tl),
        (S "sni", PyVal.str sn)] : List (Str × PyVal)))) := by
    unfold UriGenerator.generate
    rw [h.proto]
    rw [if_neg (by decide), if_pos rfl]
    unfold UriGenerator.genVmess
    dsimp only
    rw [pyGet_of_pyGetN ha (by simp) _, pyGet_of_pyGetN hp (by simp) _,
      pyGet_of_pyGetN hu (by simp) _, pyGet_of_pyGetN hn (by simp) _,
      pyGet_of_pyGetN hsc (by simp) _, pyGet_of_pyGetN hty (by simp) _,
      pyGet_of_pyGetN hho (by simp) _, pyGet_of_pyGetN hpa (by simp) _,
      pyGet_of_pyGetN htl (by simp) _, pyGet_of_pyGetN hsn (by simp) _, hrmk]
    simp only [pyStrOfVal]
    rw [intToStr_natCast]
    rfl
  rw [hgen]
  have hpre1 : (S "vless://").isPrefixOf
      (S "vmess://" ++ b64Encode (utf8Encode (jsonDumpObj ([
        (S "v", PyVal.str (S "2")),
        (S "ps", PyVal.str rmk),
        (S "add", PyVal.str a),
        (S "port", PyVal.str (natToStr p)),
        (S "id", PyVal.str u),
        (S "aid", PyVal.int (n : Int)),
        (S "scy", PyVal.str sc),
        (S "net", PyVal.str ty),
        (S "type", PyVal.str (S "none")),
        (S "host", PyVal.str ho),
        (S "path", PyVal.str pa),
        (S "tls", PyVal.str tl),
        (S "sni", PyVal.str sn)] : List (Str × PyVal))))) =
      false := rfl
  have hpre2 : (S "vmess://").isPrefixOf
      (S "vmess://" ++ b64Encode (utf8Encode (jsonDumpObj ([
        (S "v", PyVal.str (S "2")),
        (S "ps", PyVal.str rmk),
        (S "add", PyVal.str a),
        (S "port", PyVal.str (natToStr p)),
        (S "id", PyVal.str u),
        (S "aid", PyVal.int (n : Int)),
        (S "scy", PyVal.str sc),
        (S "net", PyVal.str ty),
        (S "type", PyVal.str (S "none")),
        (S "host", PyVal.str ho),
        (S "path", PyVal.str pa),
        (S "tls", PyVal.str tl),
        (S "sni", PyVal.str sn)] : List (Str × PyVal))))) =
      true := isPrefixOf_append_self _ _
  unfold ProxyParser.parse
  rw [hpre1, hpre2]
  simp only [Bool.false_eq_true, if_false, if_true]
  unfold ProxyParser.parseVmessUri
  have hbody : ProxyParser.parseVmessUriBody
      (S "vmess://" ++ b64Encode (utf8Encode (jsonDumpObj ([
        (S "v", PyVal.str (S "2")),
        (S "ps", PyVal.str rmk),
        (S "add", PyVal.str a),
        (S "port", PyVal.str (natToStr p)),
        (S "id", PyVal.str u),
        (S "aid", PyVal.int (n : Int)),
        (S "scy", PyVal.str sc),
        (S "net", PyVal.str ty),
        (S "type", PyVal.str (S "none")),
        (S "host", PyVal.str ho),
        (S "path", PyVal.str pa),
        (S "tls", PyVal.str tl),
        (S "sni", PyVal.str sn)] : List (Str × PyVal))))) =
      .ok (some [
    (S "protocol", PyVal.str (S "vmess")),
    (S "remark", PyVal.str rmk),
    (S "address", PyVal.str a),
    (S "port", PyVal.int (p : Int)),
    (S "vmess_id", PyVal.str u),
    (S "security", PyVal.str sc),
    (S "type", PyVal.str ty),
    (S "host", PyVal.str ho),
    (S "path", PyVal.str pa),
    (S "tls", PyVal.str tl),
    (S "sni", PyVal.str sn),
    (S "aid", PyVal.int (n : Int)),
    (S "raw_uri", PyVal.str (S "vmess://" ++ b64Encode (utf8Encode (jsonDumpObj [
        (S "v", PyVal.str (S "2")),
        (S "ps", PyVal.str rmk),
        (S "add", PyVal.str a),
        (S "port", PyVal.str (natToStr p)),
        (S "id", PyVal.str u),
        (S "aid", PyVal.int (n : Int)),
        (S "scy", PyVal.str sc),
        (S "net", PyVal.str ty),
        (S "type", PyVal.str (S "none")),
        (S "host", PyVal.str ho),
        (S "path", PyVal.str pa),
        (S "tls", PyVal.str tl),
        (S "sni", PyVal.str sn)]))))]) := by
    unfold ProxyParser.parseVmessUriBody
    rw [pyReplace_drops_leading (by decide) (show ':' ∈ S "vmess://" from by decide) hnocolon _]
    dsimp only
    rw [if_neg hnoq]
    rw [pyStrip_id hnows]
    rw [padB64_id (b64Encode_len_mod4 _)]
    rw [show b64Decode (b64Encode (utf8Encode (jsonDumpObj ([
        (S "v", PyVal.str (S "2")),
        (S "ps", PyVal.str rmk),
        (S "add", PyVal.str a),
        (S "port", PyVal.str (natToStr p)),
        (S "id", PyVal.str u),
        (S "aid", PyVal.int (n : Int)),
        (S "scy", PyVal.str sc),
        (S "net", PyVal.str ty),
        (S "type", PyVal.str (S "none")),
        (S "host", PyVal.str ho),
        (S "path", PyVal.str pa),
        (S "tls", PyVal.str tl),
        (S "sni", PyVal.str sn)] : List (Str × PyVal))))) =
      .ok (utf8Encode (jsonDumpObj ([
        (S "v", PyVal.str (S "2")),
        (S "ps", PyVal.str rmk),
        (S "add", PyVal.str a),
        (S "port", PyVal.str (natToStr p)),
        (S "id", PyVal.str u),
        (S "aid", PyVal.int (n : Int)),
        (S "scy", PyVal.str sc),
        (S "net", PyVal.str ty),
        (S "type", PyVal.str (S "none")),
        (S "host", PyVal.str ho),
        (S "path", PyVal.str pa),
        (S "tls", PyVal.str tl),
        (S "sni", PyVal.str sn)] : List (Str × PyVal)))) from by
      unfold b64Decode
      exact a2b64_encode _ hbytes]
    dsimp only
    rw [utf8DecodeIgnore_ascii _ hJascii]
    rw [truncAtLastBrace_dumpObj]
    rw [jsonLoads_dumpObj ([
        (S "v", PyVal.str (S "2")),
        (S "ps", PyVal.str rmk),
        (S "add", PyVal.str a),
        (S "port", PyVal.str (natToStr p)),
        (S "id", PyVal.str u),
        (S "aid", PyVal.int (n : Int)),
        (S "scy", PyVal.str sc),
        (S "net", PyVal.str ty),
        (S "type", PyVal.str (S "none")),
        (S "host", PyVal.str ho),
        (S "path", PyVal.str pa),
        (S "tls", PyVal.str tl),
        (S "sni", PyVal.str sn)] : List (Str × PyVal)) (by simp) hentD
      (by exact (by decide : ([S "v", S "ps", S "add", S "port", S "id", S "aid", S "scy",
        S "net", S "type", S "host", S "path", S "tls", S "sni"] : List Str).Nodup))]
    dsimp only [Except.bind, bind, pure, Except.pure]
    rw [show pyGet ([
        (S "v", PyVal.str (S "2")),
        (S "ps", PyVal.str rmk),
        (S "add", PyVal.str a),
        (S "port", PyVal.str (natToStr p)),
        (S "id", PyVal.str u),
        (S "aid", PyVal.int (n : Int)),
        (S "scy", PyVal.str sc),
        (S "net", PyVal.str ty),
        (S "type", PyVal.str (S "none")),
        (S "host", PyVal.str ho),
        (S "path", PyVal.str pa),
        (S "tls", PyVal.str tl),
        (S "sni", PyVal.str sn)] : List (Str × PyVal)) (S "port") (PyVal.int 0) =
      PyVal.str (natToStr p) from rfl]
    rw [show pyIntOfVal (PyVal.str (natToStr p)) = pyIntOfStr (natToStr p) from rfl,
      pyIntOfStr_natToStr]
    rfl
  refine ⟨[
    (S "protocol", PyVal.str (S "vmess")),
    (S "remark", PyVal.str rmk),
    (S "address", PyVal.str a),
    (S "port", PyVal.int (p : Int)),
    (S "vmess_id", PyVal.str u),
    (S "security", PyVal.str sc),
    (S "type", PyVal.str ty),
    (S "host", PyVal.str ho),
    (S "path", PyVal.str pa),
    (S "tls", PyVal.str tl),
    (S "sni", PyVal.str sn),
    (S "aid", PyVal.int (n : Int)),
    (S "raw_uri", PyVal.str (S "vmess://" ++ b64Encode (utf8Encode (jsonDumpObj [
        (S "v", PyVal.str (S "2")),
        (S "ps", PyVal.str rmk),
        (S "add", PyVal.str a),
        (S "port", PyVal.str (natToStr p)),
        (S "id", PyVal.str u),
        (S "aid", PyVal.int (n : Int)),
        (S "scy", PyVal.str sc),
        (S "net", PyVal.str ty),
        (S "type", PyVal.str (S "none")),
        (S "host", PyVal.str ho),
        (S "path", PyVal.str pa),
        (S "tls", PyVal.str tl),
        (S "sni", PyVal.str sn)]))))], ?_, ?_⟩
  · unfold pyCatch
    rw [hbody]
  · have hfd : SubscriptionService.generateFingerprint d =
        .tup [.str (S "vmess"), pyGetN d (S "address"), pyGetN d (S "port"),
          pyGetN d (S "vmess_id"), pyGetN d (S "type"), pyGetN d (S "security"),
          pyGetN d (S "path"), pyGetN d (S "tls"), pyGetN d (S "aid")] := by
      unfold SubscriptionService.generateFingerprint
      rw [h.proto]
      rw [if_neg (by decide), if_pos rfl]
      rfl
    rw [hfd, ha, hp, hu, hty, hsc, hpa, htl, hn]
    rfl

/-- The descriptor refuting the claim as stated: all fields of the
admission invariant are set, but the password contains `:` and survives
neither percent-encoding (the generator applies none to the userinfo)
nor re-parsing (CPython's `username` accessor stops at the first `:`). -/
def dTrojanCx : Dict :=
  [(S "protocol", .str (S "trojan")), (S "address", .str (S "h")),
   (S "port", .int 443), (S "password", .str (S "a:b"))]

set_option maxRecDepth 8000 in
/-- C1, counterexample: `dTrojanCx` has protocol `trojan` and truthy
address, port and password — the admission invariant of the claim — yet
the descriptor parsed back from its generated URI carries password `a`
instead of `a:b`, so the fingerprints differ. -/
theorem C1_roundtrip_counterexample :
    pyGetN dTrojanCx (S "protocol") = .str (S "trojan") ∧
    pyTruthy (pyGetN dTrojanCx (S "address")) = true ∧
    pyTruthy (pyGetN dTrojanCx (S "port")) = true ∧
    pyTruthy (pyGetN dTrojanCx (S "password")) = true ∧
    ∃ d2, ProxyParser.parse (UriGenerator.generate dTrojanCx) = .ok (some d2) ∧
      SubscriptionService.generateFingerprint d2 ≠
        SubscriptionService.generateFingerprint dTrojanCx := by
  refine ⟨by decide, by decide, by decide, by decide,
    [(S "protocol", .str (S "trojan")), (S "remark", .str []),
     (S "address", .str (S "h")), (S "port", .int 443),
     (S "password", .str (S "a")), (S "sni", .null),
     (S "security", .str (S "tls")), (S "type", .str (S "tcp")),
     (S "flow", .null), (S "path", .null), (S "host", .null),
     (S "raw_uri", .str (S "trojan://a:b@h:443?#"))], by decide, by decide⟩

/-- C1, amended claim: for a descriptor meeting the per-protocol safety
conditions (`TrojanOk`, `VlessOk`, `Hy2Ok`, `SsOk`, `VmessOk`: the
admission invariant strengthened so that string fields hold safe
characters only, fingerprint-relevant fields with non-`None` parser
defaults are set, and Hysteria2's `insecure` flag is unset), parsing the
generated URI succeeds and preserves the fingerprint. -/
theorem C1_generate_parse_preserves_fingerprint {d : Dict}
    (h : TrojanOk d ∨ VlessOk d ∨ Hy2Ok d ∨ SsOk d ∨ VmessOk d) :
    ∃ d2, ProxyParser.parse (UriGenerator.generate d) = .ok (some d2) ∧
      SubscriptionService.generateFingerprint d2 =
        SubscriptionService.generateFingerprint d := by
  rcases h with h | h | h | h | h
  · exact trojan_roundtrip h
  · exact vless_roundtrip h
  · exact hy2_roundtrip h
  · exact ss_roundtrip h
  · exact vmess_roundtrip h

/-- A concrete safe Trojan descriptor for the amended claim's witness. -/
def dWitC1 : Dict :=
  [(S "protocol", .str (S "trojan")), (S "address", .str (S "example.com")),
   (S "port", .int 443), (S "password", .str (S "pw123")),
   (S "security", .str (S "tls")), (S "sni", .str (S "example.com")),
   (S "remark", .str (S "node1"))]

set_option maxRecDepth 8000 in
/-- Witness: the amended claim applies to `dWitC1`. -/
theorem C1_generate_parse_preserves_fingerprint_witness :
    (TrojanOk dWitC1 ∨ VlessOk dWitC1 ∨ Hy2Ok dWitC1 ∨ SsOk dWitC1 ∨ VmessOk dWitC1) ∧
    ∃ d2, ProxyParser.parse (UriGenerator.generate dWitC1) = .ok (some d2) ∧
      SubscriptionService.generateFingerprint d2 =
        SubscriptionService.generateFingerprint dWitC1 := by
  have hadm : TrojanOk dWitC1 ∨ VlessOk dWitC1 ∨ Hy2Ok dWitC1 ∨ SsOk dWitC1 ∨ VmessOk dWitC1 :=
    Or.inl ⟨rfl, ⟨S "example.com", rfl, by decide, by decide⟩,
      ⟨443, rfl, by decide, by decide⟩,
      ⟨S "pw123", rfl, by decide, by decide⟩,
      Or.inr ⟨S "tls", rfl, by decide, by decide⟩,
      Or.inr ⟨S "example.com", rfl, by decide, by decide⟩,
      Or.inl rfl, Or.inl rfl, Or.inl rfl, Or.inl rfl,
      ⟨S "node1", rfl, by decide⟩⟩
  exact ⟨hadm, C1_generate_parse_preserves_fingerprint hadm⟩

/-! Claims about the service layer. -/

set_option maxRecDepth 8000 in
/-- C7: the parser is claimed never to raise, but the VMess branch's
`.get` calls run outside the `except` clause's exception set: a valid
base64 payload holding a JSON scalar (here `vmess://NQ==`, decoding to
`5`) raises `AttributeError` out of `ProxyParser.parse`.  The unknown
and `ssr://` scheme paths do return `None` as described. -/
theorem C7_parse_raises_attribute_error :
    ProxyParser.parse (S "vmess://NQ==") = .error .attributeError ∧
    ProxyParser.parse (S "ssr://abc") = .ok none ∧
    ProxyParser.parse (S "foo://abc") = .ok none := by
  refine ⟨by decide, by decide, by decide⟩

theorem evalSiteFsOpsAux_clean (envs : Nat → BatchEnv) :
    ∀ (n i : Nat) (fs : List Nat),
      runFsOps (XrayService.evalSiteFsOpsAux envs i n) fs = fs := by
  intro n
  induction n with
  | zero => intro i fs; rfl
  | succ m ih =>
      intro i fs
      unfold XrayService.evalSiteFsOpsAux
      cases henv : envs i with
      | raised e =>
          simp only [henv]
          unfold runFsOps
          rw [show ([FsOp.createTmp i, FsOp.removeTmpIfExists i] ++ [] : List FsOp) =
            [FsOp.createTmp i, FsOp.removeTmpIfExists i] from by simp]
          rw [show List.foldl applyFsOp fs [FsOp.createTmp i, FsOp.removeTmpIfExists i] =
            (i :: fs).erase i from rfl]
          exact List.erase_cons_head i fs
      | engineMissing =>
          simp only [henv]
          rw [show ([FsOp.createTmp i, FsOp.removeTmpIfExists i] ++
            XrayService.evalSiteFsOpsAux envs (i + 1) m : List FsOp) =
            FsOp.createTmp i :: FsOp.removeTmpIfExists i ::
              XrayService.evalSiteFsOpsAux envs (i + 1) m from rfl]
          unfold runFsOps
          rw [show List.foldl applyFsOp fs (FsOp.createTmp i :: FsOp.removeTmpIfExists i ::
            XrayService.evalSiteFsOpsAux envs (i + 1) m) =
            List.foldl applyFsOp ((i :: fs).erase i)
              (XrayService.evalSiteFsOpsAux envs (i + 1) m) from rfl]
          rw [List.erase_cons_head i fs]
          exact ih (i + 1) fs
      | engineExitedEarly =>
          simp only [henv]
          rw [show ([FsOp.createTmp i, FsOp.removeTmpIfExists i] ++
            XrayService.evalSiteFsOpsAux envs (i + 1) m : List FsOp) =
            FsOp.createTmp i :: FsOp.removeTmpIfExists i ::
              XrayService.evalSiteFsOpsAux envs (i + 1) m from rfl]
          unfold runFsOps
          rw [show List.foldl applyFsOp fs (FsOp.createTmp i :: FsOp.removeTmpIfExists i ::
            XrayService.evalSiteFsOpsAux envs (i + 1) m) =
            List.foldl applyFsOp ((i :: fs).erase i)
              (XrayService.evalSiteFsOpsAux envs (i + 1) m) from rfl]
          rw [List.erase_cons_head i fs]
          exact ih (i + 1) fs
      | running probes =>
          simp only [henv]
          rw [show ([FsOp.createTmp i, FsOp.removeTmpIfExists i] ++
            XrayService.evalSiteFsOpsAux envs (i + 1) m : List FsOp) =
            FsOp.createTmp i :: FsOp.removeTmpIfExists i ::
              XrayService.evalSiteFsOpsAux envs (i + 1) m from rfl]
          unfold runFsOps
          rw [show List.foldl applyFsOp fs (FsOp.createTmp i :: FsOp.removeTmpIfExists i ::
            XrayService.evalSiteFsOpsAux envs (i + 1) m) =
            List.foldl applyFsOp ((i :: fs).erase i)
              (XrayService.evalSiteFsOpsAux envs (i + 1) m) from rfl]
          rw [List.erase_cons_head i fs]
          exact ih (i + 1) fs

/-- C9: on every exit path of a probe batch and of every batch of a site
evaluation, the per-batch temporary config file has been removed by the
`finally` clause when the batch exits: the net effect of each trace on
the set of live temp files is the identity. -/
theorem C9_tmp_config_files_removed (env : BatchEnv) (servers : List Dict) (id : Nat)
    (fs : List Nat) (cfg : Settings) (envs : Nat → BatchEnv) (sts : List Dict) :
    runFsOps (XrayService.runTestBatchFsOps env servers id) fs = fs ∧
    runFsOps (XrayService.evaluateSiteFsOps cfg envs sts) fs = fs := by
  constructor
  · unfold XrayService.runTestBatchFsOps
    by_cases he : servers.isEmpty
    · rw [if_pos he]
      rfl
    · rw [if_neg he]
      cases env <;>
        · unfold runFsOps
          simp only [List.append_nil, List.nil_append, List.cons_append]
          rw [show List.foldl applyFsOp fs [FsOp.createTmp id, FsOp.removeTmpIfExists id] =
            (id :: fs).erase id from rfl]
          exact List.erase_cons_head id fs
  · exact evalSiteFsOpsAux_clean envs _ 0 fs

/-- C6: when the engine binary is missing or the engine process has
exited by the end of the readiness wait, `run_test_batch` returns
normally with `(descriptor, +∞)` for every member of the batch. -/
theorem C6_engine_failure_yields_inf_batch (env : BatchEnv) (servers : List Dict)
    (h : env = .engineExitedEarly ∨ env = .engineMissing) :
    XrayService.runTestBatchCall env servers =
      .ok (servers.map (fun s => (s, (⊤ : Delay)))) := by
  rcases h with rfl | rfl <;>
    · unfold XrayService.runTestBatchCall XrayService.runTestBatchTry
      by_cases he : servers.isEmpty
      · rw [if_pos he]
        rw [List.isEmpty_iff.mp he]
        rfl
      · rw [if_neg he]

/-- Witness: C6 applied to a concrete one-element batch with an engine
that exited early. -/
theorem C6_engine_failure_yields_inf_batch_witness :
    (BatchEnv.engineExitedEarly = BatchEnv.engineExitedEarly ∨
      BatchEnv.engineExitedEarly = BatchEnv.engineMissing) ∧
    XrayService.runTestBatchCall BatchEnv.engineExitedEarly [[(S "address", .str (S "h"))]] =
      .ok ([[(S "address", .str (S "h"))]].map (fun s => (s, (⊤ : Delay)))) :=
  ⟨Or.inl rfl, C6_engine_failure_yields_inf_batch BatchEnv.engineExitedEarly
    [[(S "address", .str (S "h"))]] (Or.inl rfl)⟩

/-- C10: when the evaluator raises, `update_cache` catches the exception
and leaves the whole cache state exactly as it was before the tick. -/
theorem C10_failed_refresh_keeps_caches (cfg : Settings) (env : TickEnv) (st : CacheState)
    (e : PyExc) (herr : SubscriptionService.computeTopServers cfg env = .error e) :
    SubscriptionService.updateCache cfg env st = st := by
  unfold SubscriptionService.updateCache
  by_cases hl : st.processingLocked
  · rw [if_pos hl]
  · rw [if_neg hl, herr]

/-- A minimal settings record for the concrete-instance witnesses
(the repository defaults of `src/core/config.py`). -/
def cfg0 : Settings := ⟨500, 8000, false, 30, 1800, []⟩

/-- A tick whose concurrent feed fetch raised. -/
def envErr : TickEnv :=
  ⟨.error .valueError, fun _ => .engineMissing, fun _ => ([], []), true, 0, fun _ => .ok []⟩

/-- Witness: C10 applied to a concrete failed tick over an empty cache
state. -/
theorem C10_failed_refresh_keeps_caches_witness :
    SubscriptionService.computeTopServers cfg0 envErr = .error .valueError ∧
    SubscriptionService.updateCache cfg0 envErr ⟨none, none, [], none, false⟩ =
      ⟨none, none, [], none, false⟩ :=
  ⟨rfl, C10_failed_refresh_keeps_caches cfg0 envErr ⟨none, none, [], none, false⟩
    .valueError rfl⟩

set_option maxRecDepth 8000 in
/-- C4: the config builder's `server.get("sni", server.get("host",
server["address"]))` falls back only on *absent* keys, but the parser
stores `None` under `sni` and `host` when those query parameters are
missing; for such a descriptor `tlsSettings.serverName` (and the VLESS
`fingerprint`) is `None`, while the claimed sni-else-host-else-address
cascade (`specServerName`) gives the address and the claimed fallback
(`specFp`) gives `"chrome"`. -/
theorem C4_serverName_fingerprint_stored_none :
    ∃ d2, ProxyParser.parse (S "vless://abc@h:443?security=tls&type=tcp#r") = .ok (some d2) ∧
      (XrayService.vlessStreamSettings d2).tlsSettings =
        some ⟨.null, some .null, none, none⟩ ∧
      specServerName d2 = .str (S "h") ∧
      specFp d2 = .str (S "chrome") ∧
      (XrayService.vlessStreamSettings d2).tlsSettings ≠
        some ⟨specServerName d2, some (specFp d2), none, none⟩ := by
  refine ⟨[
    (S "protocol", .str (S "vless")),
    (S "remark", .str (S "r")),
    (S "address", .str (S "h")),
    (S "port", .int 443),
    (S "vless_id", .str (S "abc")),
    (S "encryption", .str (S "none")),
    (S "security", .str (S "tls")),
    (S "type", .str (S "tcp")),
    (S "host", .null),
    (S "path", .null),
    (S "sni", .null),
    (S "flow", .null),
    (S "fp", .null),
    (S "pbk", .null),
    (S "sid", .null),
    (S "raw_uri", .str (S "vless://abc@h:443?security=tls&type=tcp#r"))],
    by decide, by decide, by decide, by decide, by decide⟩

theorem dedupAux_fps : ∀ (l : List Dict) (seen : List Fingerprint),
    ((dedupAux l seen).map SubscriptionService.generateFingerprint).Nodup ∧
    ∀ f ∈ (dedupAux l seen).map SubscriptionService.generateFingerprint, f ∉ seen := by
  intro l
  induction l with
  | nil => intro seen; exact ⟨List.nodup_nil, fun f hf => absurd hf (List.not_mem_nil f)⟩
  | cons s rest ih =>
      intro seen
      unfold dedupAux
      by_cases hm : SubscriptionService.generateFingerprint s ∈ seen
      · rw [if_pos hm]
        exact ih seen
      · rw [if_neg hm]
        obtain ⟨ihnd, ihseen⟩ := ih (SubscriptionService.generateFingerprint s :: seen)
        refine ⟨List.nodup_cons.mpr ⟨?_, ihnd⟩, ?_⟩
        · intro hmem
          exact (ihseen _ hmem) (List.mem_cons_self _ _)
        · intro f hf
          rcases List.mem_cons.mp hf with rfl | hf
          · exact hm
          · intro hfs
            exact (ihseen f hf) (List.mem_cons_of_mem _ hfs)

theorem dedupAux_complete : ∀ (l : List Dict) (seen : List Fingerprint) (s : Dict),
    s ∈ l → SubscriptionService.generateFingerprint s ∉ seen →
    ∃ s2 ∈ dedupAux l seen,
      SubscriptionService.generateFingerprint s2 = SubscriptionService.generateFingerprint s := by
  intro l
  induction l with
  | nil => intro seen s hs _; cases hs
  | cons x rest ih =>
      intro seen s hs hns
      unfold dedupAux
      by_cases hm : SubscriptionService.generateFingerprint x ∈ seen
      · rw [if_pos hm]
        rcases List.mem_cons.mp hs with rfl | hs
        · exact absurd hm hns
        · exact ih seen s hs hns
      · rw [if_neg hm]
        by_cases hfeq : SubscriptionService.generateFingerprint s =
            SubscriptionService.generateFingerprint x
        · exact ⟨x, List.mem_cons_self _ _, hfeq.symm⟩
        · rcases List.mem_cons.mp hs with rfl | hs
          · exact absurd rfl hfeq
          · obtain ⟨s2, hs2, he⟩ := ih (SubscriptionService.generateFingerprint x :: seen) s hs
              (by
                intro hmem
                rcases List.mem_cons.mp hmem with he2 | hmem
                · exact hfeq he2
                · exact hns hmem)
            exact ⟨s2, List.mem_cons_of_mem _ hs2, he⟩

theorem dedupAux_first : ∀ (l : List Dict) (seen : List Fingerprint) (s2 : Dict),
    s2 ∈ dedupAux l seen →
    ∃ pre post, l = pre ++ s2 :: post ∧
      ∀ x ∈ pre, SubscriptionService.generateFingerprint x ≠
        SubscriptionService.generateFingerprint s2 := by
  intro l
  induction l with
  | nil => intro seen s2 hs; cases hs
  | cons x rest ih =>
      intro seen s2 hs
      have hnotseen : SubscriptionService.generateFingerprint s2 ∉ seen :=
        (dedupAux_fps (x :: rest) seen).2 _ (List.mem_map_of_mem _ hs)
      unfold dedupAux at hs
      by_cases hm : SubscriptionService.generateFingerprint x ∈ seen
      · rw [if_pos hm] at hs
        obtain ⟨pre, post, hl, hpre⟩ := ih seen s2 hs
        refine ⟨x :: pre, post, by rw [hl]; rfl, ?_⟩
        intro z hz
        rcases List.mem_cons.mp hz with rfl | hz
        · intro he
          exact hnotseen (he ▸ hm)
        · exact hpre z hz
      · rw [if_neg hm] at hs
        rcases List.mem_cons.mp hs with rfl | hs
        · exact ⟨[], rest, rfl, fun z hz => absurd hz (List.not_mem_nil z)⟩
        · have hnots2 : SubscriptionService.generateFingerprint s2 ∉
              SubscriptionService.generateFingerprint x :: seen :=
            (dedupAux_fps rest _).2 _ (List.mem_map_of_mem _ hs)
          obtain ⟨pre, post, hl, hpre⟩ := ih _ s2 hs
          refine ⟨x :: pre, post, by rw [hl]; rfl, ?_⟩
          intro z hz
          rcases List.mem_cons.mp hz with rfl | hz
          · intro he
            exact hnots2 (he ▸ List.mem_cons_self _ _)
          · exact hpre z hz

/-- C3: the deduplication step of `fetch_subscription_servers`, applied
to the concatenation of the per-feed batches, keeps exactly one
descriptor per distinct fingerprint — no two survivors share a
fingerprint and every input fingerprint is represented — and each
survivor is the first occurrence of its fingerprint in feed order. -/
theorem C3_dedup_keeps_first_occurrence (batches : List (List Dict)) :
    ((SubscriptionService.dedupServers batches.flatten).map
      SubscriptionService.generateFingerprint).Nodup ∧
    (∀ s ∈ batches.flatten, ∃ s2 ∈ SubscriptionService.dedupServers batches.flatten,
      SubscriptionService.generateFingerprint s2 = SubscriptionService.generateFingerprint s) ∧
    (∀ s2 ∈ SubscriptionService.dedupServers batches.flatten,
      ∃ pre post, batches.flatten = pre ++ s2 :: post ∧
        ∀ x ∈ pre, SubscriptionService.generateFingerprint x ≠
          SubscriptionService.generateFingerprint s2) := by
  refine ⟨(dedupAux_fps batches.flatten []).1, ?_, ?_⟩
  · intro s hs
    exact dedupAux_complete batches.flatten [] s hs (List.not_mem_nil _)
  · intro s2 hs2
    exact dedupAux_first batches.flatten [] s2 hs2

theorem siteFreshHit_some {cfg : Settings} {now : ℚ} {url : Str} {st : CacheState}
    {ct : ℚ} {cs : List Dict} (hfind : assocFind url st.siteCache = some (ct, cs))
    (hlt : now - ct < cfg.SITE_CACHE_TTL_SECONDS) :
    SubscriptionService.siteFreshHit cfg now url st = some cs := by
  unfold SubscriptionService.siteFreshHit
  rw [hfind]
  show (if now - ct < cfg.SITE_CACHE_TTL_SECONDS then some cs else none) = some cs
  rw [if_pos hlt]

/-- C5, counterexample to the claim as stated: with a never-populated
working set *and* the processing lock held, the claim's "working set
empty ⇒ not-ready" clause promises the not-ready signal, but the
endpoint derives the `None` it receives from the lock state and answers
busy (HTTP 429), not not-ready (HTTP 503). -/
theorem C5_site_request_counterexample :
    (⟨none, none, [], none, true⟩ : CacheState).cachedAll = none ∧
    (⟨none, none, [], none, true⟩ : CacheState).siteCache = [] ∧
    MainApp.getSiteSpecificSubscription cfg0 (fun l => l) 0 (S "u")
      (⟨none, none, [], none, true⟩ : CacheState) =
      (.busy429, (⟨none, none, [], none, true⟩ : CacheState)) ∧
    SiteResp.busy429 ≠ SiteResp.notReady503 := by
  refine ⟨rfl, rfl, rfl, by decide⟩

/-- C5, amended claim: a fresh site-cache entry is served as is (empty
lists as the distinct 404 answer); with no fresh entry, the not-ready
signal is produced when the working set is unpopulated or empty *and*
the lock is free, while a held lock always produces the busy signal —
even when the working set is unpopulated, a case the original claim
assigned to not-ready; the busy and not-ready signals are distinct from
each other, from every non-empty list answer and from the empty-list
answer. -/
theorem C5_site_request_signals (cfg : Settings) (siteEval : List Dict → List Dict)
    (now : ℚ) (url : Str) (st : CacheState) :
    (∀ ct cs, assocFind url st.siteCache = some (ct, cs) →
      now - ct < cfg.SITE_CACHE_TTL_SECONDS →
      MainApp.getSiteSpecificSubscription cfg siteEval now url st =
        ((if cs.isEmpty then SiteResp.notFound404 else SiteResp.okList cs), st)) ∧
    (SubscriptionService.siteFreshHit cfg now url st = none →
      (st.cachedAll = none ∨ st.cachedAll = some []) → st.processingLocked = false →
      MainApp.getSiteSpecificSubscription cfg siteEval now url st = (.notReady503, st)) ∧
    (SubscriptionService.siteFreshHit cfg now url st = none →
      st.processingLocked = true →
      MainApp.getSiteSpecificSubscription cfg siteEval now url st = (.busy429, st)) ∧
    (SiteResp.busy429 ≠ SiteResp.notReady503 ∧ SiteResp.busy429 ≠ SiteResp.notFound404 ∧
      SiteResp.notReady503 ≠ SiteResp.notFound404 ∧
      ∀ l, SiteResp.busy429 ≠ SiteResp.okList l ∧ SiteResp.notReady503 ≠ SiteResp.okList l) := by
  refine ⟨?_, ?_, ?_, by decide, by decide, by decide, fun l => ⟨by simp, by simp⟩⟩
  · intro ct cs hfind hlt
    unfold MainApp.getSiteSpecificSubscription SubscriptionService.getSiteSpecificServers
    rw [siteFreshHit_some hfind hlt]
    show (if cs.isEmpty = true then (SiteResp.notFound404, st) else (SiteResp.okList cs, st)) =
      ((if cs.isEmpty = true then SiteResp.notFound404 else SiteResp.okList cs), st)
    by_cases he : cs.isEmpty = true
    · rw [if_pos he, if_pos he]
    · rw [if_neg he, if_neg he]
  · intro hmiss hempty hnl
    have hsvc : SubscriptionService.getSiteSpecificServers cfg siteEval now url st =
        (none, st) := by
      unfold SubscriptionService.getSiteSpecificServers
      rw [hmiss]
      rcases hempty with hca | hca <;> rw [hca]
      rfl
    unfold MainApp.getSiteSpecificSubscription
    rw [hsvc]
    show (if st.processingLocked = true then (SiteResp.busy429, st)
      else (SiteResp.notReady503, st)) = (SiteResp.notReady503, st)
    rw [hnl]
    rfl
  · intro hmiss hlock
    have hsvc : SubscriptionService.getSiteSpecificServers cfg siteEval now url st =
        (none, st) := by
      unfold SubscriptionService.getSiteSpecificServers
      rw [hmiss]
      cases hca : st.cachedAll with
      | none => rfl
      | some l =>
          show (if l.isEmpty = true then ((none : Option (List Dict)), st)
            else if st.processingLocked = true then (none, st)
            else (some (siteEval l),
              (⟨some l, st.cachedTop25,
                SubscriptionService.postPhase.qsUpdate st.siteCache url (now, siteEval l),
                st.kv, st.processingLocked⟩ : CacheState))) =
            (none, st)
          by_cases he : l.isEmpty = true
          · rw [if_pos he]
          · rw [if_neg he, if_pos hlock]
    unfold MainApp.getSiteSpecificSubscription
    rw [hsvc]
    show (if st.processingLocked = true then (SiteResp.busy429, st)
      else (SiteResp.notReady503, st)) = (SiteResp.busy429, st)
    rw [hlock]
    rfl

/-- Witness: the amended C5 applied to concrete states — a held lock
over an unpopulated working set answers busy, a free lock over an empty
working set answers not-ready. -/
theorem C5_site_request_signals_witness :
    MainApp.getSiteSpecificSubscription cfg0 (fun l => l) 0 (S "u")
      (⟨none, none, [], none, true⟩ : CacheState) =
      (.busy429, (⟨none, none, [], none, true⟩ : CacheState)) ∧
    MainApp.getSiteSpecificSubscription cfg0 (fun l => l) 0 (S "u")
      (⟨some [], none, [], none, false⟩ : CacheState) =
      (.notReady503, (⟨some [], none, [], none, false⟩ : CacheState)) :=
  ⟨(C5_site_request_signals cfg0 (fun l => l) 0 (S "u")
      ⟨none, none, [], none, true⟩).2.2.1 rfl rfl,
   (C5_site_request_signals cfg0 (fun l => l) 0 (S "u")
      ⟨some [], none, [], none, false⟩).2.1 rfl (Or.inr rfl) rfl⟩

/-- C8: the live request never writes any cache state, and on a
successful non-empty evaluation it answers with the first 25 entries of
the freshly computed working set. -/
theorem C8_live_request_reads_only (cfg : Settings) (env : TickEnv) (st : CacheState) :
    (MainApp.getServersLive cfg env st).2 = st ∧
    (∀ top, st.processingLocked = false →
      SubscriptionService.computeTopServers cfg env = .ok top → top.isEmpty = false →
      (MainApp.getServersLive cfg env st).1 = .okCount (top.take 25)) := by
  constructor
  · unfold MainApp.getServersLive
    by_cases hl : st.processingLocked
    · rw [if_pos hl]
    · rw [if_neg hl]
      cases hc : SubscriptionService.computeTopServers cfg env with
      | error e => rfl
      | ok top =>
          show ((if top.isEmpty = true then ((LiveResp.unavailable503, st) :
            LiveResp × CacheState) else (LiveResp.okCount (top.take 25), st))).2 = st
          by_cases he : top.isEmpty = true
          · rw [if_pos he]
          · rw [if_neg he]
  · intro top hl hc he
    unfold MainApp.getServersLive
    rw [if_neg (by rw [hl]; exact fun h => nomatch h), hc]
    show ((if top.isEmpty = true then ((LiveResp.unavailable503, st) :
      LiveResp × CacheState) else (LiveResp.okCount (top.take 25), st))).1 =
      LiveResp.okCount (top.take 25)
    rw [if_neg (by rw [he]; exact fun h => nomatch h)]

/-- A tick with a single safe Trojan descriptor in one feed and an
engine whose probes all measure 50 ms. -/
def envLive : TickEnv :=
  ⟨.ok [[dWitC1]], fun _ => .running (fun _ => ((50 : ℚ) : Delay)),
   fun _ => (S "US", S "F"), true, 0, fun _ => .ok []⟩

set_option maxRecDepth 8000 in
/-- Witness: C8 applied to a concrete unlocked state and the concrete
50 ms tick. -/
theorem C8_live_request_reads_only_witness :
    (⟨none, none, [], none, false⟩ : CacheState).processingLocked = false ∧
    SubscriptionService.computeTopServers cfg0 envLive =
      .ok ((SubscriptionService.computeTopServers cfg0 envLive).toOption.getD []) ∧
    ((SubscriptionService.computeTopServers cfg0 envLive).toOption.getD []).isEmpty = false ∧
    (MainApp.getServersLive cfg0 envLive ⟨none, none, [], none, false⟩).1 =
      .okCount (((SubscriptionService.computeTopServers cfg0 envLive).toOption.getD []).take 25) :=
  ⟨rfl, rfl, rfl,
   (C8_live_request_reads_only cfg0 envLive ⟨none, none, [], none, false⟩).2
     ((SubscriptionService.computeTopServers cfg0 envLive).toOption.getD []) rfl rfl rfl⟩

/-! Helper facts for the refresh-tick invariants. -/

theorem pyround_le_int (q : ℚ) (m : Int) (h : q ≤ (m : ℚ)) : pyround q ≤ m := by
  have hden : 0 < (q.den : Int) := by exact_mod_cast q.pos
  have hnum : q.num ≤ m * q.den := by
    have h2 : (q.num : ℚ) ≤ (m : ℚ) * (q.den : ℚ) := by
      rw [← Rat.num_div_den q, div_le_iff₀] at h
      · exact_mod_cast h
      · positivity
    exact_mod_cast h2
  have hdm := Int.ediv_add_emod q.num (q.den : Int)
  have hr0 : 0 ≤ q.num % (q.den : Int) := Int.emod_nonneg _ (by omega)
  have hcomm : (q.num / (q.den : Int)) * (q.den : Int) =
      (q.den : Int) * (q.num / (q.den : Int)) := mul_comm _ _
  have hfl : q.num / (q.den : Int) ≤ m := by
    have h1 : (q.den : Int) * (q.num / (q.den : Int)) ≤ (q.den : Int) * m := by
      have : m * q.den = (q.den : Int) * m := mul_comm _ _
      linarith
    exact le_of_mul_le_mul_left h1 hden
  have hr : q.num - q.num / (q.den : Int) * (q.den : Int) = q.num % (q.den : Int) := by
    linarith
  have hkey : ¬(2 * (q.num - q.num / (q.den : Int) * (q.den : Int)) < (q.den : Int)) →
      q.num / (q.den : Int) + 1 ≤ m := by
    intro h2
    rcases lt_or_eq_of_le hfl with hlt | heq
    · omega
    · exfalso
      have hmd : m * q.den = (q.den : Int) * m := mul_comm _ _
      rw [heq] at hdm
      have : q.num % (q.den : Int) ≤ 0 := by linarith
      rw [hr] at h2
      omega
  unfold pyround
  dsimp only
  split_ifs with h1 h2 h3
  · exact hfl
  · exact hkey (by omega) 
  · exact hfl
  · exact hkey (by omega)

theorem pyGetN_dictSet_same : ∀ (d : Dict) (k : Str) (v : PyVal),
    pyGetN (dictSet d k v) k = v := by
  intro d k v
  induction d with
  | nil => simp [dictSet, pyGetN, pyGet, assocFind]
  | cons p t ih =>
      rcases p with ⟨k2, w⟩
      unfold dictSet
      by_cases he : k2 = k
      · rw [if_pos he]
        simp [pyGetN, pyGet, assocFind, he]
      · rw [if_neg he]
        unfold pyGetN pyGet assocFind
        rw [if_neg he]
        exact ih

theorem pyGetN_dictSet_other {k2 k : Str} (hne : k2 ≠ k) : ∀ (d : Dict) (v : PyVal),
    pyGetN (dictSet d k2 v) k = pyGetN d k := by
  intro d v
  induction d with
  | nil =>
      unfold dictSet pyGetN pyGet assocFind
      rw [if_neg hne]
      rfl
  | cons p t ih =>
      rcases p with ⟨k3, w⟩
      unfold dictSet
      by_cases he : k3 = k2
      · rw [if_pos he]
        unfold pyGetN pyGet assocFind
        subst he
        rw [if_neg hne, if_neg hne]
      · rw [if_neg he]
        unfold pyGetN pyGet assocFind
        by_cases he2 : k3 = k
        · rw [if_pos he2, if_pos he2]
        · rw [if_neg he2, if_neg he2]
          exact ih

theorem enrich_delay_field (geo : PyVal → Str × Str) (r : Dict × Delay) :
    pyGetN (SubscriptionService.enrich geo r) (S "delay") = .int (pyroundD r.2) := by
  unfold SubscriptionService.enrich
  dsimp only
  rw [pyGetN_dictSet_other (by decide), pyGetN_dictSet_other (by decide),
    pyGetN_dictSet_other (by decide), pyGetN_dictSet_other (by decide),
    pyGetN_dictSet_same]

theorem pyInsert_mem {lt : α → α → Bool} {x y : α} : ∀ {l : List α},
    y ∈ pyInsert lt x l ↔ y = x ∨ y ∈ l := by
  intro l
  induction l with
  | nil => simp [pyInsert]
  | cons z t ih =>
      unfold pyInsert
      by_cases hc : lt x z = true
      · rw [if_pos (by simp [hc])]
        simp [or_comm, or_assoc, or_left_comm]
      · rw [if_neg (by simp [hc])]
        simp only [List.mem_cons, ih]
        tauto

theorem pyInsert_pairwise {lt : α → α → Bool} {le : α → α → Prop}
    (hlt : ∀ a b, lt a b = true → le a b)
    (hnlt : ∀ a b, lt a b = false → le b a)
    (htrans : ∀ a b c, le a b → le b c → le a c) (x : α) :
    ∀ {l : List α}, l.Pairwise le → (pyInsert lt x l).Pairwise le := by
  intro l
  induction l with
  | nil => intro _; simp [pyInsert]
  | cons y ys ih =>
      intro hl
      rw [List.pairwise_cons] at hl
      unfold pyInsert
      by_cases hc : lt x y = true
      · rw [if_pos hc]
        refine List.pairwise_cons.mpr ⟨?_, List.pairwise_cons.mpr hl⟩
        intro z hz
        rcases List.mem_cons.mp hz with rfl | hz
        · exact hlt _ _ hc
        · exact htrans x y z (hlt _ _ hc) (hl.1 z hz)
      · rw [if_neg hc]
        refine List.pairwise_cons.mpr ⟨?_, ih hl.2⟩
        intro z hz
        rcases pyInsert_mem.mp hz with rfl | hz
        · exact hnlt _ _ (by simpa using hc)
        · exact hl.1 z hz

theorem pySorted_pairwise {lt : α → α → Bool} {le : α → α → Prop}
    (hlt : ∀ a b, lt a b = true → le a b)
    (hnlt : ∀ a b, lt a b = false → le b a)
    (htrans : ∀ a b c, le a b → le b c → le a c) (l : List α) :
    (pySorted lt l).Pairwise le := by
  unfold pySorted
  have hgen : ∀ (t : List α) (acc : List α), acc.Pairwise le →
      (t.foldl (fun acc x => pyInsert lt x acc) acc).Pairwise le := by
    intro t
    induction t with
    | nil => intro acc h; exact h
    | cons x ts ih =>
        intro acc h
        rw [List.foldl_cons]
        exact ih _ (pyInsert_pairwise hlt hnlt htrans x h)
  exact hgen l [] List.Pairwise.nil

theorem pySorted_mem {lt : α → α → Bool} {y : α} : ∀ {l : List α},
    y ∈ pySorted lt l → y ∈ l := by
  have hgen : ∀ (t acc : List α), y ∈ t.foldl (fun acc x => pyInsert lt x acc) acc →
      y ∈ acc ∨ y ∈ t := by
    intro t
    induction t with
    | nil => intro acc h; exact Or.inl h
    | cons x ts ih =>
        intro acc h
        rw [List.foldl_cons] at h
        rcases ih _ h with h2 | h2
        · rcases pyInsert_mem.mp h2 with rfl | h2
          · exact Or.inr (List.mem_cons_self _ _)
          · exact Or.inl h2
        · exact Or.inr (List.mem_cons_of_mem _ h2)
  intro l h
  rcases hgen l [] h with h2 | h2
  · cases h2
  · exact h2

theorem foldl_precheck_frame (g : Str → Except PyExc (List Dict)) (now : ℚ) :
    ∀ (l : List Str) (acc : CacheState),
      ((List.foldl (fun acc site => match g site with
        | .error _ => acc
        | .ok valid => { acc with siteCache :=
            SubscriptionService.postPhase.qsUpdate acc.siteCache site (now, valid) }) acc
        l)).cachedAll = acc.cachedAll ∧
      ((List.foldl (fun acc site => match g site with
        | .error _ => acc
        | .ok valid => { acc with siteCache :=
            SubscriptionService.postPhase.qsUpdate acc.siteCache site (now, valid) }) acc
        l)).cachedTop25 = acc.cachedTop25 := by
  intro l
  induction l with
  | nil => intro acc; exact ⟨rfl, rfl⟩
  | cons s t ih =>
      intro acc
      rw [List.foldl_cons]
      cases hg : g s with
      | error e =>
          simp only [hg]
          exact ih acc
      | ok valid =>
          simp only [hg]
          obtain ⟨h1, h2⟩ := ih { acc with siteCache :=
            SubscriptionService.postPhase.qsUpdate acc.siteCache s (now, valid) }
          exact ⟨h1, h2⟩

theorem postPhase_frame (cfg : Settings) (env : TickEnv) (top : List Dict) (st : CacheState) :
    (SubscriptionService.postPhase cfg env top st).cachedAll = st.cachedAll ∧
    (SubscriptionService.postPhase cfg env top st).cachedTop25 = st.cachedTop25 := by
  unfold SubscriptionService.postPhase
  dsimp only
  by_cases hc : (cfg.PRECHECK_SITES ≠ [] && !top.isEmpty) = true
  · rw [if_pos hc]
    obtain ⟨h1, h2⟩ := foldl_precheck_frame env.siteCheck env.now cfg.PRECHECK_SITES
      (if env.redisUp then { st with kv := some top } else st)
    rw [h1, h2]
    by_cases hr : env.redisUp
    · rw [if_pos hr]
      exact ⟨rfl, rfl⟩
    · rw [if_neg hr]
      exact ⟨rfl, rfl⟩
  · rw [if_neg hc]
    by_cases hr : env.redisUp
    · rw [if_pos hr]
      exact ⟨rfl, rfl⟩
    · rw [if_neg hr]
      exact ⟨rfl, rfl⟩

/-- C2: after a successful refresh tick, the cached working set is the
freshly computed top list, the cached top-25 is its first 25 entries,
and the top list is the enrichment, in ascending measured-delay order,
of probe results whose delays all lie within `MAX_DELAY_MS` — and each
enriched entry stores the rounded delay, itself at most
`MAX_DELAY_MS`. -/
theorem C2_refresh_tick_invariants (cfg : Settings) (env : TickEnv) (st : CacheState)
    (top : List Dict) (hl : st.processingLocked = false)
    (hok : SubscriptionService.computeTopServers cfg env = .ok top) :
    (SubscriptionService.updateCache cfg env st).cachedAll = some top ∧
    (SubscriptionService.updateCache cfg env st).cachedTop25 = some (top.take 25) ∧
    ∃ results : List (Dict × Delay),
      top = results.map (SubscriptionService.enrich env.geo) ∧
      results.Pairwise (fun a b => a.2 ≤ b.2) ∧
      ∀ r ∈ results, r.2 ≤ ((cfg.MAX_DELAY_MS : ℚ) : Delay) ∧
        pyGetN (SubscriptionService.enrich env.geo r) (S "delay") = .int (pyroundD r.2) ∧
        pyroundD r.2 ≤ cfg.MAX_DELAY_MS := by
  have hup : SubscriptionService.updateCache cfg env st =
      SubscriptionService.postPhase cfg env top
        { st with cachedAll := some top, cachedTop25 := some (top.take 25) } := by
    unfold SubscriptionService.updateCache
    rw [if_neg (by rw [hl]; exact fun h => nomatch h), hok]
  refine ⟨?_, ?_, ?_⟩
  · rw [hup, (postPhase_frame _ _ _ _).1]
  · rw [hup, (postPhase_frame _ _ _ _).2]
  · unfold SubscriptionService.computeTopServers at hok
    cases hf : env.fetched with
    | error e =>
        rw [hf] at hok
        dsimp only [Except.bind, bind] at hok
        cases hok
    | ok batches =>
        rw [hf] at hok
        dsimp only [Except.bind, bind, pure, Except.pure] at hok
        by_cases he : (SubscriptionService.fetchSubscriptionServers cfg batches).isEmpty = true
        · rw [if_pos he] at hok
          injection hok with htop
          refine ⟨[], by rw [← htop]; rfl, List.Pairwise.nil, ?_⟩
          intro r hr
          cases hr
        · rw [if_neg he] at hok
          injection hok with htop
          refine ⟨pySorted (fun a b => decide (a.2 < b.2))
            ((((chunks cfg.BATCH_SIZE
              (SubscriptionService.fetchSubscriptionServers cfg batches)).enum.map
              (fun p => XrayService.runTestBatch (env.benvs p.1) p.2)).flatten).filter
              (fun r => decide (r.2 ≤ ((cfg.MAX_DELAY_MS : ℚ) : Delay)))),
            htop.symm, ?_, ?_⟩
          · refine pySorted_pairwise ?_ ?_ ?_ _
            · exact fun a b hab => le_of_lt (of_decide_eq_true hab)
            · exact fun a b hab => not_lt.mp (of_decide_eq_false hab)
            · exact fun a b c h1 h2 => le_trans h1 h2
          · intro r hr
            have hmem := pySorted_mem hr
            have hcond := (List.mem_filter.mp hmem).2
            have hle : r.2 ≤ ((cfg.MAX_DELAY_MS : ℚ) : Delay) := of_decide_eq_true hcond
            refine ⟨hle, enrich_delay_field env.geo r, ?_⟩
            cases hr2 : r.2 with
            | none =>
                rw [hr2] at hle
                exact absurd (top_le_iff.mp hle) (by simp)
            | some q =>
                rw [hr2] at hle
                have hq : q ≤ ((cfg.MAX_DELAY_MS : ℚ)) := WithTop.coe_le_coe.mp hle
                show pyround q ≤ cfg.MAX_DELAY_MS
                exact pyround_le_int q cfg.MAX_DELAY_MS hq

set_option maxRecDepth 8000 in
/-- Witness: C2 applied to the concrete 50 ms tick over an unlocked
empty cache state. -/
theorem C2_refresh_tick_invariants_witness :
    (⟨none, none, [], none, false⟩ : CacheState).processingLocked = false ∧
    SubscriptionService.computeTopServers cfg0 envLive =
      .ok ((SubscriptionService.computeTopServers cfg0 envLive).toOption.getD []) ∧
    ((SubscriptionService.updateCache cfg0 envLive ⟨none, none, [], none, false⟩).cachedAll =
      some ((SubscriptionService.computeTopServers cfg0 envLive).toOption.getD []) ∧
    (SubscriptionService.updateCache cfg0 envLive ⟨none, none, [], none, false⟩).cachedTop25 =
      some (((SubscriptionService.computeTopServers cfg0 envLive).toOption.getD []).take 25) ∧
    ∃ results : List (Dict × Delay),
      (SubscriptionService.computeTopServers cfg0 envLive).toOption.getD [] =
        results.map (SubscriptionService.enrich envLive.geo) ∧
      results.Pairwise (fun a b => a.2 ≤ b.2) ∧
      ∀ r ∈ results, r.2 ≤ ((cfg0.MAX_DELAY_MS : ℚ) : Delay) ∧
        pyGetN (SubscriptionService.enrich envLive.geo r) (S "delay") = .int (pyroundD r.2) ∧
        pyroundD r.2 ≤ cfg0.MAX_DELAY_MS) :=
  ⟨rfl, rfl,
   C2_refresh_tick_invariants cfg0 envLive ⟨none, none, [], none, false⟩
     ((SubscriptionService.computeTopServers cfg0 envLive).toOption.getD []) rfl rfl⟩
